import Mathlib

/-!
# lined: a shallow embedding of the line editor and its properties

The definitions follow the headers under `include/lined/`.  Conventions:

* `std::string` is a `List Nat` of bytes, `std::u32string` a `List Nat` of code points;
* a function that may raise returns `Option` when it has no object state to leave behind,
  and otherwise the object as the call left it together with a flag `raised`
  (an exception does not roll back the assignments made before it);
* the terminal is the list of bytes written to the output descriptor so far.
-/

namespace lined
namespace detail

/-! ## utf8.hpp -/

/-- The incremental decoder `utf8_decoder`. -/
structure utf8_decoder where
  m_chars_required : Nat := 0
  m_code_point : Nat := 0
deriving DecidableEq, Repr

/-- The member `utf8_decoder::write_char(uint8_t c)`.  `none` is the `throw std::exception{}`
of the last lead-byte branch (the decoder is untouched on that path); otherwise the decoder
after the call and the optional code point returned.  `m_code_point` is a `char32_t`. -/
def utf8_decoder.write_char (d : utf8_decoder) (c0 : Nat) : Option (utf8_decoder × Option Nat) :=
  let c := c0 % 256
  if d.m_chars_required = 0 then
    if c &&& 0b10000000 = 0 then
      some (d, some c)
    else if c &&& 0b11000000 ≠ 0 ∧ c &&& 0b00100000 = 0 then
      some ({ m_code_point := c &&& 0b00011111, m_chars_required := 1 }, none)
    else if c &&& 0b11100000 ≠ 0 ∧ c &&& 0b00010000 = 0 then
      some ({ m_code_point := c &&& 0b00001111, m_chars_required := 2 }, none)
    else if c &&& 0b11110000 ≠ 0 ∧ c &&& 0b00001000 = 0 then
      some ({ m_code_point := c &&& 0b00000111, m_chars_required := 3 }, none)
    else
      none
  else
    let cp := ((d.m_code_point <<< 6) + (c &&& 0b00111111)) % 2 ^ 32
    let n := d.m_chars_required - 1
    if n = 0 then
      some ({ m_code_point := cp, m_chars_required := n }, some cp)
    else
      some ({ m_code_point := cp, m_chars_required := n }, none)

/-- The loop of `decode_utf8`: every byte goes through `write_char`, emitted code points are
collected in order. -/
def decode_utf8_from : utf8_decoder → List Nat → Option (List Nat)
  | _, [] => some []
  | d, c :: cs =>
    match d.write_char c with
    | none => none
    | some (d1, wc) =>
      match decode_utf8_from d1 cs with
      | none => none
      | some out => some (wc.toList ++ out)

/-- The function `decode_utf8(std::string_view)`; `none` when `write_char` raises. -/
def decode_utf8 (str : List Nat) : Option (List Nat) :=
  decode_utf8_from {} str

/-- One iteration of the loop of `encode_utf8`: the bytes pushed for `code_point`, `none` for the
`throw std::runtime_error` of the last branch. -/
def encode_code_point (code_point : Nat) : Option (List Nat) :=
  if code_point < 0x80 then
    some [code_point]
  else if 0x80 ≤ code_point ∧ code_point < 0x0800 then
    some [0b11000000 + ((code_point >>> 6) &&& 0b00011111),
          0b10000000 + (code_point &&& 0b00111111)]
  else if 0x0800 ≤ code_point ∧ code_point < 0x010000 then
    some [0b11100000 + ((code_point >>> 12) &&& 0b00001111),
          0b10000000 + ((code_point >>> 6) &&& 0b00111111),
          0b10000000 + (code_point &&& 0b00111111)]
  else if 0x010000 ≤ code_point ∧ code_point < 0x10FFFF then
    some [0b11110000 + ((code_point >>> 18) &&& 0b00000111),
          0b10000000 + ((code_point >>> 12) &&& 0b00111111),
          0b10000000 + ((code_point >>> 6) &&& 0b00111111),
          0b10000000 + (code_point &&& 0b00111111)]
  else
    none

/-- The function `encode_utf8(std::u32string_view)`; `none` when it raises. -/
def encode_utf8 : List Nat → Option (List Nat)
  | [] => some []
  | code_point :: rest =>
    match encode_code_point code_point with
    | none => none
    | some bytes =>
      match encode_utf8 rest with
      | none => none
      | some out => some (bytes ++ out)

/-- The predicate `is_continuation_byte(uint8_t c)`. -/
def is_continuation_byte (c0 : Nat) : Bool :=
  let c := c0 % 256
  (c &&& 0b10000000 ≠ 0) && (c &&& 0b01000000 = 0)

/-- The decimal digits of `std::to_string(n)` as bytes. -/
def to_string (n : Nat) : List Nat :=
  (Nat.toDigits 10 n).map Char.toNat

end detail

/-! ## style.hpp -/

/-- The class `color`: the array `m_color` is `{tag, a, b, c}` with tag 0 (absent),
1 (palette index `a`) or 2 (RGB `a b c`). -/
structure color where
  m_color : List Nat := [0, 0, 0, 0]
deriving DecidableEq, Repr

/-- The constructor `color(uint8_t color_code)`. -/
def color.palette (color_code : Nat) : color := ⟨[1, color_code % 256, 0, 0]⟩

/-- The constructor `color(uint8_t r, uint8_t g, uint8_t b)`. -/
def color.rgb (r g b : Nat) : color := ⟨[2, r % 256, g % 256, b % 256]⟩

/-- The named colour `color::gray()`. -/
def color.gray : color := color.palette 8

/-- The aggregate `style`. -/
structure style where
  bold : Bool := false
  fg : color := {}
  bg : color := {}
deriving DecidableEq, Repr

namespace detail

/-- The class `style_impl`: eight bytes, `[0]` bold, `[1]` flag bits, `[2..4]` foreground,
`[5..7]` background. -/
structure style_impl where
  m_style : List Nat := [0, 0, 0, 0, 0, 0, 0, 0]
deriving DecidableEq, Repr

/-- The converting constructor `style_impl(style s)`. -/
def style_impl.of_style (s : style) : style_impl :=
  let m : List Nat := [0, 0, 0, 0, 0, 0, 0, 0]
  let m := if s.bold then m.set 0 1 else m
  let m :=
    if s.fg.m_color.getD 0 0 ≠ 0 then
      let m := m.set 1 (m.getD 1 0 ||| (1 <<< 3))
      if s.fg.m_color.getD 0 0 = 2 then
        let m := m.set 1 (m.getD 1 0 ||| (1 <<< 2))
        ((m.set 2 (s.fg.m_color.getD 1 0)).set 3 (s.fg.m_color.getD 2 0)).set 4 (s.fg.m_color.getD 3 0)
      else
        m.set 2 (s.fg.m_color.getD 1 0)
    else m
  let m :=
    if s.bg.m_color.getD 0 0 ≠ 0 then
      let m := m.set 1 (m.getD 1 0 ||| (1 <<< 1))
      if s.bg.m_color.getD 0 0 = 2 then
        let m := m.set 1 (m.getD 1 0 ||| (1 <<< 0))
        ((m.set 5 (s.bg.m_color.getD 1 0)).set 6 (s.bg.m_color.getD 2 0)).set 7 (s.bg.m_color.getD 3 0)
      else
        m.set 5 (s.bg.m_color.getD 1 0)
    else m
  ⟨m⟩

/-- The static member `style_impl::switch_to(from, to)` with `src` for `from` and `dst` for `to`:
the escape sequence returned and the value of `from` afterwards.  Bytes: ESC is 27, `[` 91, `0` 48, `1` 49, `;` 59, `m` 109,
`38;2;` is 51 56 59 50 59 and `38;5;` is 51 56 59 53 59. -/
def style_impl.switch_to (src dst : style_impl) : List Nat × style_impl :=
  let s := dst.m_style
  if src.m_style = s then
    ([], src)
  else
    let out : List Nat := [27, 91, 48, 59]
    let out := if s.getD 0 0 = 1 then out ++ [49, 59] else out
    let out :=
      if s.getD 1 0 &&& (1 <<< 3) ≠ 0 then
        if s.getD 1 0 &&& (1 <<< 2) ≠ 0 then
          out ++ [51, 56, 59, 50, 59] ++ to_string (s.getD 2 0) ++ [59] ++ to_string (s.getD 3 0)
            ++ [59] ++ to_string (s.getD 4 0) ++ [59]
        else
          out ++ [51, 56, 59, 53, 59] ++ to_string (s.getD 2 0) ++ [59]
      else out
    let out :=
      if s.getD 1 0 &&& (1 <<< 1) ≠ 0 then
        if s.getD 1 0 &&& (1 <<< 0) ≠ 0 then
          out ++ [51, 56, 59, 50, 59] ++ to_string (s.getD 5 0) ++ [59] ++ to_string (s.getD 6 0)
            ++ [59] ++ to_string (s.getD 7 0) ++ [59]
        else
          out ++ [51, 56, 59, 53, 59] ++ to_string (s.getD 5 0) ++ [59]
      else out
    (out.dropLast ++ [109], dst)

end detail

/-- The class `style_iterator`: `m_str` and `m_out` are kept as offsets into the byte string and
into the style vector handed to the constructor. -/
structure style_iterator where
  m_str : Nat := 0
  m_out : Nat := 0
deriving DecidableEq, Repr

/-- The pre-increment `style_iterator::operator++` over the NUL-terminated bytes `str`. -/
def style_iterator.incr (str : List Nat) (it : style_iterator) : style_iterator :=
  let m_str := it.m_str + 1
  if !detail.is_continuation_byte (str.getD m_str 0) then
    { m_str := m_str, m_out := it.m_out + 1 }
  else
    { m_str := m_str, m_out := it.m_out }

/-- The members `operator+=(int n)` and `operator+(int n)`: `n` increments. -/
def style_iterator.add (str : List Nat) (it : style_iterator) : Nat → style_iterator
  | 0 => it
  | n + 1 => style_iterator.add str (it.incr str) n

/-- The assignment `style_iterator::operator=(const style&)`: `*m_out = s`. -/
def style_iterator.assign (it : style_iterator) (style_vec : List detail.style_impl) (s : style) :
    List detail.style_impl :=
  style_vec.set it.m_out (detail.style_impl.of_style s)

namespace detail

/-! ## terminal_string.hpp

`wcwidth9.hpp` is not among the sources: the normalised width `wcwidth9_norm` of a code point is
a parameter of everything that measures text.  It is a number of columns (a `Nat`); nothing
below depends on which widths the table holds. -/

/-- The class `terminal_string`. -/
structure terminal_string where
  m_buf : List Nat := []
  m_width : List Nat := []
  m_style : List style_impl := []
  m_total_width : Int := 0
deriving DecidableEq, Repr

section terminal_string
variable (wcwidth9_norm : Nat → Nat)

/-- The constructor `terminal_string(std::u32string_view, style)`. -/
def terminal_string.of_u32 (str : List Nat) (default_style : style := {}) : terminal_string :=
  { m_buf := str
    m_width := str.map wcwidth9_norm
    m_style := List.replicate str.length (style_impl.of_style default_style)
    m_total_width := ((str.map wcwidth9_norm).map Int.ofNat).sum }

/-- The constructor `terminal_string(std::string_view, style)`; `none` when `decode_utf8` raises. -/
def terminal_string.of_string (str : List Nat) (default_style : style := {}) :
    Option terminal_string :=
  match decode_utf8 str with
  | none => none
  | some wstr => some (terminal_string.of_u32 wcwidth9_norm wstr default_style)

/-- The member `terminal_string::insert(i, c)`. -/
def terminal_string.insert (s : terminal_string) (i c : Nat) : terminal_string :=
  let w := wcwidth9_norm c
  { m_buf := s.m_buf.take i ++ c :: s.m_buf.drop i
    m_width := s.m_width.take i ++ w :: s.m_width.drop i
    m_style := s.m_style.take i ++ ({} : style_impl) :: s.m_style.drop i
    m_total_width := s.m_total_width + w }

end terminal_string

/-- The member `operator[]`: the code point at `i`. -/
def terminal_string.at (s : terminal_string) (i : Nat) : Nat := s.m_buf.getD i 0

/-- The member `operator+`.  The result starts from an empty `terminal_string`; its style vector
only receives the styles of `other`. -/
def terminal_string.plus (s other : terminal_string) : terminal_string :=
  { m_buf := s.m_buf ++ other.m_buf
    m_width := s.m_width ++ other.m_width
    m_style := other.m_style
    m_total_width := s.m_total_width + other.m_total_width }

/-- The member `operator+=`. -/
def terminal_string.append (s other : terminal_string) : terminal_string :=
  { m_buf := s.m_buf ++ other.m_buf
    m_width := s.m_width ++ other.m_width
    m_style := s.m_style ++ other.m_style
    m_total_width := s.m_total_width + other.m_total_width }

/-- The member `to_string()`. -/
def terminal_string.to_string (s : terminal_string) : Option (List Nat) := encode_utf8 s.m_buf

/-- The member `size()`. -/
def terminal_string.size (s : terminal_string) : Nat := s.m_buf.length

/-- The member `empty()`. -/
def terminal_string.empty (s : terminal_string) : Bool := s.m_buf.isEmpty

/-- The member `clear()`: the three vectors are cleared, `m_total_width` is left alone. -/
def terminal_string.clear (s : terminal_string) : terminal_string :=
  { s with m_buf := [], m_width := [], m_style := [] }

/-- The elements `[b, e)` of a vector. -/
def slice {α : Type} (xs : List α) (b e : Nat) : List α := (xs.drop b).take (e - b)

/-- The member `substr(begin, end)`. -/
def terminal_string.substr (s : terminal_string) (b e : Nat) : terminal_string :=
  { m_buf := slice s.m_buf b e
    m_width := slice s.m_width b e
    m_style := slice s.m_style b e
    m_total_width := ((slice s.m_width b e).map Int.ofNat).sum }

/-- The member `erase(begin, end)`. -/
def terminal_string.erase (s : terminal_string) (b e : Nat) : terminal_string :=
  let w := ((slice s.m_width b e).map Int.ofNat).sum
  { m_total_width := s.m_total_width - w
    m_buf := s.m_buf.take b ++ s.m_buf.drop e
    m_width := s.m_width.take b ++ s.m_width.drop e
    m_style := s.m_style.take b ++ s.m_style.drop e }

/-- Exchange of the elements at `a` and `b` (`std::swap(v[a], v[b])`). -/
def swap_at {α : Type} (xs : List α) (a b : Nat) : List α :=
  match xs[a]?, xs[b]? with
  | some x, some y => (xs.set a y).set b x
  | _, _ => xs

/-- The member `swap(a, b)`. -/
def terminal_string.swap (s : terminal_string) (a b : Nat) : terminal_string :=
  { s with
    m_buf := swap_at s.m_buf a b
    m_width := swap_at s.m_width a b
    m_style := swap_at s.m_style a b }

/-! ## fd.hpp -/

/-- The class `output_fd`: the descriptor and, in `written`, every byte handed to `::write`
through it so far (short writes are ignored by the source and not modelled). -/
structure output_fd where
  m_fd : Int := 1
  written : List Nat := []
deriving DecidableEq, Repr

/-- The member `output_fd::write(std::string_view)`. -/
def output_fd.write (o : output_fd) (str : List Nat) : output_fd :=
  if str.length ≠ 0 then { o with written := o.written ++ str } else o

/-- The member `output_fd::write(std::u32string_view)`; `none` when `encode_utf8` raises. -/
def output_fd.write_u32 (o : output_fd) (str : List Nat) : Option output_fd :=
  match encode_utf8 str with
  | none => none
  | some bytes => some (o.write bytes)

/-! ## terminal_line.hpp -/

/-- The aggregate `term_state`: a frame as written to the terminal and the cursor column. -/
structure term_state where
  buf : terminal_string := {}
  column : Int := 0
deriving DecidableEq, Repr

/-- The class `terminal_line`.  The hint callback maps the line (UTF-8) to the hint (UTF-8); the
colorization callback is represented by the assignments it makes through the `style_iterator` it
is given: a pair `(n, s)` stands for `iter[n] = s`, that is `*(iter + n) = s`. -/
structure terminal_line where
  m_fd : output_fd := {}
  m_columns : Int := 0
  m_prompt : terminal_string := {}
  m_buf : terminal_string := {}
  m_hint_callback : Option (List Nat → List Nat) := none
  m_hint : terminal_string := {}
  m_color_callback : Option (List Nat → List (Nat × style)) := none
  m_position : Nat := 0
  m_view_start : Nat := 0
  m_prev : term_state := {}
  m_current_style : style_impl := style_impl.of_style {}
  m_popped : Bool := false
  m_masked : Bool := false
  m_hint_style : style := {}

/-- The loop of `iterate_view_forward` over the widths from index `i` on. -/
def iterate_view_forward_loop (max_width : Int) : List Nat → Nat → Int → Nat × Int
  | [], i, w => (i, w)
  | x :: rest, i, w =>
    if w + x ≤ max_width then iterate_view_forward_loop max_width rest (i + 1) (w + x) else (i, w)

/-- The member `iterate_view_forward(start, max_width, width)`. -/
def iterate_view_forward (start : Nat) (max_width : Int) (width : List Nat) : Nat × Int :=
  iterate_view_forward_loop max_width (width.drop start) start 0

/-- The loop of `iterate_view_backward`, by recursion on `i`. -/
def iterate_view_backward_loop (max_width : Int) (width : List Nat) : Nat → Int → Nat × Int
  | 0, w => (0, w)
  | i + 1, w =>
    if w + width.getD i 0 ≤ max_width then
      iterate_view_backward_loop max_width width i (w + width.getD i 0)
    else (i + 1, w)

/-- The member `iterate_view_backward(start, max_width, width)`. -/
def iterate_view_backward (start : Nat) (max_width : Int) (width : List Nat) : Nat × Int :=
  iterate_view_backward_loop max_width width start 0

/-- The member `move_cursor_to(column, prev)`: the descriptor afterwards and the new value of
`prev`.  `C` is 67 and `D` is 68. -/
def move_cursor_to (fd : output_fd) (column prev : Int) : output_fd × Int :=
  let n := column - prev
  if n > 0 then
    (fd.write ([27, 91] ++ to_string n.toNat ++ [67]), column)
  else if n < 0 then
    (fd.write ([27, 91] ++ to_string (-n).toNat ++ [68]), column)
  else
    (fd, column)

/-- The local variables of the comparison loop of `sync`.  `end_update` is `none` for the
sentinel `-1UL`; `start_col` and `end_col` are kept as the `int` they are converted to. -/
structure sync_vars where
  i : Nat := 0
  i_col : Nat := 0
  j : Nat := 0
  j_col : Nat := 0
  start_col : Int := 0
  end_col : Int := 0
  start_update : Nat := 0
  end_update : Option Nat := none
  first : Bool := true
deriving DecidableEq, Repr

/-- The comparison loop of `sync` (`while (i < state.buf.size() && j < m_prev.buf.size())`);
every iteration advances `i` or `j`, so `state.size + prev.size` iterations are enough fuel. -/
def sync_compare (state prev : terminal_string) : Nat → sync_vars → sync_vars
  | 0, v => v
  | fuel + 1, v =>
    if v.i < state.size ∧ v.j < prev.size then
      if v.i_col = v.j_col then
        let v1 : sync_vars :=
          if state.at v.i ≠ prev.at v.j
              ∨ state.m_style.getD v.i {} ≠ prev.m_style.getD v.j {} then
            let v0 : sync_vars :=
              if v.first then
                { v with first := false, start_update := v.i, start_col := v.i_col }
              else v
            { v0 with end_update := some v.i, end_col := v.i_col + state.m_width.getD v.i 0 }
          else v
        sync_compare state prev fuel
          { v1 with
            i_col := v.i_col + state.m_width.getD v.i 0
            j_col := v.j_col + prev.m_width.getD v.j 0
            i := v.i + 1
            j := v.j + 1 }
      else if v.i_col > v.j_col then
        sync_compare state prev fuel
          { v with j_col := v.j_col + prev.m_width.getD v.j 0, j := v.j + 1 }
      else
        sync_compare state prev fuel
          { v with
            end_update := some v.i
            end_col := v.i_col + state.m_width.getD v.i 0
            i_col := v.i_col + state.m_width.getD v.i 0
            i := v.i + 1 }
    else v

/-- The writing loop of `sync` (`while (!to_write.empty())`) over the code points `to_write` and
the styles in `[style_it, style_end)`: descriptor, `m_current_style`, and whether `encode_utf8`
raised.  With as many styles as code points the loop ends within `to_write.length + 1` rounds. -/
def sync_write : Nat → output_fd → style_impl → List Nat → List style_impl →
    output_fd × style_impl × Bool
  | 0, fd, cur, _, _ => (fd, cur, false)
  | fuel + 1, fd, cur, to_write, styles =>
    if to_write.isEmpty then (fd, cur, false)
    else
      let n := (styles.takeWhile (fun s => decide (s = cur))).length
      match fd.write_u32 (to_write.take n) with
      | none => (fd, cur, true)
      | some fd1 =>
        if n < styles.length then
          let sw := style_impl.switch_to cur (styles.getD n {})
          sync_write fuel (fd1.write sw.1) sw.2 (to_write.drop n) (styles.drop n)
        else
          sync_write fuel fd1 cur (to_write.drop n) styles

/-- The first part of `sync`: the comparison loop from the initial values of the locals, and
the statement `if (i < state.buf.size()) { ... }` that follows it. -/
def sync_scan (state prev : terminal_string) : sync_vars :=
  let v := sync_compare state prev (state.size + prev.size) {}
  if v.i < state.size then
    { v with end_update := some (state.size - 1), end_col := state.m_total_width }
  else v

/-- The block `if (end_update != -1UL) { ... }` of `sync`: the descriptor, `m_current_style`,
whether `encode_utf8` raised, and the local `current_column` afterwards. -/
def sync_update (fd : output_fd) (cur : style_impl) (state : terminal_string) (v : sync_vars)
    (current_column : Int) : output_fd × style_impl × Bool × Int :=
  match v.end_update with
  | none => (fd, cur, false, current_column)
  | some end_update =>
    let mv := move_cursor_to fd v.start_col current_column
    let to_write := (state.m_buf.drop v.start_update).take (end_update - v.start_update + 1)
    let styles := slice state.m_style v.start_update (end_update + 1)
    let r := sync_write (2 * to_write.length + 2) mv.1 cur to_write styles
    if r.2.2 then (r.1, r.2.1, true, mv.2)
    else
      let sw := style_impl.switch_to r.2.1 (style_impl.of_style {})
      (r.1.write sw.1, sw.2, false, v.end_col)

/-- The block `if (j < m_prev.buf.size()) { ... }` of `sync`: the descriptor and the local
`current_column` afterwards.  `K` is 75. -/
def sync_erase (fd : output_fd) (state prev : terminal_string) (v : sync_vars)
    (current_column : Int) : output_fd × Int :=
  if v.j < prev.size then
    let mv := move_cursor_to fd state.m_total_width current_column
    (mv.1.write [27, 91, 75], mv.2)
  else (fd, current_column)

section terminal_line
variable (wcwidth9_norm : Nat → Nat)

/-- The member `current_state()`: the line with `m_view_start` updated, and the target frame. -/
def terminal_line.current_state (t : terminal_line) : terminal_line × term_state :=
  let width := if t.m_masked then List.replicate t.m_buf.size 1 else t.m_buf.m_width
  let view_start0 := if t.m_position < t.m_view_start then t.m_position else t.m_view_start
  let fwd := iterate_view_forward view_start0 t.m_columns width
  let bk :=
    if t.m_position > fwd.1 then iterate_view_backward t.m_position t.m_columns width
    else iterate_view_backward view_start0 (t.m_columns - fwd.2) width
  let view_start := bk.1
  let e := if t.m_position > fwd.1 then t.m_position else fwd.1
  let total_width := if t.m_position > fwd.1 then bk.2 else fwd.2 + bk.2
  let column := t.m_prompt.m_total_width + ((slice width view_start t.m_position).map Int.ofNat).sum
  let view :=
    t.m_prompt.append
      (if t.m_masked then
        (terminal_string.of_string wcwidth9_norm (List.replicate t.m_buf.size 42)).getD {}
      else t.m_buf.substr view_start e)
  let view :=
    if e = t.m_buf.size then
      let hint_view := iterate_view_forward 0 (t.m_columns - total_width) t.m_hint.m_width
      if hint_view.1 > 0 then view.append (t.m_hint.substr 0 hint_view.1) else view
    else view
  ({ t with m_view_start := view_start }, { buf := view, column := column })

/-- The member `sync()`: the line afterwards and whether an exception escaped (from the
`encode_utf8` inside `m_fd.write`); in that case `m_prev` has not been assigned. -/
def terminal_line.sync (t : terminal_line) : terminal_line × Bool :=
  let cs := t.current_state wcwidth9_norm
  let v := sync_scan cs.2.buf cs.1.m_prev.buf
  let u := sync_update cs.1.m_fd cs.1.m_current_style cs.2.buf v cs.1.m_prev.column
  if u.2.2.1 then
    ({ cs.1 with m_fd := u.1, m_current_style := u.2.1 }, true)
  else
    let er := sync_erase u.1 cs.2.buf cs.1.m_prev.buf v u.2.2.2
    let mv := move_cursor_to er.1 cs.2.column er.2
    ({ cs.1 with m_fd := mv.1, m_current_style := u.2.1, m_prev := cs.2 }, false)

/-- The assignments of the colorization callback applied to `style_vec` through an iterator
over `str`. -/
def apply_color_writes (str : List Nat) :
    List (Nat × style) → List style_impl → List style_impl
  | [], style_vec => style_vec
  | (n, s) :: rest, style_vec =>
    apply_color_writes str rest
      ((style_iterator.add str { m_str := 0, m_out := 0 } n).assign style_vec s)

/-- The block `if (m_hint_callback) { ... }` of `modified_sync`; the flag is set when
`to_string()` or the decoding of the hint raises. -/
def terminal_line.update_hint (t : terminal_line) : terminal_line × Bool :=
  match t.m_hint_callback with
  | none => (t, false)
  | some cb =>
    match t.m_buf.to_string with
    | none => (t, true)
    | some str =>
      match terminal_string.of_string wcwidth9_norm (cb str) t.m_hint_style with
      | none => (t, true)
      | some hint => ({ t with m_hint := hint }, false)

/-- The block `if (m_color_callback) { ... }` of `modified_sync`; the flag is set when
`to_string()` raises. -/
def terminal_line.update_colors (t : terminal_line) : terminal_line × Bool :=
  match t.m_color_callback with
  | none => (t, false)
  | some cb =>
    match t.m_buf.to_string with
    | none => (t, true)
    | some str =>
      let style_vec := List.replicate t.m_buf.size ({} : style_impl)
      ({ t with m_buf := { t.m_buf with m_style := apply_color_writes str (cb str) style_vec } },
        false)

/-- The member `modified_sync()`. -/
def terminal_line.modified_sync (t : terminal_line) : terminal_line × Bool :=
  if !t.m_masked then
    let h := t.update_hint wcwidth9_norm
    if h.2 then h
    else
      let c := h.1.update_colors
      if c.2 then c else c.1.sync wcwidth9_norm
  else
    t.sync wcwidth9_norm

/-- The constructor of `terminal_line`; `ws_col` is the column count reported by
`ioctl(TIOCGWINSZ)`, `none` when the call fails. -/
def terminal_line.create (fd : Int) (prompt : terminal_string)
    (hint_callback : Option (List Nat → List Nat))
    (color_callback : Option (List Nat → List (Nat × style)))
    (masked : Bool) (hint_style : style) (ws_col : Option Nat) : terminal_line × Bool :=
  let columns : Int :=
    match ws_col with
    | none => 79 - prompt.m_total_width
    | some col => if col = 0 then 79 - prompt.m_total_width else col - prompt.m_total_width - 1
  terminal_line.sync wcwidth9_norm
    { m_fd := { m_fd := fd }
      m_columns := columns
      m_prompt := prompt
      m_hint_callback := hint_callback
      m_color_callback := color_callback
      m_masked := masked
      m_hint_style := hint_style }

/-- The member `cursor_back()`. -/
def terminal_line.cursor_back (t : terminal_line) : terminal_line × Bool :=
  if t.m_position = 0 then (t, false)
  else terminal_line.sync wcwidth9_norm { t with m_position := t.m_position - 1 }

/-- The member `cursor_forward()`. -/
def terminal_line.cursor_forward (t : terminal_line) : terminal_line × Bool :=
  if t.m_position = t.m_buf.size then (t, false)
  else terminal_line.sync wcwidth9_norm { t with m_position := t.m_position + 1 }

/-- The member `cursor_home()`. -/
def terminal_line.cursor_home (t : terminal_line) : terminal_line × Bool :=
  terminal_line.sync wcwidth9_norm { t with m_position := 0 }

/-- The member `cursor_end()`. -/
def terminal_line.cursor_end (t : terminal_line) : terminal_line × Bool :=
  terminal_line.sync wcwidth9_norm { t with m_position := t.m_buf.size }

/-- The member `insert_character(to_insert)`. -/
def terminal_line.insert_character (t : terminal_line) (to_insert : Nat) : terminal_line × Bool :=
  terminal_line.modified_sync wcwidth9_norm
    { t with
      m_buf := t.m_buf.insert wcwidth9_norm t.m_position to_insert
      m_position := t.m_position + 1 }

/-- The member `erase_previous_character()`. -/
def terminal_line.erase_previous_character (t : terminal_line) : terminal_line × Bool :=
  if t.m_position = 0 then (t, false)
  else
    terminal_line.modified_sync wcwidth9_norm
      { t with
        m_buf := t.m_buf.erase (t.m_position - 1) t.m_position
        m_position := t.m_position - 1 }

/-- The member `erase_current_character()`. -/
def terminal_line.erase_current_character (t : terminal_line) : terminal_line × Bool :=
  if t.m_position = t.m_buf.size then (t, false)
  else
    terminal_line.modified_sync wcwidth9_norm
      { t with m_buf := t.m_buf.erase t.m_position (t.m_position + 1) }

/-- The member `erase_line_backward()`. -/
def terminal_line.erase_line_backward (t : terminal_line) : terminal_line × Bool :=
  terminal_line.modified_sync wcwidth9_norm
    { t with m_buf := t.m_buf.erase 0 t.m_position, m_position := 0 }

/-- The member `erase_line_forward()`. -/
def terminal_line.erase_line_forward (t : terminal_line) : terminal_line × Bool :=
  terminal_line.modified_sync wcwidth9_norm
    { t with m_buf := t.m_buf.erase t.m_position t.m_buf.size }

/-- The member `swap_characters()`. -/
def terminal_line.swap_characters (t : terminal_line) : terminal_line × Bool :=
  if t.m_position = 0 ∨ t.m_buf.size < 2 then (t, false)
  else
    let position := if t.m_position = t.m_buf.size then t.m_position - 1 else t.m_position
    terminal_line.modified_sync wcwidth9_norm
      { t with m_buf := t.m_buf.swap position (position - 1), m_position := position + 1 }

/-- The first loop of `erase_previous_word`: `while (i > 0 && m_buf[i] == ' ') i--`. -/
def skip_spaces_back (buf : terminal_string) : Nat → Nat
  | 0 => 0
  | i + 1 => if buf.at (i + 1) = 32 then skip_spaces_back buf i else i + 1

/-- The second loop of `erase_previous_word`: `while (i > 0 && m_buf[i] != ' ') i--`. -/
def skip_word_back (buf : terminal_string) : Nat → Nat
  | 0 => 0
  | i + 1 => if buf.at (i + 1) ≠ 32 then skip_word_back buf i else i + 1

/-- The member `erase_previous_word()`. -/
def terminal_line.erase_previous_word (t : terminal_line) : terminal_line × Bool :=
  if t.m_position = 0 then (t, false)
  else
    let i := t.m_position - 1
    let i := skip_spaces_back t.m_buf i
    let i := skip_word_back t.m_buf i
    let erase_start := if i = 0 then 0 else i + 1
    terminal_line.modified_sync wcwidth9_norm
      { t with m_buf := t.m_buf.erase erase_start t.m_position, m_position := erase_start }

/-- The member `redraw()`. -/
def terminal_line.redraw (t : terminal_line) : terminal_line × Bool :=
  terminal_line.sync wcwidth9_norm { t with m_prev := {} }

/-- The member `clear_screen()`: writes `ESC [ 2 J ESC [ 1 ; 1 H`, then `redraw()`. -/
def terminal_line.clear_screen (t : terminal_line) : terminal_line × Bool :=
  terminal_line.redraw wcwidth9_norm
    { t with m_fd := t.m_fd.write [27, 91, 50, 74, 27, 91, 49, 59, 49, 72] }

/-- The member `pop_line()`: the line afterwards and the string returned, `none` when an
exception escaped. -/
def terminal_line.pop_line (t : terminal_line) : terminal_line × Option (List Nat) :=
  let r := terminal_line.sync wcwidth9_norm { t with m_popped := true, m_hint := t.m_hint.clear }
  if r.2 then (r.1, none)
  else
    let t1 := { r.1 with m_fd := r.1.m_fd.write [13, 10] }
    (t1, t1.m_buf.to_string)

/-- The member `new_line()`. -/
def terminal_line.new_line (t : terminal_line) : terminal_line × Bool :=
  terminal_line.redraw wcwidth9_norm { t with m_fd := t.m_fd.write [13, 10] }

/-- The member `set_line(str)`. -/
def terminal_line.set_line (t : terminal_line) (str : List Nat) : terminal_line × Bool :=
  terminal_line.modified_sync wcwidth9_norm
    { t with m_position := str.length, m_buf := terminal_string.of_u32 wcwidth9_norm str }

end terminal_line

/-- The member `erase_line_visual()`: writes `\r ESC [ 2 K`. -/
def terminal_line.erase_line_visual (t : terminal_line) : terminal_line :=
  { t with m_fd := t.m_fd.write [13, 27, 91, 50, 75] }

/-- The member `current_line()`. -/
def terminal_line.current_line (t : terminal_line) : List Nat := t.m_buf.m_buf

/-- The member `empty()`. -/
def terminal_line.empty (t : terminal_line) : Bool := t.m_buf.empty

/-! ## history.hpp -/

/-- The aggregate `history_entry`. -/
structure history_entry where
  original : List Nat := []
  edited : Option (List Nat) := none
deriving DecidableEq, Repr

/-- The member `history_entry::value()`. -/
def history_entry.value (h : history_entry) : List Nat :=
  match h.edited with
  | some e => e
  | none => h.original

/-- The class `history`; `m_history` is the deque, front first. -/
structure history where
  m_history : List history_entry := [{}]
  m_index : Nat := 0
  m_max_size : Nat := 0
deriving DecidableEq, Repr

/-- The constructor `history(max_size)`. -/
def history.create (max_size : Nat) : history :=
  { m_history := [{}], m_index := 0, m_max_size := max_size }

/-- The member `history::add(str)`; `m_max_size + 1` is computed in `std::size_t`. -/
def history.add (h : history) (str : List Nat) : history :=
  if h.m_history.length ≥ 2 ∧ str = (h.m_history.getD 1 {}).value then
    { h with m_history := h.m_history.set 0 {}, m_index := 0 }
  else
    let hs := h.m_history.set 0 { original := str, edited := none }
    let hs := ({} : history_entry) :: hs
    let hs := if hs.length > (h.m_max_size + 1) % 2 ^ 64 then hs.dropLast else hs
    { h with m_history := hs, m_index := 0 }

/-- The member `history::record_entry(str)`. -/
def history.record_entry (h : history) (str : List Nat) : history :=
  let e := h.m_history.getD h.m_index {}
  if e.original ≠ str then
    { h with m_history := h.m_history.set h.m_index { e with edited := some str } }
  else
    { h with m_history := h.m_history.set h.m_index { e with edited := none } }

/-- The member `history::current_entry()`. -/
def history.current_entry (h : history) : List Nat :=
  let e := h.m_history.getD h.m_index {}
  match e.edited with
  | some ed => ed
  | none => e.original

/-- The member `history::record_and_go_back(str)`. -/
def history.record_and_go_back (h : history) (str : List Nat) : history × Option (List Nat) :=
  if h.m_index = h.m_history.length - 1 then (h, none)
  else
    let h1 := h.record_entry str
    let h2 := { h1 with m_index := h1.m_index + 1 }
    (h2, some h2.current_entry)

/-- The member `history::record_and_go_forward(str)`. -/
def history.record_and_go_forward (h : history) (str : List Nat) : history × Option (List Nat) :=
  if h.m_index = 0 then (h, none)
  else
    let h1 := h.record_entry str
    let h2 := { h1 with m_index := h1.m_index - 1 }
    (h2, some h2.current_entry)

/-- The calls `std::getline(file, line)` of `history::load` over the bytes still to be read from
the file, `cur` being the part of the current line already extracted: a line ends at the byte 10,
which is dropped; at the end of the file a last line is delivered only when bytes were extracted
for it. -/
def getlines : List Nat → List Nat → List (List Nat)
  | [], cur => if cur.isEmpty then [] else [cur]
  | c :: rest, cur => if c = 10 then cur :: getlines rest [] else getlines rest (cur ++ [c])

/-- The loop of `history::load`: every line is decoded and pushed to the front of the deque; the
flag is set when `decode_utf8` raises. -/
def history.load_loop : List history_entry → List (List Nat) → List history_entry × Bool
  | hs, [] => (hs, false)
  | hs, line :: rest =>
    match decode_utf8 line with
    | none => (hs, true)
    | some str => history.load_loop ({ original := str, edited := none } :: hs) rest

/-- The member `history::load(path)`, `file` being the bytes of the file at `path` (no bytes for
a file that cannot be opened): the object afterwards and whether `decode_utf8` raised. -/
def history.load (h : history) (file : List Nat) : history × Bool :=
  let l := history.load_loop [] (getlines file [])
  if l.2 then ({ h with m_history := l.1 }, true)
  else
    let hs := ({} : history_entry) :: l.1
    ({ m_history := hs
       m_index := 0
       m_max_size := if h.m_max_size < hs.length - 1 then hs.length - 1 else h.m_max_size },
      false)

/-- The loop of `history::save` over the entries from `rbegin()` on: the bytes written and
whether `encode_utf8` raised. -/
def history.save_loop : List history_entry → List Nat × Bool
  | [] => ([], false)
  | e :: rest =>
    match encode_utf8 e.original with
    | none => ([], true)
    | some bytes => (bytes ++ 10 :: (history.save_loop rest).1, (history.save_loop rest).2)

/-- The member `history::save(path)`: the bytes written to the file at `path` and whether
`encode_utf8` raised.  The loop runs from `rbegin()` to `rend() - 1`, that is over the entries
after the first one, last entry first. -/
def history.save (h : history) : List Nat × Bool :=
  history.save_loop (h.m_history.drop 1).reverse

/-! ## completion.hpp -/

/-- The class `completion`; the callback maps the line (UTF-8) to the candidates (UTF-8). -/
structure completion where
  m_callback : Option (List Nat → List (List Nat)) := none
  m_completions : Option (List (List Nat)) := none
  m_index : Nat := 0

/-- All of `decode_utf8(c)` for the candidates `c`, in order; `none` when one raises. -/
def decode_all : List (List Nat) → Option (List (List Nat))
  | [] => some []
  | c :: rest =>
    match decode_utf8 c with
    | none => none
    | some u =>
      match decode_all rest with
      | none => none
      | some us => some (u :: us)

/-- The member `completion::get_completions(input)`: the object afterwards, the value returned,
and whether `encode_utf8` or `decode_utf8` raised. -/
def completion.get_completions (c : completion) (input : List Nat) : completion × Bool × Bool :=
  match c.m_callback with
  | none => (c, false, false)
  | some cb =>
    match encode_utf8 input with
    | none => (c, false, true)
    | some str =>
      let completions := cb str
      if completions.isEmpty then (c, false, false)
      else
        match decode_all completions with
        | none => (c, false, true)
        | some unicode_completions =>
          let l := unicode_completions ++ [input]
          ({ c with m_completions := some l, m_index := l.length - 1 }, true, false)

/-- The second half of `get_next_completion`, once `m_completions` is engaged. -/
def completion.advance (c : completion) : completion × Option (List Nat) :=
  let l := c.m_completions.getD []
  let index := c.m_index + 1
  let index := if index = l.length then 0 else index
  ({ c with m_index := index }, some (l.getD index []))

/-- The member `completion::get_next_completion(input)`: the object afterwards, the optional
completion returned, and whether an exception escaped. -/
def completion.get_next_completion (c : completion) (input : List Nat) :
    completion × Option (List Nat) × Bool :=
  match c.m_completions with
  | none =>
    let g := c.get_completions input
    if g.2.2 then (g.1, none, true)
    else if !g.2.1 then (g.1, none, false)
    else (g.1.advance.1, g.1.advance.2, false)
  | some _ => (c.advance.1, c.advance.2, false)

/-- The member `completion::reset()`. -/
def completion.reset (c : completion) : completion := { c with m_completions := none }

end detail

/-! ## line.hpp -/

/-- The enumeration `line_error`. -/
inductive line_error where
  | ctrl_c
  | ctrl_d
  | cancelled
  | syscall
deriving DecidableEq, Repr

/-- The class `line`: the variant `m_line` holds the string (left) or the error (right). -/
structure line where
  m_line : List Nat ⊕ line_error
deriving DecidableEq, Repr

/-- The exception class `bad_line_access`. -/
inductive bad_line_access where
  | mk
deriving DecidableEq, Repr

/-- The member `has_value()`. -/
def line.has_value (l : line) : Bool :=
  match l.m_line with
  | Sum.inl _ => true
  | Sum.inr _ => false

/-- The non-const `operator->()`: the pointer `std::get_if<std::string>(&m_line)`, `none` for the
null pointer. -/
def line.arrow (l : line) : Option (List Nat) :=
  match l.m_line with
  | Sum.inl str => some str
  | Sum.inr _ => none

/-- The non-const `operator*()`: the string that `std::get_if<std::string>(&m_line)` points to;
`none` when that pointer is null, where the dereference is undefined. -/
def line.deref (l : line) : Option (List Nat) :=
  match l.m_line with
  | Sum.inl str => some str
  | Sum.inr _ => none

/-- The non-const `value()`: the held string, or the exception `bad_line_access`. -/
def line.value (l : line) : Except bad_line_access (List Nat) :=
  match l.m_line with
  | Sum.inl str => Except.ok str
  | Sum.inr _ => Except.error bad_line_access.mk

/-- The non-const `error()`: the error that `std::get_if<line_error>(&m_line)` points to; `none`
when that pointer is null, where the dereference is undefined. -/
def line.error (l : line) : Option line_error :=
  match l.m_line with
  | Sum.inl _ => none
  | Sum.inr e => some e

/-- The const `operator*()`, whose body is `return operator*();`.  Inside a const member function
`this` points to a const `line`, so the call can only resolve to the const overload: the function
calls itself.  `depth` bounds the nesting of the calls; `none` means that the call has not
returned within it. -/
def line.deref_const : Nat → line → Option (Option (List Nat))
  | 0, _ => none
  | depth + 1, l => line.deref_const depth l

/-- The const `operator->()`, whose body is `return operator->();`: the const overload again. -/
def line.arrow_const : Nat → line → Option (Option (List Nat))
  | 0, _ => none
  | depth + 1, l => line.arrow_const depth l

/-- The const `value()`, whose body is `return value();`: the const overload again. -/
def line.value_const : Nat → line → Option (Except bad_line_access (List Nat))
  | 0, _ => none
  | depth + 1, l => line.value_const depth l

/-- The const `error()`, whose body is `return error();`: the const overload again. -/
def line.error_const : Nat → line → Option (Option line_error)
  | 0, _ => none
  | depth + 1, l => line.error_const depth l

/-! ## lined.hpp -/

namespace detail.key

def null : Nat := 0
def ctrl_a : Nat := 1
def ctrl_b : Nat := 2
def ctrl_c : Nat := 3
def ctrl_d : Nat := 4
def ctrl_e : Nat := 5
def ctrl_f : Nat := 6
def ctrl_h : Nat := 8
def tab : Nat := 9
def ctrl_k : Nat := 11
def ctrl_l : Nat := 12
def enter : Nat := 13
def ctrl_n : Nat := 14
def ctrl_p : Nat := 16
def ctrl_t : Nat := 20
def ctrl_u : Nat := 21
def ctrl_w : Nat := 23
def esc : Nat := 27
def backspace : Nat := 127

end detail.key

/-- The aggregate `options`. -/
structure options where
  in_fd : Int
  out_fd : Int
  history_size : Int
  auto_history : Bool
  hint_style : style

/-- The constant `default_options`. -/
def default_options : options :=
  { in_fd := 0, out_fd := 1, history_size := 100, auto_history := true,
    hint_style := { fg := color.gray } }

/-- The class `styled_string`. -/
structure styled_string where
  m_str : detail.terminal_string := {}
  m_cur_style : style := {}
deriving DecidableEq, Repr

/-- What a call of `process_single_char` hands back: the empty optional, a `line`, or an
exception that escapes the call. -/
inductive step where
  | pending
  | committed (l : line)
  | raised
deriving DecidableEq, Repr

/-- The class `line_reader`, without the descriptors it polls (`m_in`, `m_cancel_fd`), the saved
termios and the mutex. -/
structure line_reader where
  m_decoder : detail.utf8_decoder := {}
  m_out : Int := 1
  m_line : Option detail.terminal_line := none
  m_chars_required : Nat := 0
  m_escape_str : List Nat := []
  m_history : detail.history := {}
  m_auto_history : Bool := true
  m_masked : Bool := false
  m_completion : detail.completion := {}
  m_hint_callback : Option (List Nat → List Nat) := none
  m_color_callback : Option (List Nat → List (Nat × style)) := none
  m_hint_style : style := {}

/-- The constructor `line_reader(options opt)`; `history_size` is converted to `std::size_t`. -/
def line_reader.create (opt : options) : line_reader :=
  { m_out := opt.out_fd
    m_history := detail.history.create (opt.history_size % 2 ^ 64).toNat
    m_auto_history := opt.auto_history
    m_hint_style := opt.hint_style }

/-- The member `mask()`. -/
def line_reader.mask (r : line_reader) : line_reader := { r with m_masked := true }

/-- The member `unmask()`. -/
def line_reader.unmask (r : line_reader) : line_reader := { r with m_masked := false }

/-- The member `set_completion(callback)`. -/
def line_reader.set_completion (r : line_reader) (callback : List Nat → List (List Nat)) :
    line_reader :=
  { r with m_completion := { r.m_completion with m_callback := some callback } }

/-- The member `set_hint(callback)`. -/
def line_reader.set_hint (r : line_reader) (callback : List Nat → List Nat) : line_reader :=
  { r with m_hint_callback := some callback }

/-- The member `set_colorization(callback)`. -/
def line_reader.set_colorization (r : line_reader) (callback : List Nat → List (Nat × style)) :
    line_reader :=
  { r with m_color_callback := some callback }

/-- The member `line_modified()`. -/
def line_reader.line_modified (r : line_reader) : line_reader :=
  { r with m_completion := r.m_completion.reset }

/-- A call `m_line->f()`.  Both callers of `process_single_char` engage `m_line` first; a call
through a disengaged `m_line` is reported as a raise. -/
def line_reader.on_line (r : line_reader)
    (f : detail.terminal_line → detail.terminal_line × Bool) : line_reader × Bool :=
  match r.m_line with
  | none => (r, true)
  | some t => ({ r with m_line := some (f t).1 }, (f t).2)

/-- Sequencing: the rest `k` of a member function runs unless the call before it raised. -/
def and_then (q : line_reader × Bool) (k : line_reader → line_reader × step) :
    line_reader × step :=
  if q.2 then (q.1, step.raised) else k q.1

section line_reader
variable (wcwidth9_norm : Nat → Nat)

/-- The member `activate(prompt)`; `ws_col` is what the terminal reports to the constructor of
`terminal_line`.  When that constructor raises, `m_line` stays disengaged. -/
def line_reader.activate (r : line_reader) (prompt : styled_string) (ws_col : Option Nat) :
    line_reader × Bool :=
  let c := detail.terminal_line.create wcwidth9_norm r.m_out prompt.m_str r.m_hint_callback
    r.m_color_callback r.m_masked r.m_hint_style ws_col
  if c.2 then (r, true) else ({ r with m_line := some c.1 }, false)

/-- The branches `'A'` and `'B'` of the escape dispatch: `nav` is `record_and_go_back` or
`record_and_go_forward`. -/
def line_reader.history_move (r : line_reader)
    (nav : detail.history → List Nat → detail.history × Option (List Nat)) :
    line_reader × step :=
  match r.m_line with
  | none => (r, step.raised)
  | some t =>
    let h := nav r.m_history t.current_line
    let r1 := { r with m_history := h.1 }
    match h.2 with
    | none => (r1, step.pending)
    | some new_line =>
      and_then (r1.on_line (fun l => l.set_line wcwidth9_norm new_line))
        (fun r2 => (r2.line_modified, step.pending))

/-- The dispatch of a complete escape sequence inside `process_single_char`
(`if (!m_chars_required) { ... }`), `m_escape_str` already holding the sequence. -/
def line_reader.dispatch_escape (r : line_reader) : line_reader × step :=
  let esc := r.m_escape_str
  let finish : line_reader → line_reader × step :=
    fun r1 => ({ r1 with m_escape_str := [] }, step.pending)
  if esc.getD 0 0 = 91 then
    if esc.length = 3 ∧ esc.getD 1 0 = 51 ∧ esc.getD 2 0 = 126 then
      and_then (r.on_line (fun l => l.erase_current_character wcwidth9_norm))
        (fun r1 => finish r1.line_modified)
    else if esc.getD 1 0 = 51 then
      ({ r with m_chars_required := r.m_chars_required + 1 }, step.pending)
    else if esc.getD 1 0 = 68 then
      and_then (r.on_line (fun l => l.cursor_back wcwidth9_norm)) finish
    else if esc.getD 1 0 = 67 then
      and_then (r.on_line (fun l => l.cursor_forward wcwidth9_norm)) finish
    else if esc.getD 1 0 = 72 then
      and_then (r.on_line (fun l => l.cursor_home wcwidth9_norm)) finish
    else if esc.getD 1 0 = 70 then
      and_then (r.on_line (fun l => l.cursor_end wcwidth9_norm)) finish
    else if esc.getD 1 0 = 65 ∧ !r.m_masked then
      let m := r.history_move wcwidth9_norm detail.history.record_and_go_back
      if m.2 = step.raised then m else finish m.1
    else if esc.getD 1 0 = 66 ∧ !r.m_masked then
      let m := r.history_move wcwidth9_norm detail.history.record_and_go_forward
      if m.2 = step.raised then m else finish m.1
    else finish r
  else if esc.getD 0 0 = 79 then
    if esc.getD 1 0 = 72 then
      and_then (r.on_line (fun l => l.cursor_home wcwidth9_norm)) finish
    else if esc.getD 1 0 = 70 then
      and_then (r.on_line (fun l => l.cursor_end wcwidth9_norm)) finish
    else finish r
  else finish r

/-- The part of `process_single_char` that follows `auto wc = *optional_wc`: the handling of one
decoded code point.  `m_escape_str` is a `std::string`, so `push_back(wc)` keeps `wc` as a
`char`. -/
def line_reader.process_code_point (r : line_reader) (wc : Nat) : line_reader × step :=
  if r.m_chars_required ≠ 0 then
    let r1 := { r with
      m_chars_required := r.m_chars_required - 1
      m_escape_str := r.m_escape_str ++ [wc % 256] }
    if r1.m_chars_required = 0 then r1.dispatch_escape wcwidth9_norm
    else (r1, step.pending)
  else if wc = detail.key.enter then
    let r1 := r.line_modified
    match r1.m_line with
    | none => (r1, step.raised)
    | some t =>
      if t.empty then
        and_then (r1.on_line (fun l => l.new_line wcwidth9_norm)) (fun r2 => (r2, step.pending))
      else
        let r2 :=
          if r1.m_auto_history then { r1 with m_history := r1.m_history.add t.current_line }
          else r1
        let p := t.pop_line wcwidth9_norm
        match p.2 with
        | none => ({ r2 with m_line := some p.1 }, step.raised)
        | some str => ({ r2 with m_line := some p.1 }, step.committed ⟨Sum.inl str⟩)
  else if wc = detail.key.ctrl_d then
    match r.m_line with
    | none => (r, step.raised)
    | some t =>
      if t.empty then
        (r.line_modified, step.committed ⟨Sum.inr line_error.ctrl_d⟩)
      else
        and_then (r.on_line (fun l => l.erase_current_character wcwidth9_norm))
          (fun r1 => (r1.line_modified, step.pending))
  else if wc = detail.key.ctrl_c then
    (r.line_modified, step.committed ⟨Sum.inr line_error.ctrl_c⟩)
  else if wc = detail.key.backspace ∨ wc = detail.key.ctrl_h then
    and_then (r.on_line (fun l => l.erase_previous_character wcwidth9_norm))
      (fun r1 => (r1.line_modified, step.pending))
  else if wc = detail.key.ctrl_u then
    and_then (r.on_line (fun l => l.erase_line_backward wcwidth9_norm))
      (fun r1 => (r1.line_modified, step.pending))
  else if wc = detail.key.ctrl_k then
    and_then (r.on_line (fun l => l.erase_line_forward wcwidth9_norm))
      (fun r1 => (r1.line_modified, step.pending))
  else if wc = detail.key.ctrl_a then
    and_then (r.on_line (fun l => l.cursor_home wcwidth9_norm)) (fun r1 => (r1, step.pending))
  else if wc = detail.key.ctrl_e then
    and_then (r.on_line (fun l => l.cursor_end wcwidth9_norm)) (fun r1 => (r1, step.pending))
  else if wc = detail.key.ctrl_t then
    and_then (r.on_line (fun l => l.swap_characters wcwidth9_norm))
      (fun r1 => (r1.line_modified, step.pending))
  else if wc = detail.key.ctrl_w then
    and_then (r.on_line (fun l => l.erase_previous_word wcwidth9_norm))
      (fun r1 => (r1.line_modified, step.pending))
  else if wc = detail.key.ctrl_l then
    and_then (r.on_line (fun l => l.clear_screen wcwidth9_norm)) (fun r1 => (r1, step.pending))
  else if wc = detail.key.tab ∧ !r.m_masked then
    match r.m_line with
    | none => (r, step.raised)
    | some t =>
      let g := r.m_completion.get_next_completion t.current_line
      let r1 := { r with m_completion := g.1 }
      if g.2.2 then (r1, step.raised)
      else
        match g.2.1 with
        | none => (r1, step.pending)
        | some completion =>
          and_then (r1.on_line (fun l => l.set_line wcwidth9_norm completion))
            (fun r2 => (r2, step.pending))
  else if wc = detail.key.esc then
    ({ r with m_chars_required := 2 }, step.pending)
  else
    and_then (r.on_line (fun l => l.insert_character wcwidth9_norm wc))
      (fun r1 => (r1.line_modified, step.pending))

/-- The member `process_single_char(char c)`. -/
def line_reader.process_single_char (r : line_reader) (c : Nat) : line_reader × step :=
  match r.m_decoder.write_char c with
  | none => (r, step.raised)
  | some (d, none) => ({ r with m_decoder := d }, step.pending)
  | some (d, some wc) => line_reader.process_code_point wcwidth9_norm { r with m_decoder := d } wc

/-- The member `deactivate()`; the raw mode of the terminal is not modelled. -/
def line_reader.deactivate (r : line_reader) : line_reader := { r with m_line := none }

/-- The loop of `getline(const styled_string&)` over the bytes that `read` delivers, without
cancellation and without read errors: each byte goes to `process_single_char`; when that hands
back a line, `deactivate()` runs and the line is returned.  The result is the reader, what the
call came to (`pending` when the bytes ran out before a line was handed back), and the bytes not
read. -/
def line_reader.getline_loop : line_reader → List Nat → line_reader × step × List Nat
  | r, [] => (r, step.pending, [])
  | r, c :: rest =>
    match r.process_single_char wcwidth9_norm c with
    | (r1, step.pending) => line_reader.getline_loop r1 rest
    | (r1, step.committed l) => (r1.deactivate, step.committed l, rest)
    | (r1, step.raised) => (r1, step.raised, rest)

/-- The member `getline(const styled_string& prompt)`: `activate(prompt)` when no line is active,
then the loop. -/
def line_reader.getline (r : line_reader) (prompt : styled_string) (ws_col : Option Nat)
    (input : List Nat) : line_reader × step × List Nat :=
  match r.m_line with
  | some _ => r.getline_loop wcwidth9_norm input
  | none =>
    let a := r.activate wcwidth9_norm prompt ws_col
    if a.2 then (a.1, step.raised, input) else a.1.getline_loop wcwidth9_norm input

/-- The member `getline_nonblocking(const styled_string& prompt)` over the bytes that `read`
delivers, without cancellation and without read errors: `activate(prompt)` when no line is
active, then at most one byte goes to `process_single_char`; no byte (`n_read == 0`) gives the
empty optional, here `pending`. -/
def line_reader.getline_nonblocking (r : line_reader) (prompt : styled_string)
    (ws_col : Option Nat) (input : List Nat) : line_reader × step × List Nat :=
  let a :=
    match r.m_line with
    | some _ => (r, false)
    | none => r.activate wcwidth9_norm prompt ws_col
  if a.2 then (a.1, step.raised, input)
  else
    match input with
    | [] => (a.1, step.pending, [])
    | c :: rest =>
      match a.1.process_single_char wcwidth9_norm c with
      | (r1, step.pending) => (r1, step.pending, rest)
      | (r1, step.committed l) => (r1.deactivate, step.committed l, rest)
      | (r1, step.raised) => (r1, step.raised, rest)

/-- The constructor `styled_string(std::string_view str)`; `none` when `decode_utf8` raises. -/
def styled_string.of_string (str : List Nat) : Option styled_string :=
  match detail.terminal_string.of_string wcwidth9_norm str with
  | none => none
  | some s => some { m_str := s }

/-- The member `getline(std::string_view prompt)`, whose body is `return getline(prompt);`.  The
argument is a `std::string_view`, for which this overload is the exact match (the overload for
`const styled_string&` needs the converting constructor), so the function calls itself.  `depth`
bounds the nesting of the calls; `none` means that the call has not returned within it. -/
def line_reader.getline_sv : Nat → line_reader → List Nat → List Nat →
    Option (line_reader × step × List Nat)
  | 0, _, _, _ => none
  | depth + 1, r, prompt, input => line_reader.getline_sv depth r prompt input

/-- The member `getline_nonblocking(std::string_view prompt)`, whose body is
`return getline_nonblocking(prompt);`: the same overload again. -/
def line_reader.getline_nonblocking_sv : Nat → line_reader → List Nat → List Nat →
    Option (line_reader × step × List Nat)
  | 0, _, _, _ => none
  | depth + 1, r, prompt, input => line_reader.getline_nonblocking_sv depth r prompt input

end line_reader

namespace detail

/-! ## Reference notions for the UTF-8 claims -/

/-- A continuation byte `10xxxxxx`. -/
def continuation_pattern (b : Nat) : Bool := decide (0x80 ≤ b) && decide (b ≤ 0xBF)

/-- The standard lead-byte and continuation-byte bit patterns: `bs` is one sequence of one to
four bytes (`0xxxxxxx`, `110xxxxx 10xxxxxx`, `1110xxxx 10xxxxxx 10xxxxxx`,
`11110xxx 10xxxxxx 10xxxxxx 10xxxxxx`) and `cp` is the number spelled by its `x` bits. -/
def well_formed_sequence (bs : List Nat) (cp : Nat) : Bool :=
  match bs with
  | [b1] => decide (b1 < 0x80) && decide (cp = b1)
  | [b1, b2] =>
    decide (0xC0 ≤ b1) && decide (b1 ≤ 0xDF) && continuation_pattern b2
      && decide (cp = (b1 % 32) * 64 + b2 % 64)
  | [b1, b2, b3] =>
    decide (0xE0 ≤ b1) && decide (b1 ≤ 0xEF) && continuation_pattern b2
      && continuation_pattern b3
      && decide (cp = ((b1 % 16) * 64 + b2 % 64) * 64 + b3 % 64)
  | [b1, b2, b3, b4] =>
    decide (0xF0 ≤ b1) && decide (b1 ≤ 0xF7) && continuation_pattern b2
      && continuation_pattern b3 && continuation_pattern b4
      && decide (cp = (((b1 % 8) * 64 + b2 % 64) * 64 + b3 % 64) * 64 + b4 % 64)
  | _ => false

/-- A two-byte scalar encoding of the Unicode standard at `b1 :: rest`: `C2..DF 80..BF`. -/
def valid_utf8_two (b1 : Nat) (rest : List Nat) : Bool :=
  match rest with
  | b2 :: _ => decide (0xC2 ≤ b1) && decide (b1 ≤ 0xDF) && continuation_pattern b2
  | _ => false

/-- A three-byte scalar encoding of the Unicode standard at `b1 :: rest`: `E0 A0..BF 80..BF`,
`E1..EC 80..BF 80..BF`, `ED 80..9F 80..BF` or `EE..EF 80..BF 80..BF`. -/
def valid_utf8_three (b1 : Nat) (rest : List Nat) : Bool :=
  match rest with
  | b2 :: b3 :: _ =>
    decide (0xE0 ≤ b1) && decide (b1 ≤ 0xEF) && continuation_pattern b2 && continuation_pattern b3
      && (decide (b1 ≠ 0xE0) || decide (0xA0 ≤ b2)) && (decide (b1 ≠ 0xED) || decide (b2 ≤ 0x9F))
  | _ => false

/-- A four-byte scalar encoding of the Unicode standard at `b1 :: rest`:
`F0 90..BF 80..BF 80..BF`, `F1..F3 80..BF 80..BF 80..BF` or `F4 80..8F 80..BF 80..BF`. -/
def valid_utf8_four (b1 : Nat) (rest : List Nat) : Bool :=
  match rest with
  | b2 :: b3 :: b4 :: _ =>
    decide (0xF0 ≤ b1) && decide (b1 ≤ 0xF4) && continuation_pattern b2 && continuation_pattern b3
      && continuation_pattern b4
      && (decide (b1 ≠ 0xF0) || decide (0x90 ≤ b2)) && (decide (b1 ≠ 0xF4) || decide (b2 ≤ 0x8F))
  | _ => false

/-- The length of the first well-formed scalar encoding at the head of `bs` in the sense of the
Unicode standard (shortest form, no surrogates, at most U+10FFFF), `none` if there is none. -/
def valid_utf8_head (bs : List Nat) : Option Nat :=
  match bs with
  | [] => none
  | b1 :: rest =>
    if b1 < 0x80 then some 1
    else if valid_utf8_two b1 rest then some 2
    else if valid_utf8_three b1 rest then some 3
    else if valid_utf8_four b1 rest then some 4
    else none

/-- Whether `bs` is a concatenation of well-formed scalar encodings; one unit of fuel per
scalar. -/
def valid_utf8_fuel : Nat → List Nat → Bool
  | _, [] => true
  | 0, _ :: _ => false
  | fuel + 1, b :: bs =>
    match valid_utf8_head (b :: bs) with
    | none => false
    | some n => valid_utf8_fuel fuel ((b :: bs).drop n)

/-- Valid UTF-8 in the sense of the Unicode standard. -/
def valid_utf8 (bs : List Nat) : Bool := valid_utf8_fuel bs.length bs

/-- Feeding bytes to a decoder one `write_char` at a time: the decoder afterwards and what each
call returned, `none` when a call raises. -/
def utf8_decoder.write_chars : utf8_decoder → List Nat → Option (utf8_decoder × List (Option Nat))
  | d, [] => some (d, [])
  | d, c :: cs =>
    match d.write_char c with
    | none => none
    | some (d1, wc) =>
      match utf8_decoder.write_chars d1 cs with
      | none => none
      | some (d2, wcs) => some (d2, wc :: wcs)

end detail

/-! ## Notions used by the statements about the line -/

namespace detail

/-- The invariant of the styled buffer: the three vectors have one length and the cached total
width is the sum of the widths. -/
def buffer_invariant (s : terminal_string) : Prop :=
  s.m_width.length = s.m_buf.length ∧ s.m_style.length = s.m_buf.length
    ∧ s.m_total_width = (s.m_width.map Int.ofNat).sum

/-- The editing actions of `terminal_line`. -/
inductive editing_action where
  | insert_character (c : Nat)
  | erase_previous_character
  | erase_current_character
  | erase_line_backward
  | erase_line_forward
  | swap_characters
  | erase_previous_word
  | set_line (str : List Nat)
  | cursor_back
  | cursor_forward
  | cursor_home
  | cursor_end
deriving DecidableEq, Repr

/-- One editing action on a line. -/
def editing_action.run (wcwidth9_norm : Nat → Nat) (t : terminal_line) :
    editing_action → terminal_line × Bool
  | .insert_character c => t.insert_character wcwidth9_norm c
  | .erase_previous_character => t.erase_previous_character wcwidth9_norm
  | .erase_current_character => t.erase_current_character wcwidth9_norm
  | .erase_line_backward => t.erase_line_backward wcwidth9_norm
  | .erase_line_forward => t.erase_line_forward wcwidth9_norm
  | .swap_characters => t.swap_characters wcwidth9_norm
  | .erase_previous_word => t.erase_previous_word wcwidth9_norm
  | .set_line str => t.set_line wcwidth9_norm str
  | .cursor_back => t.cursor_back wcwidth9_norm
  | .cursor_forward => t.cursor_forward wcwidth9_norm
  | .cursor_home => t.cursor_home wcwidth9_norm
  | .cursor_end => t.cursor_end wcwidth9_norm

/-- A sequence of editing actions, each on the line as the one before left it (also when that
one let an exception escape). -/
def run_actions (wcwidth9_norm : Nat → Nat) : terminal_line → List editing_action → terminal_line
  | t, [] => t
  | t, a :: rest => run_actions wcwidth9_norm (a.run wcwidth9_norm t).1 rest

/-- The invariant of the line: the buffer invariant, and the cursor within the buffer. -/
def line_invariant (t : terminal_line) : Prop :=
  buffer_invariant t.m_buf ∧ t.m_position ≤ t.m_buf.size

/-- A line as its constructor leaves it: prompt `> `, every width 1, 80 columns reported. -/
def sample_line : terminal_line :=
  (terminal_line.create (fun _ => 1) 1 (terminal_string.of_u32 (fun _ => 1) [62, 32])
    none none false {} (some 80)).1

end detail

/-! ## Notions used by the statements about the reader -/

namespace detail

/-- Code points that `encode_utf8` accepts. -/
def encodable (cps : List Nat) : Prop := ∀ c ∈ cps, c < 0x10FFFF

/-- A line whose text can be written to the terminal: the code points of prompt, buffer and hint
are accepted by `encode_utf8`, and a hint callback, if set, returns bytes that `decode_utf8`
accepts and that decode to such code points. -/
def line_renderable (t : terminal_line) : Prop :=
  encodable t.m_prompt.m_buf ∧ encodable t.m_buf.m_buf ∧ encodable t.m_hint.m_buf
    ∧ ∀ cb, t.m_hint_callback = some cb →
        ∀ str, ∃ hint, decode_utf8 (cb str) = some hint ∧ encodable hint

end detail

/-- Successive calls of `process_single_char`, one per byte: the reader afterwards and what each
call handed back. -/
def line_reader.feed (wcwidth9_norm : Nat → Nat) : line_reader → List Nat → line_reader × List step
  | r, [] => (r, [])
  | r, c :: cs =>
    ((line_reader.feed wcwidth9_norm (r.process_single_char wcwidth9_norm c).1 cs).1,
      (r.process_single_char wcwidth9_norm c).2
        :: (line_reader.feed wcwidth9_norm (r.process_single_char wcwidth9_norm c).1 cs).2)

/-- The buffer and the cursor of the active line of a reader. -/
def line_reader.buffer_and_cursor (r : line_reader) : Option (List Nat × Nat) :=
  r.m_line.map (fun t => (t.m_buf.m_buf, t.m_position))

/-- A reader that is outside an escape sequence, has no UTF-8 sequence pending, and whose active
line is `t`, a line that can be written to the terminal. -/
def line_reader.ready (r : line_reader) (t : detail.terminal_line) : Prop :=
  r.m_decoder.m_chars_required = 0 ∧ r.m_chars_required = 0 ∧ r.m_line = some t
    ∧ detail.line_renderable t

/-- A freshly constructed reader (`line_reader(opt)`) after `activate(prompt)`. -/
def activated_reader (wcwidth9_norm : Nat → Nat) (opt : options) (prompt : styled_string)
    (ws_col : Option Nat) : line_reader :=
  ((line_reader.create opt).activate wcwidth9_norm prompt ws_col).1

/-- A reader constructed with `default_options` and activated with the prompt `> `, every width
being 1 and the terminal reporting 80 columns. -/
def sample_reader : line_reader :=
  activated_reader (fun _ => 1) default_options
    { m_str := detail.terminal_string.of_u32 (fun _ => 1) [62, 32] } (some 80)

/-- The line `sample_line` after `a` and `b` have been typed. -/
def detail.sample_line_ab : detail.terminal_line :=
  ((detail.sample_line.insert_character (fun _ => 1) 97).1.insert_character (fun _ => 1) 98).1

/-- A reader constructed with `default_options`, masked with `mask()`, and activated with the
prompt `> `, every width being 1 and the terminal reporting 80 columns. -/
def masked_sample_reader : line_reader :=
  ((line_reader.create default_options).mask.activate (fun _ => 1)
    { m_str := detail.terminal_string.of_u32 (fun _ => 1) [62, 32] } (some 80)).1

/-! ## Notions used by the statements about history and completion -/

namespace detail

/-- The `value()` of slot `j` of a history. -/
def history.value_at (h : history) (j : Nat) : List Nat := (h.m_history.getD j {}).value

/-- A history with the draft and two committed lines, `b` and `éc`, bound 2, navigated to
entry 1. -/
def sample_history : history :=
  { m_history := [{}, { original := [98] }, { original := [0xE9, 99] }]
    m_index := 1
    m_max_size := 2 }

end detail

/-- The code points of the buffer of the active line of a reader. -/
def line_reader.buffer (r : line_reader) : Option (List Nat) :=
  r.m_line.map (fun t => t.m_buf.m_buf)

/-- A completion callback that offers `ab` and `ant` for every input. -/
def sample_callback : List Nat → List (List Nat) := fun _ => [[97, 98], [97, 110, 116]]

/-- The reader `sample_reader` with the completion callback `sample_callback`, after `a` and Tab:
the line is `ab` and the candidate list is held. -/
def completing_sample_reader : line_reader :=
  ((sample_reader.set_completion sample_callback).feed (fun _ => 1) [97, 9]).1

namespace detail

/-- The local `width` of `current_state()`: the widths of the buffer, or one column for every
position when the line is masked. -/
def terminal_line.view_widths (t : terminal_line) : List Nat :=
  if t.m_masked then List.replicate t.m_buf.size 1 else t.m_buf.m_width

/-- The viewport that `current_state()` computes before it builds the frame: the new
`m_view_start` and the locals `end` and `total_width`. -/
def terminal_line.view_bounds (t : terminal_line) : Nat × Nat × Int :=
  let width := t.view_widths
  let view_start0 := if t.m_position < t.m_view_start then t.m_position else t.m_view_start
  let fwd := iterate_view_forward view_start0 t.m_columns width
  let bk :=
    if t.m_position > fwd.1 then iterate_view_backward t.m_position t.m_columns width
    else iterate_view_backward view_start0 (t.m_columns - fwd.2) width
  (bk.1, if t.m_position > fwd.1 then t.m_position else fwd.1,
    if t.m_position > fwd.1 then bk.2 else fwd.2 + bk.2)

/-- The columns taken by code points of the widths `ws`. -/
def columns_of (ws : List Nat) : Int := (ws.map Int.ofNat).sum

/-- The index of the code point of `cps` to whose encoding the byte at offset `k` of the encoded
string belongs. -/
def code_point_of_byte : List Nat → Nat → Nat
  | [], _ => 0
  | c :: cps, k =>
    if k < ((encode_code_point c).getD []).length then 0
    else 1 + code_point_of_byte cps (k - ((encode_code_point c).getD []).length)

/-- The calls of the members of `history` named in the statements. -/
inductive history_op where
  | add (str : List Nat)
  | load (file : List Nat)
  | record_and_go_back (str : List Nat)
  | record_and_go_forward (str : List Nat)
deriving DecidableEq, Repr

/-- One call on a history: the object afterwards and whether the call raised. -/
def history_op.run (h : history) : history_op → history × Bool
  | .add str => (h.add str, false)
  | .load file => h.load file
  | .record_and_go_back str => ((h.record_and_go_back str).1, false)
  | .record_and_go_forward str => ((h.record_and_go_forward str).1, false)

/-- A width table in which U+5168 takes two columns and every other code point one. -/
def wide_width : Nat → Nat := fun c => if c = 0x5168 then 2 else 1

/-- A line with the prompt `> ` on a terminal of 80 columns, widths from `wide_width`, after
`set_line` with `a` and U+5168. -/
def wide_line : terminal_line :=
  ((terminal_line.create wide_width 1 (terminal_string.of_u32 wide_width [62, 32])
    none none false {} (some 80)).1.set_line wide_width [97, 0x5168]).1

/-- A masked line with the prompt `> ` on a terminal of 10 columns, every width 1, after `a` has
been typed eight times. -/
def masked_line_8 : terminal_line :=
  run_actions (fun _ => 1)
    (terminal_line.create (fun _ => 1) 1 (terminal_string.of_u32 (fun _ => 1) [62, 32])
      none none true {} (some 10)).1
    (List.replicate 8 (editing_action.insert_character 97))

end detail

/-- The prompt `> `, every width being 1. -/
def sample_prompt : styled_string :=
  { m_str := detail.terminal_string.of_u32 (fun _ => 1) [62, 32] }

/-- A reader constructed with `default_options` after three reads on a terminal of 80 columns,
every width being 1: `ab` Enter, `cd` Enter, then Up (`ESC [ A`) and Ctrl-C. -/
def interrupted_reader : line_reader :=
  ((((((line_reader.create default_options).getline (fun _ => 1) sample_prompt (some 80)
    [97, 98, 13]).1).getline (fun _ => 1) sample_prompt (some 80)
    [99, 100, 13]).1).getline (fun _ => 1) sample_prompt (some 80) [27, 91, 65, 3]).1

/-- A hint callback that answers the byte FF for the line `b` and the empty hint otherwise. -/
def hint_fails_on_b : List Nat → List Nat := fun str => if str = [98] then [0xFF] else []

/-- A hint callback that answers the byte FF for the empty line and the empty hint otherwise. -/
def hint_fails_on_empty : List Nat → List Nat := fun str => if str = [] then [0xFF] else []

/-- A reader with `default_options` and the hint callback `hint_fails_on_b`, activated with the
prompt `> ` on 80 columns, every width being 1. -/
def failing_hint_reader : line_reader :=
  (((line_reader.create default_options).set_hint hint_fails_on_b).activate (fun _ => 1)
    sample_prompt (some 80)).1

/-- A reader with `default_options` and the hint callback `hint_fails_on_empty`, activated with
the prompt `> ` on 10 columns, every width being 1. -/
def narrow_failing_hint_reader : line_reader :=
  (((line_reader.create default_options).set_hint hint_fails_on_empty).activate (fun _ => 1)
    sample_prompt (some 10)).1
namespace detail

/-! ## The UTF-8 codec -/

set_option maxRecDepth 100000 in
theorem byte_bits_ascii : ∀ c, c < 256 → c < 0x80 → c &&& 0b10000000 = 0 := by decide

set_option maxRecDepth 100000 in
theorem byte_bits_lead2 : ∀ c, c < 256 → 0xC0 ≤ c → c ≤ 0xDF →
    (c &&& 0b10000000 ≠ 0 ∧ c &&& 0b11000000 ≠ 0 ∧ c &&& 0b00100000 = 0
      ∧ c &&& 0b00011111 = c % 32) := by decide

set_option maxRecDepth 100000 in
theorem byte_bits_lead3 : ∀ c, c < 256 → 0xE0 ≤ c → c ≤ 0xEF →
    (c &&& 0b10000000 ≠ 0 ∧ c &&& 0b11000000 ≠ 0 ∧ c &&& 0b00100000 ≠ 0) := by decide

set_option maxRecDepth 100000 in
theorem byte_bits_lead3b : ∀ c, c < 256 → 0xE0 ≤ c → c ≤ 0xEF →
    (c &&& 0b11100000 ≠ 0 ∧ c &&& 0b00010000 = 0 ∧ c &&& 0b00001111 = c % 16) := by decide

set_option maxRecDepth 100000 in
theorem byte_bits_lead4 : ∀ c, c < 256 → 0xF0 ≤ c → c ≤ 0xF7 →
    (c &&& 0b10000000 ≠ 0 ∧ c &&& 0b11000000 ≠ 0 ∧ c &&& 0b00100000 ≠ 0
      ∧ c &&& 0b11100000 ≠ 0) := by decide

set_option maxRecDepth 100000 in
theorem byte_bits_lead4b : ∀ c, c < 256 → 0xF0 ≤ c → c ≤ 0xF7 →
    (c &&& 0b00010000 ≠ 0 ∧ c &&& 0b11110000 ≠ 0 ∧ c &&& 0b00001000 = 0
      ∧ c &&& 0b00000111 = c % 8) := by decide

theorem write_char_ascii (d : utf8_decoder) (c : Nat) (hd : d.m_chars_required = 0)
    (hc : c < 0x80) : d.write_char c = some (d, some c) := by
  have h256 : c % 256 = c := Nat.mod_eq_of_lt (by omega)
  have hb := byte_bits_ascii c (by omega) hc
  simp [utf8_decoder.write_char, hd, h256, hb]

theorem write_char_lead2 (d : utf8_decoder) (c : Nat) (hd : d.m_chars_required = 0)
    (h1 : 0xC0 ≤ c) (h2 : c ≤ 0xDF) :
    d.write_char c = some ({ m_chars_required := 1, m_code_point := c % 32 }, none) := by
  have h256 : c % 256 = c := Nat.mod_eq_of_lt (by omega)
  obtain ⟨a1, a2, a3, a4⟩ := byte_bits_lead2 c (by omega) h1 h2
  simp [utf8_decoder.write_char, hd, h256, a1, a2, a3, a4]

theorem write_char_lead3 (d : utf8_decoder) (c : Nat) (hd : d.m_chars_required = 0)
    (h1 : 0xE0 ≤ c) (h2 : c ≤ 0xEF) :
    d.write_char c = some ({ m_chars_required := 2, m_code_point := c % 16 }, none) := by
  have h256 : c % 256 = c := Nat.mod_eq_of_lt (by omega)
  obtain ⟨a1, a2, a3⟩ := byte_bits_lead3 c (by omega) h1 h2
  obtain ⟨a4, a5, a6⟩ := byte_bits_lead3b c (by omega) h1 h2
  simp [utf8_decoder.write_char, hd, h256, a1, a2, a3, a4, a5, a6]

theorem write_char_lead4 (d : utf8_decoder) (c : Nat) (hd : d.m_chars_required = 0)
    (h1 : 0xF0 ≤ c) (h2 : c ≤ 0xF7) :
    d.write_char c = some ({ m_chars_required := 3, m_code_point := c % 8 }, none) := by
  have h256 : c % 256 = c := Nat.mod_eq_of_lt (by omega)
  obtain ⟨a1, a2, a3, a4⟩ := byte_bits_lead4 c (by omega) h1 h2
  obtain ⟨a5, a6, a7, a8⟩ := byte_bits_lead4b c (by omega) h1 h2
  simp [utf8_decoder.write_char, hd, h256, a1, a2, a3, a4, a5, a6, a7, a8]

theorem write_char_continue (d : utf8_decoder) (c n : Nat) (hd : d.m_chars_required = n + 1)
    (hc : c < 256) (hcp : d.m_code_point * 64 + c % 64 < 2 ^ 32) :
    d.write_char c = some ({ m_chars_required := n, m_code_point := d.m_code_point * 64 + c % 64 },
      if n = 0 then some (d.m_code_point * 64 + c % 64) else none) := by
  have h256 : c % 256 = c := Nat.mod_eq_of_lt hc
  have hand : c &&& 0b00111111 = c % 64 := Nat.and_pow_two_sub_one_eq_mod c 6
  have hshift : d.m_code_point <<< 6 = d.m_code_point * 64 := by rw [Nat.shiftLeft_eq]
  have hmod : (d.m_code_point * 64 + c % 64) % 2 ^ 32 = d.m_code_point * 64 + c % 64 :=
    Nat.mod_eq_of_lt hcp
  unfold utf8_decoder.write_char
  simp only [hd, h256, hand, hshift, hmod]
  simp
  by_cases hn : n = 0 <;> simp [hn]

theorem write_chars_nil (d : utf8_decoder) : d.write_chars [] = some (d, []) := rfl

theorem write_chars_cons (d d1 : utf8_decoder) (c : Nat) (cs : List Nat) (wc : Option Nat)
    (h : d.write_char c = some (d1, wc)) :
    d.write_chars (c :: cs) = (d1.write_chars cs).map (fun q => (q.1, wc :: q.2)) := by
  simp only [utf8_decoder.write_chars, h]
  cases d1.write_chars cs <;> rfl

/-- A well-formed sequence fed to an idle decoder: nothing before the last byte, the code point
on the last byte, and an idle decoder afterwards. -/
theorem write_chars_well_formed (d : utf8_decoder) (bs : List Nat) (cp : Nat)
    (hd : d.m_chars_required = 0) (hw : well_formed_sequence bs cp = true) :
    ∃ d1 : utf8_decoder, d.write_chars bs
        = some (d1, List.replicate (bs.length - 1) none ++ [some cp])
      ∧ d1.m_chars_required = 0 := by
  match bs, hw with
  | [b1], hw =>
    simp [well_formed_sequence] at hw
    obtain ⟨h1, hcp⟩ := hw
    rw [hcp]
    refine ⟨d, ?_, hd⟩
    rw [write_chars_cons d d b1 [] (some b1) (write_char_ascii d b1 hd h1)]
    rfl
  | [b1, b2], hw =>
    simp [well_formed_sequence, continuation_pattern] at hw
    obtain ⟨⟨⟨h1, h2⟩, h3, h4⟩, rfl⟩ := hw
    refine ⟨{ m_chars_required := 0, m_code_point := b1 % 32 * 64 + b2 % 64 }, ?_, rfl⟩
    rw [write_chars_cons _ _ b1 _ _ (write_char_lead2 d b1 hd h1 h2)]
    rw [write_chars_cons _ _ b2 _ _ (write_char_continue _ b2 0 rfl (by omega) (by simp; omega))]
    rfl
  | [b1, b2, b3], hw =>
    simp [well_formed_sequence, continuation_pattern] at hw
    obtain ⟨⟨⟨⟨h1, h2⟩, h3, h4⟩, h5, h6⟩, rfl⟩ := hw
    refine ⟨{ m_chars_required := 0, m_code_point := (b1 % 16 * 64 + b2 % 64) * 64 + b3 % 64 },
      ?_, rfl⟩
    rw [write_chars_cons _ _ b1 _ _ (write_char_lead3 d b1 hd h1 h2)]
    rw [write_chars_cons _ _ b2 _ _ (write_char_continue _ b2 1 rfl (by omega) (by simp; omega))]
    rw [write_chars_cons _ _ b3 _ _ (write_char_continue _ b3 0 rfl (by omega) (by simp; omega))]
    rfl
  | [b1, b2, b3, b4], hw =>
    simp [well_formed_sequence, continuation_pattern] at hw
    obtain ⟨⟨⟨⟨⟨h1, h2⟩, h3, h4⟩, h5, h6⟩, h7, h8⟩, rfl⟩ := hw
    refine ⟨{ m_chars_required := 0,
              m_code_point := ((b1 % 8 * 64 + b2 % 64) * 64 + b3 % 64) * 64 + b4 % 64 }, ?_, rfl⟩
    rw [write_chars_cons _ _ b1 _ _ (write_char_lead4 d b1 hd h1 h2)]
    rw [write_chars_cons _ _ b2 _ _ (write_char_continue _ b2 2 rfl (by omega) (by simp; omega))]
    rw [write_chars_cons _ _ b3 _ _ (write_char_continue _ b3 1 rfl (by omega) (by simp; omega))]
    rw [write_chars_cons _ _ b4 _ _ (write_char_continue _ b4 0 rfl (by omega) (by simp; omega))]
    rfl
  | [], hw => simp [well_formed_sequence] at hw
  | _ :: _ :: _ :: _ :: _ :: _, hw => simp [well_formed_sequence] at hw


theorem encode_code_point_well_formed (cp : Nat) (h : cp < 0x10FFFF) :
    ∃ bs, encode_code_point cp = some bs ∧ well_formed_sequence bs cp = true := by
  have s6 : cp >>> 6 = cp / 64 := by rw [Nat.shiftRight_eq_div_pow]
  have s12 : cp >>> 12 = cp / 4096 := by rw [Nat.shiftRight_eq_div_pow]
  have s18 : cp >>> 18 = cp / 262144 := by rw [Nat.shiftRight_eq_div_pow]
  have m63 : ∀ x : Nat, x &&& 0b00111111 = x % 64 := fun x => Nat.and_pow_two_sub_one_eq_mod x 6
  have m31 : ∀ x : Nat, x &&& 0b00011111 = x % 32 := fun x => Nat.and_pow_two_sub_one_eq_mod x 5
  have m15 : ∀ x : Nat, x &&& 0b00001111 = x % 16 := fun x => Nat.and_pow_two_sub_one_eq_mod x 4
  have m7 : ∀ x : Nat, x &&& 0b00000111 = x % 8 := fun x => Nat.and_pow_two_sub_one_eq_mod x 3
  unfold encode_code_point
  simp only [s6, s12, s18, m63, m31, m15, m7]
  split_ifs with h1 h2 h3 h4
  · exact ⟨_, rfl, by simp [well_formed_sequence, h1]⟩
  · refine ⟨_, rfl, ?_⟩
    simp only [well_formed_sequence, continuation_pattern, Bool.and_eq_true, decide_eq_true_eq]
    omega
  · refine ⟨_, rfl, ?_⟩
    simp only [well_formed_sequence, continuation_pattern, Bool.and_eq_true, decide_eq_true_eq]
    omega
  · refine ⟨_, rfl, ?_⟩
    simp only [well_formed_sequence, continuation_pattern, Bool.and_eq_true, decide_eq_true_eq]
    omega
  · omega

theorem write_chars_idle_irrelevant (bs : List Nat) :
    ∀ d1 d2 : utf8_decoder, d1.m_chars_required = 0 → d2.m_chars_required = 0 →
      (d1.write_chars bs).map Prod.snd = (d2.write_chars bs).map Prod.snd := by
  induction bs with
  | nil => intro d1 d2 _ _; rfl
  | cons c cs ih =>
    intro d1 d2 h1 h2
    by_cases hc : c % 256 &&& 0b10000000 = 0
    · have e1 : d1.write_char c = some (d1, some (c % 256)) := by
        simp [utf8_decoder.write_char, h1, hc]
      have e2 : d2.write_char c = some (d2, some (c % 256)) := by
        simp [utf8_decoder.write_char, h2, hc]
      rw [write_chars_cons _ _ _ _ _ e1, write_chars_cons _ _ _ _ _ e2]
      have := ih d1 d2 h1 h2
      cases hq1 : d1.write_chars cs <;> cases hq2 : d2.write_chars cs <;>
        simp_all
    · have e : d1.write_char c = d2.write_char c := by
        simp [utf8_decoder.write_char, h1, h2, hc]
      simp only [utf8_decoder.write_chars, e]


theorem write_chars_append (a b : List Nat) :
    ∀ d : utf8_decoder, d.write_chars (a ++ b) =
      match d.write_chars a with
      | none => none
      | some q => (q.1.write_chars b).map (fun p => (p.1, q.2 ++ p.2)) := by
  induction a with
  | nil =>
    intro d
    simp only [List.nil_append, utf8_decoder.write_chars]
    cases d.write_chars b <;> simp
  | cons c cs ih =>
    intro d
    cases hc : d.write_char c with
    | none => simp [utf8_decoder.write_chars, hc]
    | some q =>
      obtain ⟨d1, wc⟩ := q
      rw [List.cons_append, write_chars_cons _ _ _ _ _ hc, write_chars_cons _ _ _ _ _ hc, ih d1]
      cases hcs : d1.write_chars cs with
      | none => rfl
      | some q2 =>
        obtain ⟨d2, wcs⟩ := q2
        cases hb : d2.write_chars b <;> simp [hb]

theorem decode_utf8_from_eq (bs : List Nat) :
    ∀ d : utf8_decoder,
      decode_utf8_from d bs = (d.write_chars bs).map (fun q => q.2.reduceOption) := by
  induction bs with
  | nil => intro d; rfl
  | cons c cs ih =>
    intro d
    cases hc : d.write_char c with
    | none => simp [decode_utf8_from, utf8_decoder.write_chars, hc]
    | some q =>
      obtain ⟨d1, wc⟩ := q
      rw [write_chars_cons _ _ _ _ _ hc]
      simp only [decode_utf8_from, hc, ih d1]
      cases hcs : d1.write_chars cs with
      | none => rfl
      | some q2 =>
        cases wc <;> simp [List.reduceOption_cons_of_some, List.reduceOption_cons_of_none]

theorem reduceOption_replicate_none (n : Nat) :
    (List.replicate n (none : Option Nat)).reduceOption = [] := by
  induction n with
  | zero => rfl
  | succ n ih => rw [List.replicate_succ, List.reduceOption_cons_of_none, ih]

/-- Round trip on the range the encoder accepts: every sequence of code points below 0x10FFFF is
encoded, and decoding the bytes gives the sequence back. -/
theorem decode_utf8_encode_utf8 (cps : List Nat) (h : ∀ c ∈ cps, c < 0x10FFFF) :
    ∃ bs, encode_utf8 cps = some bs ∧
      ∀ d : utf8_decoder, d.m_chars_required = 0 → decode_utf8_from d bs = some cps := by
  induction cps with
  | nil => exact ⟨[], rfl, fun _ _ => rfl⟩
  | cons c cs ih =>
    obtain ⟨bs, hbs, hdec⟩ := ih (fun x hx => h x (List.mem_cons_of_mem _ hx))
    obtain ⟨b, hb, hwf⟩ := encode_code_point_well_formed c (h c (List.mem_cons_self _ _))
    refine ⟨b ++ bs, by simp [encode_utf8, hb, hbs], ?_⟩
    intro d hd
    obtain ⟨d1, hw, hd1⟩ := write_chars_well_formed d b c hd hwf
    have h1 := hdec d1 hd1
    rw [decode_utf8_from_eq] at h1 ⊢
    rw [write_chars_append, hw]
    cases hq : d1.write_chars bs with
    | none => simp [hq] at h1
    | some q =>
      simp only [hq, Option.map_some', Option.some.injEq] at h1
      simp [hq, List.reduceOption_append, h1, List.reduceOption_cons_of_some,
        reduceOption_replicate_none]

theorem encode_code_point_of_bytes2 (b1 b2 : Nat) (h1 : 0xC2 ≤ b1) (h2 : b1 ≤ 0xDF)
    (h3 : 0x80 ≤ b2) (h4 : b2 ≤ 0xBF) :
    encode_code_point (b1 % 32 * 64 + b2 % 64) = some [b1, b2] := by
  have s6 : ∀ x : Nat, x >>> 6 = x / 64 := fun x => by rw [Nat.shiftRight_eq_div_pow]
  have m63 : ∀ x : Nat, x &&& 0b00111111 = x % 64 := fun x => Nat.and_pow_two_sub_one_eq_mod x 6
  have m31 : ∀ x : Nat, x &&& 0b00011111 = x % 32 := fun x => Nat.and_pow_two_sub_one_eq_mod x 5
  unfold encode_code_point
  simp only [s6, m63, m31]
  rw [if_neg (by omega), if_pos (by omega)]
  simp only [Option.some.injEq, List.cons.injEq, and_true]
  omega

theorem encode_code_point_of_bytes3 (b1 b2 b3 : Nat) (h1 : 0xE0 ≤ b1) (h2 : b1 ≤ 0xEF)
    (h3 : 0x80 ≤ b2) (h4 : b2 ≤ 0xBF) (h5 : 0x80 ≤ b3) (h6 : b3 ≤ 0xBF)
    (hshort : b1 = 0xE0 → 0xA0 ≤ b2) :
    encode_code_point ((b1 % 16 * 64 + b2 % 64) * 64 + b3 % 64) = some [b1, b2, b3] := by
  have s6 : ∀ x : Nat, x >>> 6 = x / 64 := fun x => by rw [Nat.shiftRight_eq_div_pow]
  have s12 : ∀ x : Nat, x >>> 12 = x / 4096 := fun x => by rw [Nat.shiftRight_eq_div_pow]
  have m63 : ∀ x : Nat, x &&& 0b00111111 = x % 64 := fun x => Nat.and_pow_two_sub_one_eq_mod x 6
  have m15 : ∀ x : Nat, x &&& 0b00001111 = x % 16 := fun x => Nat.and_pow_two_sub_one_eq_mod x 4
  unfold encode_code_point
  simp only [s6, s12, m63, m15]
  rw [if_neg (by omega), if_neg (by omega), if_pos (by omega)]
  simp only [Option.some.injEq, List.cons.injEq, and_true]
  omega

theorem encode_code_point_of_bytes4 (b1 b2 b3 b4 : Nat) (h1 : 0xF0 ≤ b1) (h2 : b1 ≤ 0xF4)
    (h3 : 0x80 ≤ b2) (h4 : b2 ≤ 0xBF) (h5 : 0x80 ≤ b3) (h6 : b3 ≤ 0xBF)
    (h7 : 0x80 ≤ b4) (h8 : b4 ≤ 0xBF)
    (hshort : b1 = 0xF0 → 0x90 ≤ b2) (hmax : b1 = 0xF4 → b2 ≤ 0x8F)
    (hne : ((b1 % 8 * 64 + b2 % 64) * 64 + b3 % 64) * 64 + b4 % 64 ≠ 0x10FFFF) :
    encode_code_point (((b1 % 8 * 64 + b2 % 64) * 64 + b3 % 64) * 64 + b4 % 64)
      = some [b1, b2, b3, b4] := by
  have s6 : ∀ x : Nat, x >>> 6 = x / 64 := fun x => by rw [Nat.shiftRight_eq_div_pow]
  have s12 : ∀ x : Nat, x >>> 12 = x / 4096 := fun x => by rw [Nat.shiftRight_eq_div_pow]
  have s18 : ∀ x : Nat, x >>> 18 = x / 262144 := fun x => by rw [Nat.shiftRight_eq_div_pow]
  have m63 : ∀ x : Nat, x &&& 0b00111111 = x % 64 := fun x => Nat.and_pow_two_sub_one_eq_mod x 6
  have m7 : ∀ x : Nat, x &&& 0b00000111 = x % 8 := fun x => Nat.and_pow_two_sub_one_eq_mod x 3
  unfold encode_code_point
  simp only [s6, s12, s18, m63, m7]
  rw [if_neg (by omega), if_neg (by omega), if_neg (by omega), if_pos (by omega)]
  simp only [Option.some.injEq, List.cons.injEq, and_true]
  omega


theorem encode_code_point_ascii (b : Nat) (h : b < 0x80) : encode_code_point b = some [b] := by
  unfold encode_code_point
  rw [if_pos h]

/-- The scalar at the head of valid UTF-8: its bytes have the standard bit patterns, and the
encoder gives them back for the code point they spell, unless that is U+10FFFF. -/
theorem valid_utf8_head_spec (b1 : Nat) (rest : List Nat) (n : Nat)
    (h : valid_utf8_head (b1 :: rest) = some n) :
    ∃ cp, well_formed_sequence ((b1 :: rest).take n) cp = true
      ∧ (cp ≠ 0x10FFFF → encode_code_point cp = some ((b1 :: rest).take n)) := by
  simp only [valid_utf8_head] at h
  split_ifs at h with h1 h2 h3 h4
  · cases h
    refine ⟨b1, ?_, fun _ => encode_code_point_ascii b1 h1⟩
    simp [well_formed_sequence, h1]
  · cases h
    rcases rest with _ | ⟨b2, rest2⟩
    · simp [valid_utf8_two] at h2
    · simp only [valid_utf8_two, continuation_pattern, Bool.and_eq_true, decide_eq_true_eq] at h2
      refine ⟨b1 % 32 * 64 + b2 % 64, ?_, fun _ =>
        encode_code_point_of_bytes2 b1 b2 (by omega) (by omega) (by omega) (by omega)⟩
      simp only [List.take_succ_cons, List.take_zero, well_formed_sequence, continuation_pattern,
        Bool.and_eq_true, decide_eq_true_eq]
      exact ⟨by omega, trivial⟩
  · cases h
    rcases rest with _ | ⟨b2, _ | ⟨b3, rest3⟩⟩
    · simp [valid_utf8_three] at h3
    · simp [valid_utf8_three] at h3
    · simp only [valid_utf8_three, continuation_pattern, Bool.and_eq_true, Bool.or_eq_true,
        decide_eq_true_eq] at h3
      refine ⟨(b1 % 16 * 64 + b2 % 64) * 64 + b3 % 64, ?_, fun _ =>
        encode_code_point_of_bytes3 b1 b2 b3 (by omega) (by omega) (by omega) (by omega)
          (by omega) (by omega) (by omega)⟩
      simp only [List.take_succ_cons, List.take_zero, well_formed_sequence, continuation_pattern,
        Bool.and_eq_true, decide_eq_true_eq]
      exact ⟨by omega, trivial⟩
  · cases h
    rcases rest with _ | ⟨b2, _ | ⟨b3, _ | ⟨b4, rest4⟩⟩⟩
    · simp [valid_utf8_four] at h4
    · simp [valid_utf8_four] at h4
    · simp [valid_utf8_four] at h4
    · simp only [valid_utf8_four, continuation_pattern, Bool.and_eq_true, Bool.or_eq_true,
        decide_eq_true_eq] at h4
      refine ⟨((b1 % 8 * 64 + b2 % 64) * 64 + b3 % 64) * 64 + b4 % 64, ?_, fun hne =>
        encode_code_point_of_bytes4 b1 b2 b3 b4 (by omega) (by omega) (by omega) (by omega)
          (by omega) (by omega) (by omega) (by omega) (by omega) (by omega) hne⟩
      simp only [List.take_succ_cons, List.take_zero, well_formed_sequence, continuation_pattern,
        Bool.and_eq_true, decide_eq_true_eq]
      exact ⟨by omega, trivial⟩


theorem valid_utf8_round_trip_fuel :
    ∀ (fuel : Nat) (bs : List Nat), valid_utf8_fuel fuel bs = true →
      ∀ d : utf8_decoder, d.m_chars_required = 0 →
        ∃ cps, decode_utf8_from d bs = some cps
          ∧ (0x10FFFF ∉ cps → encode_utf8 cps = some bs) := by
  intro fuel
  induction fuel with
  | zero =>
    intro bs hv d _
    cases bs with
    | nil => exact ⟨[], rfl, fun _ => rfl⟩
    | cons b rest => simp [valid_utf8_fuel] at hv
  | succ fuel ih =>
    intro bs hv d hd
    cases bs with
    | nil => exact ⟨[], rfl, fun _ => rfl⟩
    | cons b rest =>
      simp only [valid_utf8_fuel] at hv
      cases hh : valid_utf8_head (b :: rest) with
      | none => simp [hh] at hv
      | some n =>
        simp only [hh] at hv
        obtain ⟨cp, hwf, henc⟩ := valid_utf8_head_spec b rest n hh
        obtain ⟨d1, hw, hd1⟩ := write_chars_well_formed d _ cp hd hwf
        obtain ⟨cps, hdec, hre⟩ := ih _ hv d1 hd1
        refine ⟨cp :: cps, ?_, ?_⟩
        · have hsplit : b :: rest = (b :: rest).take n ++ (b :: rest).drop n :=
            (List.take_append_drop n _).symm
          rw [decode_utf8_from_eq] at hdec ⊢
          rw [hsplit, write_chars_append, hw]
          cases hq : d1.write_chars (List.drop n (b :: rest)) with
          | none => simp [hq] at hdec
          | some q =>
            simp only [hq, Option.map_some', Option.some.injEq] at hdec
            simp [hq, List.reduceOption_append, hdec, List.reduceOption_cons_of_some,
              reduceOption_replicate_none]
        · intro hmax
          have h1 : cp ≠ 0x10FFFF := fun e => hmax (by rw [e]; exact List.mem_cons_self _ _)
          have h2 : 0x10FFFF ∉ cps := fun e => hmax (List.mem_cons_of_mem _ e)
          simp only [encode_utf8, henc h1, hre h2]
          rw [List.take_append_drop]

/-- Round trip on valid UTF-8: `decode_utf8` accepts every valid sequence, and `encode_utf8`
gives the bytes back unless the text contains the code point U+10FFFF. -/
theorem encode_utf8_decode_utf8 (bs : List Nat) (hv : valid_utf8 bs = true) :
    ∃ cps, decode_utf8 bs = some cps ∧ (0x10FFFF ∉ cps → encode_utf8 cps = some bs) :=
  valid_utf8_round_trip_fuel bs.length bs hv {} rfl


/-- C2, at the failing input: the one-element sequence U+10FFFF has all its code points
`≤ 0x10FFFF`, and `encode_utf8` raises on it (its last branch tests `code_point < 0x10FFFF`). -/
theorem C2_encode_utf8_raises_at_max_code_point :
    (∀ c ∈ [0x10FFFF], c ≤ 0x10FFFF) ∧ encode_utf8 [0x10FFFF] = none := by
  decide

/-- C3, at the failing input: the bytes F4 8F BF BF are valid UTF-8, `decode_utf8` turns them into
the code point U+10FFFF, and `encode_utf8` raises on the decoded sequence instead of giving the
bytes back. -/
theorem C3_encode_utf8_raises_on_decoded_max_code_point :
    valid_utf8 [0xF4, 0x8F, 0xBF, 0xBF] = true
      ∧ decode_utf8 [0xF4, 0x8F, 0xBF, 0xBF] = some [0x10FFFF]
      ∧ (decode_utf8 [0xF4, 0x8F, 0xBF, 0xBF]).bind encode_utf8 = none := by
  decide

/-- C4: a decoder with no sequence pending (in particular a freshly constructed one) that is fed
a well-formed sequence `bs` of one to four bytes spelling `cp`, one byte per `write_char`, returns
nothing for every byte but the last, returns exactly `cp` on the last one, and has no sequence
pending afterwards; from then on it answers every further input exactly like a freshly
constructed decoder. -/
theorem C4_decoder_emits_on_last_byte (d : utf8_decoder) (bs : List Nat) (cp : Nat)
    (hd : d.m_chars_required = 0) (hw : well_formed_sequence bs cp = true) :
    ∃ d1 : utf8_decoder,
      d.write_chars bs = some (d1, List.replicate (bs.length - 1) none ++ [some cp])
        ∧ d1.m_chars_required = 0
        ∧ ∀ more : List Nat,
            (d1.write_chars more).map Prod.snd
              = (utf8_decoder.write_chars {} more).map Prod.snd := by
  obtain ⟨d1, h1, h2⟩ := write_chars_well_formed d bs cp hd hw
  exact ⟨d1, h1, h2, fun more => write_chars_idle_irrelevant more d1 {} h2 rfl⟩

/-- C4 at the three bytes E2 82 AC of U+20AC, fed to a freshly constructed decoder. -/
theorem C4_decoder_emits_on_last_byte_witness :
    ((({} : utf8_decoder).m_chars_required = 0)
        ∧ well_formed_sequence [0xE2, 0x82, 0xAC] 0x20AC = true)
      ∧ ∃ d1 : utf8_decoder,
          utf8_decoder.write_chars {} [0xE2, 0x82, 0xAC]
              = some (d1, List.replicate ([0xE2, 0x82, 0xAC].length - 1) none ++ [some 0x20AC])
            ∧ d1.m_chars_required = 0
            ∧ ∀ more : List Nat,
                (d1.write_chars more).map Prod.snd
                  = (utf8_decoder.write_chars {} more).map Prod.snd :=
  ⟨⟨rfl, by decide⟩, C4_decoder_emits_on_last_byte {} [0xE2, 0x82, 0xAC] 0x20AC rfl (by decide)⟩

/-! ## The styled buffer and the line -/

theorem set_cons_perm {α : Type} (x y : α) :
    ∀ (t : List α) (b : Nat), t[b]? = some y → (y :: t.set b x).Perm (x :: t) := by
  intro t
  induction t with
  | nil => intro b h; simp at h
  | cons z t ih =>
    intro b h
    cases b with
    | zero =>
      simp only [List.getElem?_cons_zero, Option.some.injEq] at h
      subst h
      simp only [List.set_cons_zero]
      exact List.Perm.swap _ _ _
    | succ b =>
      simp only [List.getElem?_cons_succ] at h
      simp only [List.set_cons_succ]
      exact (List.Perm.swap _ _ _).trans (((ih b h).cons z).trans (List.Perm.swap _ _ _))

theorem swap_at_perm {α : Type} : ∀ (xs : List α) (a b : Nat), (swap_at xs a b).Perm xs := by
  intro xs
  induction xs with
  | nil => intro a b; simp [swap_at]
  | cons z t ih =>
    intro a b
    unfold swap_at
    cases ha : (z :: t)[a]? with
    | none => exact List.Perm.refl _
    | some x =>
      cases hb : (z :: t)[b]? with
      | none => exact List.Perm.refl _
      | some y =>
        simp only
        cases a with
        | zero =>
          simp only [List.getElem?_cons_zero, Option.some.injEq] at ha
          subst ha
          cases b with
          | zero =>
            simp only [List.getElem?_cons_zero, Option.some.injEq] at hb
            subst hb
            simp
          | succ b =>
            simp only [List.getElem?_cons_succ] at hb
            simp only [List.set_cons_zero, List.set_cons_succ]
            exact set_cons_perm _ _ t b hb
        | succ a =>
          simp only [List.getElem?_cons_succ] at ha
          cases b with
          | zero =>
            simp only [List.getElem?_cons_zero, Option.some.injEq] at hb
            subst hb
            simp only [List.set_cons_zero, List.set_cons_succ]
            exact set_cons_perm _ _ t a ha
          | succ b =>
            simp only [List.getElem?_cons_succ] at hb
            simp only [List.set_cons_succ]
            have := ih a b
            simp only [swap_at, ha, hb] at this
            exact this.cons z

theorem swap_at_length {α : Type} (xs : List α) (a b : Nat) :
    (swap_at xs a b).length = xs.length := (swap_at_perm xs a b).length_eq

theorem sum_take_slice_drop (l : List Nat) (b e : Nat) (h : b ≤ e) :
    (l.map Int.ofNat).sum
      = ((l.take b ++ l.drop e).map Int.ofNat).sum + ((slice l b e).map Int.ofNat).sum := by
  have h1 : l = l.take b ++ (slice l b e ++ l.drop e) := by
    have : l.drop e = (l.drop b).drop (e - b) := by
      rw [List.drop_drop]; congr 1; omega
    rw [slice, this, List.take_append_drop, List.take_append_drop]
  conv_lhs => rw [h1]
  simp only [List.map_append, List.sum_append]
  ring

theorem buffer_invariant_of_u32 (w : Nat → Nat) (str : List Nat) (st : style) :
    buffer_invariant (terminal_string.of_u32 w str st) := by
  simp [buffer_invariant, terminal_string.of_u32]

theorem buffer_invariant_insert (w : Nat → Nat) (s : terminal_string) (i c : Nat)
    (h : buffer_invariant s) : buffer_invariant (s.insert w i c) := by
  obtain ⟨h1, h2, h3⟩ := h
  refine ⟨?_, ?_, ?_⟩
  · simp [terminal_string.insert, h1]
  · simp [terminal_string.insert, h2]
  · simp only [terminal_string.insert, h3, List.map_append, List.map_cons, List.sum_append,
      List.sum_cons]
    have := List.sum_take_add_sum_drop (s.m_width.map Int.ofNat) i
    rw [← List.map_take, ← List.map_drop] at this
    rw [← this]
    simp only [Int.ofNat_eq_coe]
    ring

theorem buffer_invariant_erase (s : terminal_string) (b e : Nat) (hbe : b ≤ e)
    (h : buffer_invariant s) : buffer_invariant (s.erase b e) := by
  obtain ⟨h1, h2, h3⟩ := h
  refine ⟨?_, ?_, ?_⟩
  · simp [terminal_string.erase, h1]
  · simp [terminal_string.erase, h2]
  · simp only [terminal_string.erase, h3]
    rw [sum_take_slice_drop s.m_width b e hbe]
    ring

theorem buffer_invariant_swap (s : terminal_string) (a b : Nat)
    (h : buffer_invariant s) : buffer_invariant (s.swap a b) := by
  obtain ⟨h1, h2, h3⟩ := h
  refine ⟨?_, ?_, ?_⟩
  · simp [terminal_string.swap, swap_at_length, h1]
  · simp [terminal_string.swap, swap_at_length, h2]
  · simp only [terminal_string.swap, h3]
    exact (((swap_at_perm s.m_width a b).map Int.ofNat).sum_eq).symm


theorem skip_spaces_back_le (buf : terminal_string) : ∀ i, skip_spaces_back buf i ≤ i := by
  intro i
  induction i with
  | zero => simp [skip_spaces_back]
  | succ i ih =>
    unfold skip_spaces_back
    split_ifs
    · omega
    · exact Nat.le_refl _

theorem skip_word_back_le (buf : terminal_string) : ∀ i, skip_word_back buf i ≤ i := by
  intro i
  induction i with
  | zero => simp [skip_word_back]
  | succ i ih =>
    unfold skip_word_back
    split_ifs
    · omega
    · exact Nat.le_refl _

section
variable (wcwidth9_norm : Nat → Nat)

theorem sync_frame (t : terminal_line) :
    ∃ fd vs cur prev, (t.sync wcwidth9_norm).1 =
      { t with m_fd := fd, m_view_start := vs, m_current_style := cur, m_prev := prev } := by
  unfold terminal_line.sync
  simp only []
  split_ifs
  · exact ⟨_, _, _, _, rfl⟩
  · exact ⟨_, _, _, _, rfl⟩

theorem sync_m_buf (t : terminal_line) : (t.sync wcwidth9_norm).1.m_buf = t.m_buf := by
  obtain ⟨fd, vs, cur, prev, h⟩ := sync_frame wcwidth9_norm t
  rw [h]

theorem sync_m_position (t : terminal_line) :
    (t.sync wcwidth9_norm).1.m_position = t.m_position := by
  obtain ⟨fd, vs, cur, prev, h⟩ := sync_frame wcwidth9_norm t
  rw [h]

theorem apply_color_writes_length (str : List Nat) :
    ∀ (writes : List (Nat × style)) (style_vec : List style_impl),
      (apply_color_writes str writes style_vec).length = style_vec.length := by
  intro writes
  induction writes with
  | nil => intro style_vec; rfl
  | cons wr rest ih =>
    intro style_vec
    obtain ⟨n, s⟩ := wr
    simp only [apply_color_writes, ih, style_iterator.assign, List.length_set]

theorem update_hint_m_buf (t : terminal_line) :
    (t.update_hint wcwidth9_norm).1.m_buf = t.m_buf
      ∧ (t.update_hint wcwidth9_norm).1.m_position = t.m_position := by
  unfold terminal_line.update_hint
  split
  · exact ⟨rfl, rfl⟩
  · split
    · exact ⟨rfl, rfl⟩
    · split <;> exact ⟨rfl, rfl⟩

theorem update_colors_m_buf (t : terminal_line) :
    (t.update_colors).1.m_buf.m_buf = t.m_buf.m_buf
      ∧ (t.update_colors).1.m_buf.m_width = t.m_buf.m_width
      ∧ (t.update_colors).1.m_buf.m_total_width = t.m_buf.m_total_width
      ∧ ((t.update_colors).1.m_buf.m_style = t.m_buf.m_style
          ∨ (t.update_colors).1.m_buf.m_style.length = t.m_buf.m_buf.length)
      ∧ (t.update_colors).1.m_position = t.m_position := by
  unfold terminal_line.update_colors
  split
  · exact ⟨rfl, rfl, rfl, Or.inl rfl, rfl⟩
  · split
    · exact ⟨rfl, rfl, rfl, Or.inl rfl, rfl⟩
    · refine ⟨rfl, rfl, rfl, Or.inr ?_, rfl⟩
      simp [apply_color_writes_length, terminal_string.size]

/-- What `modified_sync` leaves of the buffer and the cursor: code points, widths, total width
and cursor are untouched, the style vector is either untouched or replaced by one of the length
of the buffer. -/
theorem modified_sync_m_buf (t : terminal_line) :
    (t.modified_sync wcwidth9_norm).1.m_buf.m_buf = t.m_buf.m_buf
      ∧ (t.modified_sync wcwidth9_norm).1.m_buf.m_width = t.m_buf.m_width
      ∧ (t.modified_sync wcwidth9_norm).1.m_buf.m_total_width = t.m_buf.m_total_width
      ∧ ((t.modified_sync wcwidth9_norm).1.m_buf.m_style = t.m_buf.m_style
          ∨ (t.modified_sync wcwidth9_norm).1.m_buf.m_style.length = t.m_buf.m_buf.length)
      ∧ (t.modified_sync wcwidth9_norm).1.m_position = t.m_position := by
  obtain ⟨hh1, hh2⟩ := update_hint_m_buf wcwidth9_norm t
  have hc := update_colors_m_buf (t.update_hint wcwidth9_norm).1
  rw [hh1, hh2] at hc
  unfold terminal_line.modified_sync
  simp only []
  split_ifs
  · rw [hh1, hh2]; exact ⟨rfl, rfl, rfl, Or.inl rfl, rfl⟩
  · exact hc
  · rw [sync_m_buf, sync_m_position]; exact hc
  · rw [sync_m_buf, sync_m_position]; exact ⟨rfl, rfl, rfl, Or.inl rfl, rfl⟩

theorem modified_sync_invariant (t : terminal_line) (h : line_invariant t) :
    line_invariant (t.modified_sync wcwidth9_norm).1 := by
  obtain ⟨⟨h1, h2, h3⟩, h4⟩ := h
  obtain ⟨e1, e2, e3, e4, e5⟩ := modified_sync_m_buf wcwidth9_norm t
  refine ⟨⟨?_, ?_, ?_⟩, ?_⟩
  · rw [e1, e2]; exact h1
  · rcases e4 with e4 | e4
    · rw [e4, e1]; exact h2
    · rw [e4, e1]
  · rw [e3, e2]; exact h3
  · rw [e5]; simp only [terminal_string.size, e1]; exact h4

theorem sync_invariant (t : terminal_line) (h : line_invariant t) :
    line_invariant (t.sync wcwidth9_norm).1 := by
  unfold line_invariant
  rw [sync_m_buf, sync_m_position]
  exact h

theorem editing_action_invariant (t : terminal_line) (a : editing_action)
    (h : line_invariant t) : line_invariant (a.run wcwidth9_norm t).1 := by
  obtain ⟨hb, hp⟩ := h
  have hsz : ∀ s : terminal_string, s.size = s.m_buf.length := fun _ => rfl
  cases a with
  | insert_character c =>
    apply modified_sync_invariant
    refine ⟨buffer_invariant_insert _ _ _ _ hb, ?_⟩
    simp only [hsz, terminal_string.insert] at hp ⊢
    simp; omega
  | erase_previous_character =>
    simp only [editing_action.run, terminal_line.erase_previous_character]
    split_ifs with h0
    · exact ⟨hb, hp⟩
    · apply modified_sync_invariant
      refine ⟨buffer_invariant_erase _ _ _ (by omega) hb, ?_⟩
      simp only [hsz, terminal_string.erase] at hp ⊢
      simp; omega
  | erase_current_character =>
    simp only [editing_action.run, terminal_line.erase_current_character]
    split_ifs with h0
    · exact ⟨hb, hp⟩
    · apply modified_sync_invariant
      refine ⟨buffer_invariant_erase _ _ _ (by omega) hb, ?_⟩
      simp only [hsz, terminal_string.erase] at hp h0 ⊢
      simp; omega
  | erase_line_backward =>
    apply modified_sync_invariant
    exact ⟨buffer_invariant_erase _ _ _ (by omega) hb, Nat.zero_le _⟩
  | erase_line_forward =>
    apply modified_sync_invariant
    refine ⟨buffer_invariant_erase _ _ _ hp hb, ?_⟩
    simp only [hsz, terminal_string.erase] at hp ⊢
    simp; omega
  | swap_characters =>
    simp only [editing_action.run, terminal_line.swap_characters]
    by_cases h0 : t.m_position = 0 ∨ t.m_buf.size < 2
    · rw [if_pos h0]; exact ⟨hb, hp⟩
    · rw [if_neg h0]
      apply modified_sync_invariant
      refine ⟨buffer_invariant_swap _ _ _ hb, ?_⟩
      simp only [hsz, terminal_string.swap, swap_at_length] at hp h0 ⊢
      split_ifs <;> omega
  | erase_previous_word =>
    simp only [editing_action.run, terminal_line.erase_previous_word]
    by_cases h0 : t.m_position = 0
    · rw [if_pos h0]; exact ⟨hb, hp⟩
    · rw [if_neg h0]
      have h1 := skip_spaces_back_le t.m_buf (t.m_position - 1)
      have h2 := skip_word_back_le t.m_buf (skip_spaces_back t.m_buf (t.m_position - 1))
      have h3 : (if skip_word_back t.m_buf (skip_spaces_back t.m_buf (t.m_position - 1)) = 0
          then 0
          else skip_word_back t.m_buf (skip_spaces_back t.m_buf (t.m_position - 1)) + 1)
            ≤ t.m_position := by
        split_ifs <;> omega
      apply modified_sync_invariant
      refine ⟨buffer_invariant_erase _ _ _ h3 hb, ?_⟩
      simp only [hsz, terminal_string.erase, List.length_append, List.length_take,
        List.length_drop] at hp ⊢
      omega
  | set_line str =>
    apply modified_sync_invariant
    exact ⟨buffer_invariant_of_u32 _ _ _, by simp [hsz, terminal_string.of_u32]⟩
  | cursor_back =>
    simp only [editing_action.run, terminal_line.cursor_back]
    split_ifs with h0
    · exact ⟨hb, hp⟩
    · apply sync_invariant
      exact ⟨hb, by simp only; omega⟩
  | cursor_forward =>
    simp only [editing_action.run, terminal_line.cursor_forward]
    split_ifs with h0
    · exact ⟨hb, hp⟩
    · apply sync_invariant
      exact ⟨hb, by simp only at hp h0 ⊢; omega⟩
  | cursor_home =>
    apply sync_invariant
    exact ⟨hb, Nat.zero_le _⟩
  | cursor_end =>
    apply sync_invariant
    exact ⟨hb, Nat.le_refl _⟩

end

theorem run_actions_invariant (wcwidth9_norm : Nat → Nat) (actions : List editing_action) :
    ∀ t : terminal_line, line_invariant t → line_invariant (run_actions wcwidth9_norm t actions) := by
  induction actions with
  | nil => intro t h; exact h
  | cons a rest ih =>
    intro t h
    exact ih _ (editing_action_invariant wcwidth9_norm t a h)

/-- C5: take the line as its constructor leaves it (any descriptor, prompt, callbacks, mask flag,
hint style and terminal size) and run any sequence of editing actions on it (an action also runs
on the line left behind by an action that raised).  Then the code-point, width and style vectors
of the line buffer have one length, and the cached total width is the sum of the widths. -/
theorem C5_buffer_invariant_after_editing (wcwidth9_norm : Nat → Nat) (fd : Int)
    (prompt : terminal_string) (hint_callback : Option (List Nat → List Nat))
    (color_callback : Option (List Nat → List (Nat × style))) (masked : Bool)
    (hint_style : style) (ws_col : Option Nat) (actions : List editing_action) :
    (run_actions wcwidth9_norm
        (terminal_line.create wcwidth9_norm fd prompt hint_callback color_callback masked
          hint_style ws_col).1 actions).m_buf.m_width.length
      = (run_actions wcwidth9_norm
        (terminal_line.create wcwidth9_norm fd prompt hint_callback color_callback masked
          hint_style ws_col).1 actions).m_buf.m_buf.length
    ∧ (run_actions wcwidth9_norm
        (terminal_line.create wcwidth9_norm fd prompt hint_callback color_callback masked
          hint_style ws_col).1 actions).m_buf.m_style.length
      = (run_actions wcwidth9_norm
        (terminal_line.create wcwidth9_norm fd prompt hint_callback color_callback masked
          hint_style ws_col).1 actions).m_buf.m_buf.length
    ∧ (run_actions wcwidth9_norm
        (terminal_line.create wcwidth9_norm fd prompt hint_callback color_callback masked
          hint_style ws_col).1 actions).m_buf.m_total_width
      = ((run_actions wcwidth9_norm
        (terminal_line.create wcwidth9_norm fd prompt hint_callback color_callback masked
          hint_style ws_col).1 actions).m_buf.m_width.map Int.ofNat).sum := by
  have h0 : line_invariant (terminal_line.create wcwidth9_norm fd prompt hint_callback
      color_callback masked hint_style ws_col).1 := by
    unfold terminal_line.create
    apply sync_invariant
    exact ⟨⟨rfl, rfl, rfl⟩, Nat.le_refl _⟩
  exact (run_actions_invariant wcwidth9_norm actions _ h0).1

/-! ## The view -/

/-- The fuel given to the comparison loop of `sync` is enough: the loop stops because its
condition fails. -/
theorem sync_compare_exits (state prev : terminal_string) :
    ∀ (fuel : Nat) (v : sync_vars), (state.size - v.i) + (prev.size - v.j) ≤ fuel →
      ¬ ((sync_compare state prev fuel v).i < state.size
          ∧ (sync_compare state prev fuel v).j < prev.size) := by
  intro fuel
  induction fuel with
  | zero =>
    intro v hf
    simp only [sync_compare]
    omega
  | succ n ih =>
    intro v hf
    unfold sync_compare
    by_cases hc : v.i < state.size ∧ v.j < prev.size
    · rw [if_pos hc]
      split_ifs
      all_goals (apply ih; simp only []; omega)
    · rw [if_neg hc]
      exact hc

theorem sync_scan_exits (state prev : terminal_string) :
    ¬ ((sync_compare state prev (state.size + prev.size) {}).i < state.size
        ∧ (sync_compare state prev (state.size + prev.size) {}).j < prev.size) :=
  sync_compare_exits state prev _ {} (by simp)


theorem switch_to_snd (src dst : style_impl) : (style_impl.switch_to src dst).2 = dst := by
  by_cases h : src.m_style = dst.m_style
  · simp only [style_impl.switch_to, h, if_true]
    cases src; cases dst; simp only [style_impl.mk.injEq]; exact h
  · simp only [style_impl.switch_to, h, if_false]

theorem length_takeWhile_le_length {α : Type} (p : α → Bool) :
    ∀ l : List α, (l.takeWhile p).length ≤ l.length := by
  intro l
  induction l with
  | nil => simp
  | cons x t ih =>
    simp only [List.takeWhile_cons]
    split
    · simp only [List.length_cons]; omega
    · simp

theorem head_of_takeWhile_zero (cur : style_impl) (styles : List style_impl)
    (h0 : (styles.takeWhile (fun s => decide (s = cur))).length = 0) (hne : styles ≠ []) :
    ¬ styles.head? = some cur := by
  cases styles with
  | nil => exact absurd rfl hne
  | cons x t =>
    simp only [List.takeWhile_cons] at h0
    by_cases hx : x = cur
    · simp [hx] at h0
    · simpa using hx

theorem head_drop_getD {α : Type} (d : α) (l : List α) (n : Nat) (h : n < l.length) :
    (l.drop n).head? = some (l.getD n d) := by
  rw [List.head?_drop, List.getD_eq_getElem?_getD, List.getElem?_eq_getElem h]
  rfl

/-- The fuel given to the writing loop of `sync` is enough when there are as many styles as
code points: more fuel does not change what the loop does.  The rounds still needed are at most
twice the code points left, plus one when the next style differs from the current one. -/
theorem sync_write_fuel_enough :
    ∀ (fuel extra : Nat) (fd : output_fd) (cur : style_impl) (to_write : List Nat)
      (styles : List style_impl), styles.length = to_write.length →
      2 * to_write.length + (if styles.head? = some cur then 0 else 1) + 1 ≤ fuel →
      sync_write (fuel + extra) fd cur to_write styles = sync_write fuel fd cur to_write styles := by
  intro fuel
  induction fuel with
  | zero => intro extra fd cur to_write styles _ hf; omega
  | succ n ih =>
    intro extra fd cur to_write styles hlen hf
    rw [show n + 1 + extra = (n + extra) + 1 by omega]
    unfold sync_write
    by_cases he : to_write.isEmpty
    · simp only [he, if_true]
    · simp only [he, Bool.false_eq_true, if_false]
      cases hw : fd.write_u32
          (List.take (List.takeWhile (fun s => decide (s = cur)) styles).length to_write) with
      | none => rfl
      | some fd1 =>
        simp only []
        have hne : to_write ≠ [] := by simpa using he
        have hpos : 0 < to_write.length := List.length_pos.mpr hne
        have hle := length_takeWhile_le_length (fun s => decide (s = cur)) styles
        by_cases hn : (List.takeWhile (fun s => decide (s = cur)) styles).length < styles.length
        · simp only [hn, if_true]
          apply ih
          · simp only [List.length_drop, hlen]
          · rw [switch_to_snd, head_drop_getD ({} : style_impl) _ _ hn]
            simp only [if_true, List.length_drop]
            by_cases h0 : (List.takeWhile (fun s => decide (s = cur)) styles).length = 0
            · have hs : styles ≠ [] := by
                intro e; rw [e] at hlen; simp at hlen; omega
              have := head_of_takeWhile_zero cur styles h0 hs
              rw [if_neg this] at hf
              rw [h0]
              omega
            · generalize (List.takeWhile (fun s => decide (s = cur)) styles).length = k at *
              split_ifs at hf <;> omega
        · simp only [hn, if_false]
          have hdrop : List.drop (List.takeWhile (fun s => decide (s = cur)) styles).length to_write
              = [] := by
            have : (List.takeWhile (fun s => decide (s = cur)) styles).length = to_write.length := by
              omega
            rw [this]; exact List.drop_length _
          rw [hdrop]
          cases n with
          | zero => omega
          | succ m =>
            rw [show m + 1 + extra = (m + extra) + 1 by omega]
            simp [sync_write]


/-- The fuel `2 * to_write.length + 2` that `sync` gives to its writing loop is enough when the
frame has as many styles as code points. -/
theorem sync_write_fuel_of_sync (extra : Nat) (fd : output_fd) (cur : style_impl)
    (to_write : List Nat) (styles : List style_impl) (h : styles.length = to_write.length) :
    sync_write (2 * to_write.length + 2 + extra) fd cur to_write styles
      = sync_write (2 * to_write.length + 2) fd cur to_write styles :=
  sync_write_fuel_enough _ extra fd cur to_write styles h (by split_ifs <;> omega)


theorem sync_compare_same (state prev : terminal_string)
    (hb : state.m_buf = prev.m_buf) (hw : state.m_width = prev.m_width)
    (hs : state.m_style = prev.m_style) :
    ∀ (fuel : Nat) (v : sync_vars), v.i = v.j → v.i_col = v.j_col → v.end_update = none →
      state.size - v.i ≤ fuel →
      (sync_compare state prev fuel v).end_update = none
        ∧ (sync_compare state prev fuel v).j = (sync_compare state prev fuel v).i
        ∧ state.size ≤ (sync_compare state prev fuel v).i := by
  have hsize : prev.size = state.size := by simp [terminal_string.size, hb]
  intro fuel
  induction fuel with
  | zero =>
    intro v hij _ he hf
    simp only [sync_compare]
    exact ⟨he, hij.symm, by omega⟩
  | succ n ih =>
    intro v hij hcol he hf
    unfold sync_compare
    by_cases hlt : v.i < state.size
    · have hj : v.j < prev.size := by omega
      have hat : state.at v.i = prev.at v.j := by simp [terminal_string.at, hb, hij]
      have hst : state.m_style.getD v.i {} = prev.m_style.getD v.j {} := by rw [hs, hij]
      simp only [hlt, hj, and_self, if_true, hcol, hat, hst, ne_eq, not_true_eq_false, or_self,
        if_false]
      apply ih
      · simp [hij]
      · simp [hw, hij]
      · exact he
      · simp only; omega
    · have : ¬ (v.i < state.size ∧ v.j < prev.size) := fun h => hlt h.1
      simp only [this, if_false]
      exact ⟨he, hij.symm, by omega⟩

theorem sync_scan_same (state prev : terminal_string)
    (hb : state.m_buf = prev.m_buf) (hw : state.m_width = prev.m_width)
    (hs : state.m_style = prev.m_style) :
    (sync_scan state prev).end_update = none ∧ ¬ (sync_scan state prev).j < prev.size := by
  have hsize : prev.size = state.size := by simp [terminal_string.size, hb]
  obtain ⟨h1, h2, h3⟩ := sync_compare_same state prev hb hw hs (state.size + prev.size) {}
    rfl rfl rfl (by simp)
  unfold sync_scan
  simp only []
  have hn : ¬ (sync_compare state prev (state.size + prev.size) {}).i < state.size := by omega
  rw [if_neg hn]
  exact ⟨h1, by omega⟩

theorem move_cursor_to_same (fd : output_fd) (column : Int) :
    move_cursor_to fd column column = (fd, column) := by
  simp [move_cursor_to]

section
variable (wcwidth9_norm : Nat → Nat)

/-- C6: when the target frame computed by `current_state` for a `sync` has the code points, the
widths, the styles and the cursor column of `m_prev` (the last rendered frame), `sync` returns
normally, the bytes written to the terminal are exactly those written before it (no text, no
cursor move, no style or erase sequence), and `m_prev` keeps its code points, widths, styles and
column. -/
theorem C6_sync_writes_nothing_when_frame_unchanged (t : terminal_line)
    (hbuf : (t.current_state wcwidth9_norm).2.buf.m_buf = t.m_prev.buf.m_buf)
    (hwidth : (t.current_state wcwidth9_norm).2.buf.m_width = t.m_prev.buf.m_width)
    (hstyle : (t.current_state wcwidth9_norm).2.buf.m_style = t.m_prev.buf.m_style)
    (hcolumn : (t.current_state wcwidth9_norm).2.column = t.m_prev.column) :
    (t.sync wcwidth9_norm).2 = false
      ∧ (t.sync wcwidth9_norm).1.m_fd = t.m_fd
      ∧ (t.sync wcwidth9_norm).1.m_prev.buf.m_buf = t.m_prev.buf.m_buf
      ∧ (t.sync wcwidth9_norm).1.m_prev.buf.m_width = t.m_prev.buf.m_width
      ∧ (t.sync wcwidth9_norm).1.m_prev.buf.m_style = t.m_prev.buf.m_style
      ∧ (t.sync wcwidth9_norm).1.m_prev.column = t.m_prev.column := by
  have hprev : (t.current_state wcwidth9_norm).1.m_prev = t.m_prev := rfl
  have hfd : (t.current_state wcwidth9_norm).1.m_fd = t.m_fd := rfl
  obtain ⟨he, hj⟩ := sync_scan_same (t.current_state wcwidth9_norm).2.buf t.m_prev.buf
    hbuf hwidth hstyle
  have hu : sync_update t.m_fd t.m_current_style (t.current_state wcwidth9_norm).2.buf
      (sync_scan (t.current_state wcwidth9_norm).2.buf t.m_prev.buf) t.m_prev.column
      = (t.m_fd, t.m_current_style, false, t.m_prev.column) := by
    simp only [sync_update, he]
  have her : sync_erase t.m_fd (t.current_state wcwidth9_norm).2.buf t.m_prev.buf
      (sync_scan (t.current_state wcwidth9_norm).2.buf t.m_prev.buf) t.m_prev.column
      = (t.m_fd, t.m_prev.column) := by
    simp only [sync_erase, hj, if_false]
  unfold terminal_line.sync
  simp only [hprev, hfd]
  have hcs : (t.current_state wcwidth9_norm).1.m_current_style = t.m_current_style := rfl
  rw [hcs, hu]
  simp only [her, hcolumn, move_cursor_to_same, Bool.false_eq_true, if_false]
  exact ⟨trivial, trivial, hbuf, hwidth, hstyle, trivial⟩

end

/-- C6 at the line `sample_line`, a second `sync` right after the one of the constructor. -/
theorem C6_sync_writes_nothing_when_frame_unchanged_witness :
    ((sample_line.current_state (fun _ => 1)).2.buf.m_buf = sample_line.m_prev.buf.m_buf
      ∧ (sample_line.current_state (fun _ => 1)).2.buf.m_width = sample_line.m_prev.buf.m_width
      ∧ (sample_line.current_state (fun _ => 1)).2.buf.m_style = sample_line.m_prev.buf.m_style
      ∧ (sample_line.current_state (fun _ => 1)).2.column = sample_line.m_prev.column)
    ∧ ((sample_line.sync (fun _ => 1)).2 = false
      ∧ (sample_line.sync (fun _ => 1)).1.m_fd = sample_line.m_fd
      ∧ (sample_line.sync (fun _ => 1)).1.m_prev.buf.m_buf = sample_line.m_prev.buf.m_buf
      ∧ (sample_line.sync (fun _ => 1)).1.m_prev.buf.m_width = sample_line.m_prev.buf.m_width
      ∧ (sample_line.sync (fun _ => 1)).1.m_prev.buf.m_style = sample_line.m_prev.buf.m_style
      ∧ (sample_line.sync (fun _ => 1)).1.m_prev.column = sample_line.m_prev.column) :=
  ⟨by decide, C6_sync_writes_nothing_when_frame_unchanged (fun _ => 1) sample_line
    (by decide) (by decide) (by decide) (by decide)⟩


/-! ## Rendering without exceptions -/

theorem encode_utf8_of_encodable (cps : List Nat) (h : encodable cps) :
    ∃ bs, encode_utf8 cps = some bs := by
  obtain ⟨bs, hbs, _⟩ := decode_utf8_encode_utf8 cps h
  exact ⟨bs, hbs⟩

theorem encodable_take (cps : List Nat) (n : Nat) (h : encodable cps) : encodable (cps.take n) :=
  fun c hc => h c (List.mem_of_mem_take hc)

theorem encodable_drop (cps : List Nat) (n : Nat) (h : encodable cps) : encodable (cps.drop n) :=
  fun c hc => h c (List.mem_of_mem_drop hc)

theorem encodable_append (a b : List Nat) (ha : encodable a) (hb : encodable b) :
    encodable (a ++ b) := by
  intro c hc
  rcases List.mem_append.mp hc with h | h
  · exact ha c h
  · exact hb c h

theorem sync_write_no_raise :
    ∀ (fuel : Nat) (fd : output_fd) (cur : style_impl) (to_write : List Nat)
      (styles : List style_impl), encodable to_write →
      (sync_write fuel fd cur to_write styles).2.2 = false := by
  intro fuel
  induction fuel with
  | zero => intro fd cur to_write styles _; rfl
  | succ n ih =>
    intro fd cur to_write styles h
    unfold sync_write
    split_ifs with h0
    · rfl
    · simp only []
      obtain ⟨bs, hbs⟩ := encode_utf8_of_encodable _
        (encodable_take to_write
          (List.takeWhile (fun s => decide (s = cur)) styles).length h)
      simp only [output_fd.write_u32, hbs]
      split_ifs
      · exact ih _ _ _ _ (encodable_drop _ _ h)
      · exact ih _ _ _ _ (encodable_drop _ _ h)

theorem sync_update_no_raise (fd : output_fd) (cur : style_impl) (state : terminal_string)
    (v : sync_vars) (col : Int) (h : encodable state.m_buf) :
    (sync_update fd cur state v col).2.2.1 = false := by
  have h2 : ∀ (fuel : Nat) (fd1 : output_fd) (styles : List style_impl) (n a : Nat),
      (sync_write fuel fd1 cur (List.take n (List.drop a state.m_buf)) styles).2.2 = false :=
    fun fuel fd1 styles n a =>
      sync_write_no_raise fuel fd1 cur _ styles (encodable_take _ _ (encodable_drop _ a h))
  unfold sync_update
  cases v.end_update with
  | none => rfl
  | some e => simp only [h2]; rfl

theorem decode_utf8_from_ascii (cps : List Nat) (h : ∀ c ∈ cps, c < 0x80) :
    ∀ d : utf8_decoder, d.m_chars_required = 0 → decode_utf8_from d cps = some cps := by
  induction cps with
  | nil => intro d _; rfl
  | cons c cs ih =>
    intro d hd
    simp only [decode_utf8_from, write_char_ascii d c hd (h c (List.mem_cons_self _ _)),
      ih (fun x hx => h x (List.mem_cons_of_mem _ hx)) d hd]
    rfl

section
variable (wcwidth9_norm : Nat → Nat)

theorem current_state_encodable (t : terminal_line) (hp : encodable t.m_prompt.m_buf)
    (hb : encodable t.m_buf.m_buf) (hh : encodable t.m_hint.m_buf) :
    encodable (t.current_state wcwidth9_norm).2.buf.m_buf := by
  have hstars : ∀ n, encodable
      ((terminal_string.of_string wcwidth9_norm (List.replicate n 42)).getD {}).m_buf := by
    intro n
    have : decode_utf8 (List.replicate n 42) = some (List.replicate n 42) :=
      decode_utf8_from_ascii _ (fun c hc => by rw [List.eq_of_mem_replicate hc]; decide) {} rfl
    simp only [terminal_string.of_string, this, Option.getD_some, terminal_string.of_u32]
    intro c hc
    rw [List.eq_of_mem_replicate hc]; decide
  have hsub : ∀ a b, encodable (t.m_buf.substr a b).m_buf := fun a b =>
    encodable_take _ _ (encodable_drop _ _ hb)
  have hhint : ∀ a b, encodable (t.m_hint.substr a b).m_buf := fun a b =>
    encodable_take _ _ (encodable_drop _ _ hh)
  have hmidT : encodable (t.m_prompt.append
      ((terminal_string.of_string wcwidth9_norm (List.replicate t.m_buf.size 42)).getD {})).m_buf :=
    encodable_append _ _ hp (hstars _)
  have hmidF : ∀ a b, encodable (t.m_prompt.append (t.m_buf.substr a b)).m_buf := fun a b =>
    encodable_append _ _ hp (hsub a b)
  unfold terminal_line.current_state
  simp only []
  split_ifs <;>
    first
    | exact hmidT
    | exact hmidF _ _
    | exact encodable_append _ _ hmidT (hhint _ _)
    | exact encodable_append _ _ (hmidF _ _) (hhint _ _)

theorem sync_no_raise (t : terminal_line) (hp : encodable t.m_prompt.m_buf)
    (hb : encodable t.m_buf.m_buf) (hh : encodable t.m_hint.m_buf) :
    (t.sync wcwidth9_norm).2 = false := by
  have h := current_state_encodable wcwidth9_norm t hp hb hh
  unfold terminal_line.sync
  simp only [sync_update_no_raise _ _ _ _ _ h]
  rfl

end

section
variable (wcwidth9_norm : Nat → Nat)

theorem sync_renderable (t : terminal_line) (h : line_renderable t) :
    (t.sync wcwidth9_norm).2 = false ∧ line_renderable (t.sync wcwidth9_norm).1 := by
  refine ⟨sync_no_raise wcwidth9_norm t h.1 h.2.1 h.2.2.1, ?_⟩
  obtain ⟨fd, vs, cur, prev, e⟩ := sync_frame wcwidth9_norm t
  rw [e]
  exact h

theorem update_hint_renderable (t : terminal_line) (h : line_renderable t) :
    (t.update_hint wcwidth9_norm).2 = false ∧ line_renderable (t.update_hint wcwidth9_norm).1 := by
  obtain ⟨hp, hb, hh, hcb⟩ := h
  unfold terminal_line.update_hint
  cases hc : t.m_hint_callback with
  | none => exact ⟨rfl, hp, hb, hh, hcb⟩
  | some cb =>
    obtain ⟨bs, hbs⟩ := encode_utf8_of_encodable _ hb
    simp only [terminal_string.to_string, hbs]
    obtain ⟨hint, hd, he⟩ := hcb cb hc bs
    simp only [terminal_string.of_string, hd]
    exact ⟨trivial, hp, hb, he, fun cb1 h1 => hcb cb1 (hc.trans h1)⟩

theorem update_colors_renderable (t : terminal_line) (h : line_renderable t) :
    (t.update_colors).2 = false ∧ line_renderable (t.update_colors).1 := by
  obtain ⟨hp, hb, hh, hcb⟩ := h
  unfold terminal_line.update_colors
  cases hc : t.m_color_callback with
  | none => exact ⟨rfl, hp, hb, hh, hcb⟩
  | some cb =>
    obtain ⟨bs, hbs⟩ := encode_utf8_of_encodable _ hb
    simp only [terminal_string.to_string, hbs]
    exact ⟨trivial, hp, hb, hh, hcb⟩

theorem modified_sync_renderable (t : terminal_line) (h : line_renderable t) :
    (t.modified_sync wcwidth9_norm).2 = false
      ∧ line_renderable (t.modified_sync wcwidth9_norm).1 := by
  obtain ⟨h1, h2⟩ := update_hint_renderable wcwidth9_norm t h
  obtain ⟨h3, h4⟩ := update_colors_renderable _ h2
  unfold terminal_line.modified_sync
  cases hm : t.m_masked
  · simp only [Bool.not_false, if_true, h1, h3, Bool.false_eq_true, if_false]
    exact sync_renderable wcwidth9_norm _ h4
  · simp only [Bool.not_true, Bool.false_eq_true, if_false]
    exact sync_renderable wcwidth9_norm _ h

theorem feed_cons (r : line_reader) (c : Nat) (cs : List Nat) :
    r.feed wcwidth9_norm (c :: cs) =
      (((r.process_single_char wcwidth9_norm c).1.feed wcwidth9_norm cs).1,
        (r.process_single_char wcwidth9_norm c).2
          :: ((r.process_single_char wcwidth9_norm c).1.feed wcwidth9_norm cs).2) := rfl

theorem feed_append (a b : List Nat) :
    ∀ r : line_reader, r.feed wcwidth9_norm (a ++ b) =
      (((r.feed wcwidth9_norm a).1.feed wcwidth9_norm b).1,
        (r.feed wcwidth9_norm a).2 ++ ((r.feed wcwidth9_norm a).1.feed wcwidth9_norm b).2) := by
  induction a with
  | nil => intro r; rfl
  | cons c cs ih =>
    intro r
    rw [List.cons_append, feed_cons, feed_cons, ih]
    rfl

/-- Feeding the bytes of one well-formed sequence: every call but the last only advances the
decoder, the last one handles the decoded code point. -/
theorem feed_of_write_chars (cp : Nat) (d1 : utf8_decoder) :
    ∀ (bs : List Nat) (r : line_reader) (k : Nat),
      r.m_decoder.write_chars bs = some (d1, List.replicate k none ++ [some cp]) →
      bs.length = k + 1 →
      r.feed wcwidth9_norm bs =
        ((line_reader.process_code_point wcwidth9_norm { r with m_decoder := d1 } cp).1,
          List.replicate k step.pending
            ++ [(line_reader.process_code_point wcwidth9_norm { r with m_decoder := d1 } cp).2]) := by
  intro bs
  induction bs with
  | nil => intro r k _ hl; simp at hl
  | cons c cs ih =>
    intro r k hw hl
    cases hc : r.m_decoder.write_char c with
    | none => simp [utf8_decoder.write_chars, hc] at hw
    | some q =>
      obtain ⟨d, wc⟩ := q
      rw [write_chars_cons _ _ _ _ _ hc] at hw
      cases hcs : d.write_chars cs with
      | none => simp [hcs] at hw
      | some q2 =>
        obtain ⟨d2, wcs⟩ := q2
        simp only [hcs, Option.map_some', Option.some.injEq, Prod.mk.injEq] at hw
        obtain ⟨hd2, hwcs⟩ := hw
        subst hd2
        cases k with
        | zero =>
          have hcs0 : cs = [] := by
            simp only [List.length_cons, zero_add, add_left_eq_self, List.length_eq_zero] at hl
            exact hl
          subst hcs0
          simp only [utf8_decoder.write_chars, Option.some.injEq, Prod.mk.injEq] at hcs
          obtain ⟨hdd, hw0⟩ := hcs
          subst hdd
          subst hw0
          simp only [List.replicate_zero, List.nil_append, List.cons.injEq, and_true] at hwcs
          subst hwcs
          simp only [line_reader.feed, line_reader.process_single_char, hc, List.replicate_zero,
            List.nil_append]
        | succ k =>
          simp only [List.replicate_succ, List.cons_append, List.cons.injEq] at hwcs
          obtain ⟨hwc, hrest⟩ := hwcs
          subst hwc
          have hstep : r.process_single_char wcwidth9_norm c
              = ({ r with m_decoder := d }, step.pending) := by
            simp only [line_reader.process_single_char, hc]
          have := ih { r with m_decoder := d } k (by simp only [hcs, hrest])
            (by simp only [List.length_cons] at hl; omega)
          simp only [line_reader.feed, hstep, this, List.replicate_succ, List.cons_append]

end

/-! ## Typing -/

section
variable (wcwidth9_norm : Nat → Nat)

theorem insert_character_buffer (t : terminal_line) (wc : Nat) :
    (t.insert_character wcwidth9_norm wc).1.m_buf.m_buf
        = t.m_buf.m_buf.take t.m_position ++ wc :: t.m_buf.m_buf.drop t.m_position
      ∧ (t.insert_character wcwidth9_norm wc).1.m_position = t.m_position + 1 := by
  obtain ⟨e1, _, _, _, e5⟩ := modified_sync_m_buf wcwidth9_norm
    { t with
      m_buf := t.m_buf.insert wcwidth9_norm t.m_position wc
      m_position := t.m_position + 1 }
  exact ⟨e1, e5⟩

theorem insert_character_renderable (t : terminal_line) (wc : Nat) (h : line_renderable t)
    (hwc : wc < 0x10FFFF) :
    (t.insert_character wcwidth9_norm wc).2 = false
      ∧ line_renderable (t.insert_character wcwidth9_norm wc).1 := by
  apply modified_sync_renderable
  obtain ⟨hp, hb, hh, hcb⟩ := h
  refine ⟨hp, ?_, hh, hcb⟩
  simp only [terminal_string.insert]
  intro c hc
  rcases List.mem_append.mp hc with h1 | h1
  · exact hb c (List.mem_of_mem_take h1)
  · rcases List.mem_cons.mp h1 with h2 | h2
    · rw [h2]; exact hwc
    · exact hb c (List.mem_of_mem_drop h2)

/-- A code point that is no control key, outside an escape sequence, is inserted. -/
theorem process_code_point_printable (r : line_reader) (t : terminal_line) (wc : Nat)
    (hesc : r.m_chars_required = 0) (hl : r.m_line = some t) (h32 : 32 ≤ wc) (h127 : wc ≠ 127)
    (hins : (t.insert_character wcwidth9_norm wc).2 = false) :
    r.process_code_point wcwidth9_norm wc =
      ({ r with m_line := some (t.insert_character wcwidth9_norm wc).1
                m_completion := r.m_completion.reset }, step.pending) := by
  have k1 : wc ≠ 13 := by omega
  have k2 : wc ≠ 4 := by omega
  have k3 : wc ≠ 3 := by omega
  have k4 : wc ≠ 8 := by omega
  have k5 : wc ≠ 21 := by omega
  have k6 : wc ≠ 11 := by omega
  have k7 : wc ≠ 1 := by omega
  have k8 : wc ≠ 5 := by omega
  have k9 : wc ≠ 20 := by omega
  have k10 : wc ≠ 23 := by omega
  have k11 : wc ≠ 12 := by omega
  have k12 : wc ≠ 9 := by omega
  have k13 : wc ≠ 27 := by omega
  unfold line_reader.process_code_point
  simp only [hesc, ne_eq, not_true_eq_false, if_false, key.enter, key.ctrl_d, key.ctrl_c,
    key.backspace, key.ctrl_h, key.ctrl_u, key.ctrl_k, key.ctrl_a, key.ctrl_e, key.ctrl_t,
    key.ctrl_w, key.ctrl_l, key.tab, key.esc, k1, k2, k3, k4, k5, k6, k7, k8, k9, k10, k11, k12,
    k13, h127, or_self, false_and]
  simp only [line_reader.on_line, hl, and_then, hins, Bool.false_eq_true, if_false,
    line_reader.line_modified]
  rw [hesc]


/-- Typing one printable, encodable code point at the end of the line of a reader that is
outside an escape sequence and has no UTF-8 sequence pending. -/
theorem feed_printable (r : line_reader) (t : terminal_line) (cp : Nat) (bs : List Nat)
    (hdec : r.m_decoder.m_chars_required = 0) (hesc : r.m_chars_required = 0)
    (hl : r.m_line = some t) (hren : line_renderable t)
    (h32 : 32 ≤ cp) (h127 : cp ≠ 127) (hbs : encode_code_point cp = some bs) :
    ∃ (d1 : utf8_decoder) (t1 : terminal_line),
      r.feed wcwidth9_norm bs
          = ({ r with m_decoder := d1, m_line := some t1, m_completion := r.m_completion.reset },
              List.replicate bs.length step.pending)
        ∧ d1.m_chars_required = 0 ∧ line_renderable t1
        ∧ t1.m_buf.m_buf = t.m_buf.m_buf.take t.m_position ++ cp :: t.m_buf.m_buf.drop t.m_position
        ∧ t1.m_position = t.m_position + 1 := by
  have hlt : cp < 0x10FFFF := by
    by_contra hge
    have : encode_code_point cp = none := by
      unfold encode_code_point
      split_ifs <;> first | rfl | omega
    rw [this] at hbs
    exact Option.noConfusion hbs
  obtain ⟨bs2, hbs2, hwf⟩ := encode_code_point_well_formed cp hlt
  rw [hbs] at hbs2
  cases hbs2
  obtain ⟨d1, hw, hd1⟩ := write_chars_well_formed r.m_decoder bs cp hdec hwf
  have hlen : bs.length = (bs.length - 1) + 1 := by
    have : bs ≠ [] := by
      intro h0; rw [h0] at hwf; simp [well_formed_sequence] at hwf
    have := List.length_pos.mpr this
    omega
  obtain ⟨hins, hren1⟩ := insert_character_renderable wcwidth9_norm t cp hren hlt
  obtain ⟨hbuf, hpos⟩ := insert_character_buffer wcwidth9_norm t cp
  refine ⟨d1, (t.insert_character wcwidth9_norm cp).1, ?_, hd1, hren1, hbuf, hpos⟩
  rw [feed_of_write_chars wcwidth9_norm cp d1 bs r (bs.length - 1) hw hlen]
  rw [process_code_point_printable wcwidth9_norm { r with m_decoder := d1 } t cp hesc hl h32 h127
    hins]
  have : List.replicate (bs.length - 1) step.pending ++ [step.pending]
      = List.replicate bs.length step.pending := by
    rw [← List.replicate_succ', ← hlen]
  simp only [this]

/-- Typing a string of printable, encodable code points with the cursor at the end of the
line. -/
theorem feed_printable_string (s : List Nat)
    (hs : ∀ c ∈ s, 32 ≤ c ∧ c ≠ 127 ∧ (encode_code_point c).isSome = true) :
    ∀ (r : line_reader) (t : terminal_line),
      r.m_decoder.m_chars_required = 0 → r.m_chars_required = 0 → r.m_line = some t →
      line_renderable t → t.m_position = t.m_buf.m_buf.length →
      ∃ (bytes : List Nat) (d1 : utf8_decoder) (t1 : terminal_line) (c1 : completion),
        encode_utf8 s = some bytes
          ∧ r.feed wcwidth9_norm bytes
              = ({ r with m_decoder := d1, m_line := some t1, m_completion := c1 },
                  List.replicate bytes.length step.pending)
          ∧ d1.m_chars_required = 0 ∧ line_renderable t1
          ∧ t1.m_buf.m_buf = t.m_buf.m_buf ++ s
          ∧ t1.m_position = t1.m_buf.m_buf.length := by
  induction s with
  | nil =>
    intro r t hdec hesc hl hren hpos
    refine ⟨[], r.m_decoder, t, r.m_completion, rfl, ?_, hdec, hren, by simp, hpos⟩
    simp only [line_reader.feed, List.length_nil, List.replicate_zero]
    rw [← hl]
  | cons c cs ih =>
    intro r t hdec hesc hl hren hpos
    obtain ⟨h32, h127, henc⟩ := hs c (List.mem_cons_self _ _)
    obtain ⟨b, hb⟩ := Option.isSome_iff_exists.mp henc
    obtain ⟨d1, t1, hfeed, hd1, hren1, hbuf1, hpos1⟩ :=
      feed_printable wcwidth9_norm r t c b hdec hesc hl hren h32 h127 hb
    have hbuf1' : t1.m_buf.m_buf = t.m_buf.m_buf ++ [c] := by
      rw [hbuf1, hpos]; simp
    have hpos1' : t1.m_position = t1.m_buf.m_buf.length := by
      rw [hpos1, hbuf1', hpos]; simp
    obtain ⟨bytes, d2, t2, c2, henc2, hfeed2, hd2, hren2, hbuf2, hpos2⟩ :=
      ih (fun x hx => hs x (List.mem_cons_of_mem _ hx))
        { r with m_decoder := d1, m_line := some t1, m_completion := r.m_completion.reset } t1
        hd1 hesc rfl hren1 hpos1'
    refine ⟨b ++ bytes, d2, t2, c2, ?_, ?_, hd2, hren2, ?_, hpos2⟩
    · simp only [encode_utf8, hb, henc2]
    · rw [feed_append, hfeed, hfeed2]
      simp only [List.length_append, List.replicate_add]
    · rw [hbuf2, hbuf1']; simp

end

/-! ## Enter -/

section
variable (wcwidth9_norm : Nat → Nat)

theorem pop_line_renderable (t : terminal_line) (bytes : List Nat) (h : line_renderable t)
    (hb : encode_utf8 t.m_buf.m_buf = some bytes) :
    (t.pop_line wcwidth9_norm).2 = some bytes := by
  have hren : line_renderable { t with m_popped := true, m_hint := t.m_hint.clear } :=
    ⟨h.1, h.2.1, fun c hc => by simp [terminal_string.clear] at hc, h.2.2.2⟩
  obtain ⟨h1, _⟩ := sync_renderable wcwidth9_norm _ hren
  unfold terminal_line.pop_line
  simp only [h1, Bool.false_eq_true, if_false, terminal_string.to_string]
  rw [sync_m_buf]
  exact hb

/-- Enter on a non-empty line, outside an escape sequence and with no UTF-8 sequence pending:
the line goes to the history when `m_auto_history` is set, and its UTF-8 form is committed. -/
theorem process_enter_commits (r : line_reader) (t : terminal_line) (bytes : List Nat)
    (hdec : r.m_decoder.m_chars_required = 0) (hesc : r.m_chars_required = 0)
    (hl : r.m_line = some t) (hne : t.m_buf.m_buf ≠ []) (hren : line_renderable t)
    (hb : encode_utf8 t.m_buf.m_buf = some bytes) :
    (r.process_single_char wcwidth9_norm 13).2 = step.committed ⟨Sum.inl bytes⟩
      ∧ (r.process_single_char wcwidth9_norm 13).1.m_history
          = if r.m_auto_history then r.m_history.add t.m_buf.m_buf else r.m_history := by
  have hw := write_char_ascii r.m_decoder 13 hdec (by decide)
  have hempty : t.empty = false := by
    simp only [terminal_line.empty, terminal_string.empty, List.isEmpty_eq_false]
    exact hne
  have hpop := pop_line_renderable wcwidth9_norm t bytes hren hb
  simp only [line_reader.process_single_char, hw, line_reader.process_code_point, hesc, ne_eq,
    not_true_eq_false, if_false, key.enter, if_true, line_reader.line_modified, hl, hempty,
    Bool.false_eq_true, hpop, terminal_line.current_line]
  constructor
  · trivial
  · split_ifs <;> rfl

theorem history_add_fresh (max_size : Nat) (str : List Nat) (h1 : 1 ≤ max_size)
    (h2 : max_size + 1 < 2 ^ 64) :
    ((history.create max_size).add str).m_history = [{}, { original := str, edited := none }] := by
  have hmod : (max_size + 1) % 2 ^ 64 = max_size + 1 := Nat.mod_eq_of_lt h2
  simp only [history.create, history.add, List.length_singleton, ge_iff_le, Nat.not_ofNat_le_one,
    false_and, if_false, List.set_cons_zero, List.length_cons, List.length_nil, hmod]
  have : ¬ (0 + 1 + 1 > max_size + 1) := by omega
  have h0 : ¬ (2 ≤ 0 + 1) := by omega
  simp only [this, if_false, h0, false_and]


theorem create_renderable (fd : Int) (prompt : terminal_string)
    (hint_callback : Option (List Nat → List Nat))
    (color_callback : Option (List Nat → List (Nat × style))) (masked : Bool)
    (hint_style : style) (ws_col : Option Nat) (hp : encodable prompt.m_buf)
    (hcb : ∀ cb, hint_callback = some cb →
      ∀ str, ∃ hint, decode_utf8 (cb str) = some hint ∧ encodable hint) :
    (terminal_line.create wcwidth9_norm fd prompt hint_callback color_callback masked hint_style
        ws_col).2 = false
      ∧ line_renderable (terminal_line.create wcwidth9_norm fd prompt hint_callback
          color_callback masked hint_style ws_col).1
      ∧ (terminal_line.create wcwidth9_norm fd prompt hint_callback color_callback masked
          hint_style ws_col).1.m_buf.m_buf = []
      ∧ (terminal_line.create wcwidth9_norm fd prompt hint_callback color_callback masked
          hint_style ws_col).1.m_position = 0 := by
  unfold terminal_line.create
  refine ⟨(sync_renderable wcwidth9_norm _ ?h).1, (sync_renderable wcwidth9_norm _ ?h).2,
    by rw [sync_m_buf], by rw [sync_m_position]⟩
  exact ⟨hp, fun c hc => by simp at hc, fun c hc => by simp at hc, hcb⟩

theorem activate_fresh (opt : options) (prompt : styled_string) (ws_col : Option Nat)
    (hprompt : encodable prompt.m_str.m_buf) :
    ∃ t0 : terminal_line,
      (line_reader.create opt).activate wcwidth9_norm prompt ws_col
          = ({ line_reader.create opt with m_line := some t0 }, false)
        ∧ line_renderable t0 ∧ t0.m_buf.m_buf = [] ∧ t0.m_position = 0 := by
  obtain ⟨h1, h2, h3, h4⟩ := create_renderable wcwidth9_norm (line_reader.create opt).m_out
    prompt.m_str (line_reader.create opt).m_hint_callback (line_reader.create opt).m_color_callback
    (line_reader.create opt).m_masked (line_reader.create opt).m_hint_style ws_col hprompt
    (fun cb hcb => by simp [line_reader.create] at hcb)
  refine ⟨_, ?_, h2, h3, h4⟩
  unfold line_reader.activate
  simp only [h1, Bool.false_eq_true, if_false]

/-- C1: a reader constructed from options with auto-history on and a history size of at least 1
is activated with a prompt whose code points `encode_utf8` accepts; it is then fed the UTF-8
bytes of a non-empty string `s` of code points that are at least 32, not 127 and accepted by the
encoder, followed by Enter (0x0D).  The activation succeeds, `process_single_char` hands back
`pending` for every byte of `s`, the Enter commits the line holding the UTF-8 bytes of `s`, and
afterwards the history is the empty draft in slot 0 followed by `s` in slot 1. -/
theorem C1_typed_line_is_committed (wcwidth9_norm : Nat → Nat) (opt : options)
    (prompt : styled_string) (ws_col : Option Nat) (s : List Nat)
    (hauto : opt.auto_history = true) (hsize : 1 ≤ opt.history_size)
    (hrange : opt.history_size < 2 ^ 31) (hprompt : encodable prompt.m_str.m_buf)
    (hs : s ≠ [])
    (hprintable : ∀ c ∈ s, 32 ≤ c ∧ c ≠ 127 ∧ (encode_code_point c).isSome = true) :
    ∃ bytes : List Nat,
      encode_utf8 s = some bytes
        ∧ ((line_reader.create opt).activate wcwidth9_norm prompt ws_col).2 = false
        ∧ (((line_reader.create opt).activate wcwidth9_norm prompt ws_col).1.feed
              wcwidth9_norm bytes).2 = List.replicate bytes.length step.pending
        ∧ ((((line_reader.create opt).activate wcwidth9_norm prompt ws_col).1.feed
              wcwidth9_norm bytes).1.process_single_char wcwidth9_norm 13).2
            = step.committed ⟨Sum.inl bytes⟩
        ∧ ((((line_reader.create opt).activate wcwidth9_norm prompt ws_col).1.feed
              wcwidth9_norm bytes).1.process_single_char wcwidth9_norm 13).1.m_history.m_history
            = [{}, { original := s, edited := none }] := by
  obtain ⟨t0, hact, hren0, hbuf0, hpos0⟩ := activate_fresh wcwidth9_norm opt prompt ws_col hprompt
  obtain ⟨bytes, d1, t1, c1, henc, hfeed, hd1, hren1, hbuf1, _⟩ :=
    feed_printable_string wcwidth9_norm s hprintable
      { line_reader.create opt with m_line := some t0 } t0 rfl rfl rfl hren0
      (by rw [hpos0, hbuf0]; rfl)
  rw [hbuf0, List.nil_append] at hbuf1
  obtain ⟨hcommit, hhist⟩ := process_enter_commits wcwidth9_norm
    { line_reader.create opt with m_decoder := d1, m_line := some t1, m_completion := c1 } t1 bytes
    hd1 rfl rfl (by rw [hbuf1]; exact hs) hren1 (by rw [hbuf1]; exact henc)
  refine ⟨bytes, henc, ?_, ?_, ?_, ?_⟩
  · rw [hact]
  · rw [hact, hfeed]
  · rw [hact, hfeed]; exact hcommit
  · rw [hact, hfeed]
    simp only [] at hhist ⊢
    rw [hhist, hbuf1]
    have hmax : (opt.history_size % 2 ^ 64).toNat = opt.history_size.toNat := by
      rw [Int.emod_eq_of_lt (by omega) (by omega)]
    simp only [line_reader.create, hauto, if_true, hmax]
    exact history_add_fresh _ s (by omega) (by omega)

/-- C1 for the string `hé` typed at the prompt `> ` of a reader with the default options. -/
theorem C1_typed_line_is_committed_witness :
    (default_options.auto_history = true ∧ 1 ≤ default_options.history_size
        ∧ default_options.history_size < 2 ^ 31
        ∧ encodable (terminal_string.of_u32 (fun _ => 1) [62, 32]).m_buf
        ∧ [0x68, 0xE9] ≠ ([] : List Nat)
        ∧ ∀ c ∈ [0x68, 0xE9], 32 ≤ c ∧ c ≠ 127 ∧ (encode_code_point c).isSome = true)
      ∧ ∃ bytes : List Nat,
        encode_utf8 [0x68, 0xE9] = some bytes
          ∧ ((line_reader.create default_options).activate (fun _ => 1)
                { m_str := terminal_string.of_u32 (fun _ => 1) [62, 32] } (some 80)).2 = false
          ∧ (((line_reader.create default_options).activate (fun _ => 1)
                { m_str := terminal_string.of_u32 (fun _ => 1) [62, 32] } (some 80)).1.feed
                (fun _ => 1) bytes).2 = List.replicate bytes.length step.pending
          ∧ ((((line_reader.create default_options).activate (fun _ => 1)
                { m_str := terminal_string.of_u32 (fun _ => 1) [62, 32] } (some 80)).1.feed
                (fun _ => 1) bytes).1.process_single_char (fun _ => 1) 13).2
              = step.committed ⟨Sum.inl bytes⟩
          ∧ ((((line_reader.create default_options).activate (fun _ => 1)
                { m_str := terminal_string.of_u32 (fun _ => 1) [62, 32] } (some 80)).1.feed
                (fun _ => 1) bytes).1.process_single_char (fun _ => 1) 13).1.m_history.m_history
              = [{}, { original := [0x68, 0xE9], edited := none }] :=
  ⟨⟨by decide, by decide, by decide, by unfold encodable; decide, by decide, by decide⟩,
    C1_typed_line_is_committed (fun _ => 1) default_options
      { m_str := terminal_string.of_u32 (fun _ => 1) [62, 32] } (some 80) [0x68, 0xE9]
      (by decide) (by decide) (by decide) (by unfold encodable; decide) (by decide) (by decide)⟩

end

/-! ## Ctrl-D -/

section
variable (wcwidth9_norm : Nat → Nat)

theorem erase_renderable (t : terminal_line) (a b p : Nat) (h : line_renderable t) :
    line_renderable { t with m_buf := t.m_buf.erase a b, m_position := p } := by
  obtain ⟨hp, hb, hh, hcb⟩ := h
  refine ⟨hp, ?_, hh, hcb⟩
  simp only [terminal_string.erase]
  exact encodable_append _ _ (encodable_take _ _ hb) (encodable_drop _ _ hb)

theorem erase_current_character_buffer (t : terminal_line) :
    (t.erase_current_character wcwidth9_norm).1.m_buf.m_buf
        = t.m_buf.m_buf.eraseIdx t.m_position
      ∧ (t.erase_current_character wcwidth9_norm).1.m_position = t.m_position := by
  unfold terminal_line.erase_current_character
  split_ifs with h
  · refine ⟨?_, rfl⟩
    rw [List.eraseIdx_of_length_le]
    simp only [terminal_string.size] at h
    omega
  · obtain ⟨e1, _, _, _, e5⟩ := modified_sync_m_buf wcwidth9_norm
      { t with m_buf := t.m_buf.erase t.m_position (t.m_position + 1) }
    refine ⟨?_, e5⟩
    rw [e1, List.eraseIdx_eq_take_drop_succ]
    rfl

theorem erase_current_character_no_raise (t : terminal_line) (h : line_renderable t) :
    (t.erase_current_character wcwidth9_norm).2 = false := by
  unfold terminal_line.erase_current_character
  split_ifs
  · rfl
  · exact (modified_sync_renderable wcwidth9_norm _ (erase_renderable t _ _ _ h)).1


/-- C7 (amended): take a reader outside an escape sequence whose line is `t`, and the key event
Ctrl-D (code point 4; `process_single_char` produces it from the byte 4 when no UTF-8 sequence
is pending).  The step commits the failure `ctrl_d` (end of file) exactly when the buffer is
empty.  When the buffer is not empty, the buffer afterwards is the buffer without the code point
at the cursor index (the whole buffer when the cursor is at the end), the cursor index is
unchanged, and nothing is committed: the step hands back `pending` or lets an exception escape
from the redraw of the line.  It hands back `pending` when the line is renderable: prompt,
buffer and hint hold code points that the encoder accepts, and every answer of the hint
callback, if one is set, is accepted by the decoder and holds such code points. -/
theorem C7_ctrl_d_end_of_file_iff_empty (wcwidth9_norm : Nat → Nat) (r : line_reader)
    (t : terminal_line) (hesc : r.m_chars_required = 0) (hl : r.m_line = some t) :
    (r.m_decoder.m_chars_required = 0 →
        r.process_single_char wcwidth9_norm 4 = r.process_code_point wcwidth9_norm 4)
      ∧ ((r.process_code_point wcwidth9_norm 4).2 = step.committed ⟨Sum.inr line_error.ctrl_d⟩
          ↔ t.m_buf.m_buf = [])
      ∧ (t.m_buf.m_buf ≠ [] →
          (r.process_code_point wcwidth9_norm 4).1.buffer_and_cursor
              = some (t.m_buf.m_buf.eraseIdx t.m_position, t.m_position)
            ∧ ((r.process_code_point wcwidth9_norm 4).2 = step.pending
                ∨ (r.process_code_point wcwidth9_norm 4).2 = step.raised)
            ∧ (line_renderable t → (r.process_code_point wcwidth9_norm 4).2 = step.pending)) := by
  refine ⟨?_, ?_⟩
  · intro hdec
    simp only [line_reader.process_single_char, write_char_ascii r.m_decoder 4 hdec (by decide)]
  · obtain ⟨hbuf, hpos⟩ := erase_current_character_buffer wcwidth9_norm t
    have hstep : r.process_code_point wcwidth9_norm 4 =
        if t.empty then (r.line_modified, step.committed ⟨Sum.inr line_error.ctrl_d⟩)
        else and_then (r.on_line (fun l => l.erase_current_character wcwidth9_norm))
          (fun r1 => (r1.line_modified, step.pending)) := by
      unfold line_reader.process_code_point
      simp [hesc, key.enter, key.ctrl_d, hl]
    rw [hstep]
    by_cases he : t.m_buf.m_buf = []
    · have : t.empty = true := by simp [terminal_line.empty, terminal_string.empty, he]
      simp [this, he]
    · have : t.empty = false := by simp [terminal_line.empty, terminal_string.empty, he]
      simp only [this, Bool.false_eq_true, if_false, he, iff_false, ne_eq, not_false_eq_true,
        forall_const, line_reader.on_line, hl, and_then]
      refine ⟨?_, ?_, ?_, ?_⟩
      · split_ifs <;> simp
      · split_ifs <;>
          simp [line_reader.buffer_and_cursor, line_reader.line_modified, hbuf, hpos]
      · split_ifs <;> simp
      · intro hren
        simp [erase_current_character_no_raise wcwidth9_norm t hren]

end

/-! ## Scenarios on the keys -/

section
variable (wcwidth9_norm : Nat → Nat)

/-- One printable ASCII key typed into a ready reader. -/
theorem ready_type_ascii (r : line_reader) (t : terminal_line) (c : Nat)
    (h : r.ready t) (h32 : 32 ≤ c) (h127 : c < 127) :
    ∃ t1 : terminal_line,
      (r.process_single_char wcwidth9_norm c).2 = step.pending
        ∧ (r.process_single_char wcwidth9_norm c).1.ready t1
        ∧ t1.m_buf.m_buf = t.m_buf.m_buf.take t.m_position ++ c :: t.m_buf.m_buf.drop t.m_position
        ∧ t1.m_position = t.m_position + 1 := by
  obtain ⟨hdec, hesc, hl, hren⟩ := h
  have hb : encode_code_point c = some [c] := by
    unfold encode_code_point
    rw [if_pos (by omega)]
  obtain ⟨d1, t1, hfeed, hd1, hren1, hbuf, hpos⟩ :=
    feed_printable wcwidth9_norm r t c [c] hdec hesc hl hren h32 (by omega) hb
  have hfeed1 : r.feed wcwidth9_norm [c]
      = ((r.process_single_char wcwidth9_norm c).1, [(r.process_single_char wcwidth9_norm c).2]) :=
    rfl
  rw [hfeed1] at hfeed
  simp only [List.length_singleton, List.replicate_succ, List.replicate_zero, Prod.mk.injEq,
    List.cons.injEq, and_true] at hfeed
  obtain ⟨hr, hs⟩ := hfeed
  exact ⟨t1, hs, by rw [hr]; exact ⟨hd1, hesc, rfl, hren1⟩, hbuf, hpos⟩

/-- One printable ASCII key typed at the end of the line of a ready reader. -/
theorem ready_type_ascii_end (r : line_reader) (t : terminal_line) (c : Nat) (b : List Nat)
    (h : r.ready t) (hb : t.m_buf.m_buf = b) (hp : t.m_position = b.length)
    (h32 : 32 ≤ c) (h127 : c < 127) :
    ∃ t1 : terminal_line,
      (r.process_single_char wcwidth9_norm c).2 = step.pending
        ∧ (r.process_single_char wcwidth9_norm c).1.ready t1
        ∧ t1.m_buf.m_buf = b ++ [c] ∧ t1.m_position = (b ++ [c]).length := by
  obtain ⟨t1, h1, h2, h3, h4⟩ := ready_type_ascii wcwidth9_norm r t c h h32 h127
  refine ⟨t1, h1, h2, ?_, ?_⟩
  · rw [h3, hb, hp]; simp
  · rw [h4, hp]; simp

theorem erase_previous_word_buffer (t : terminal_line) (h0 : t.m_position ≠ 0) :
    (t.erase_previous_word wcwidth9_norm).1.m_buf.m_buf
        = t.m_buf.m_buf.take
            (if skip_word_back t.m_buf (skip_spaces_back t.m_buf (t.m_position - 1)) = 0 then 0
              else skip_word_back t.m_buf (skip_spaces_back t.m_buf (t.m_position - 1)) + 1)
          ++ t.m_buf.m_buf.drop t.m_position
      ∧ (t.erase_previous_word wcwidth9_norm).1.m_position
        = (if skip_word_back t.m_buf (skip_spaces_back t.m_buf (t.m_position - 1)) = 0 then 0
            else skip_word_back t.m_buf (skip_spaces_back t.m_buf (t.m_position - 1)) + 1) := by
  unfold terminal_line.erase_previous_word
  rw [if_neg h0]
  simp only []
  obtain ⟨e1, _, _, _, e5⟩ := modified_sync_m_buf wcwidth9_norm
    { t with
      m_buf := t.m_buf.erase
        (if skip_word_back t.m_buf (skip_spaces_back t.m_buf (t.m_position - 1)) = 0 then 0
          else skip_word_back t.m_buf (skip_spaces_back t.m_buf (t.m_position - 1)) + 1)
        t.m_position
      m_position :=
        (if skip_word_back t.m_buf (skip_spaces_back t.m_buf (t.m_position - 1)) = 0 then 0
          else skip_word_back t.m_buf (skip_spaces_back t.m_buf (t.m_position - 1)) + 1) }
  exact ⟨e1, e5⟩

theorem erase_previous_word_renderable (t : terminal_line) (h : line_renderable t) :
    (t.erase_previous_word wcwidth9_norm).2 = false
      ∧ line_renderable (t.erase_previous_word wcwidth9_norm).1 := by
  unfold terminal_line.erase_previous_word
  split_ifs
  · exact ⟨rfl, h⟩
  · exact modified_sync_renderable wcwidth9_norm _ (erase_renderable t _ _ _ h)

/-- Ctrl-W in a ready reader. -/
theorem ready_ctrl_w (r : line_reader) (t : terminal_line) (h : r.ready t) :
    (r.process_single_char wcwidth9_norm 23).2 = step.pending
      ∧ (r.process_single_char wcwidth9_norm 23).1.ready (t.erase_previous_word wcwidth9_norm).1 := by
  obtain ⟨hdec, hesc, hl, hren⟩ := h
  obtain ⟨h1, h2⟩ := erase_previous_word_renderable wcwidth9_norm t hren
  have hstep : r.process_single_char wcwidth9_norm 23 =
      ({ r with m_line := some (t.erase_previous_word wcwidth9_norm).1,
                m_completion := r.m_completion.reset }, step.pending) := by
    simp only [line_reader.process_single_char, write_char_ascii r.m_decoder 23 hdec (by decide)]
    unfold line_reader.process_code_point
    simp [hesc, key.enter, key.ctrl_d, key.ctrl_c, key.backspace, key.ctrl_h, key.ctrl_u,
      key.ctrl_k, key.ctrl_a, key.ctrl_e, key.ctrl_t, key.ctrl_w, line_reader.on_line, hl,
      and_then, h1, line_reader.line_modified]
  rw [hstep]
  exact ⟨rfl, hdec, hesc, rfl, h2⟩

/-- Enter on the empty line of a ready reader: nothing is committed. -/
theorem ready_enter_empty (r : line_reader) (t : terminal_line) (h : r.ready t)
    (he : t.m_buf.m_buf = []) :
    ∃ t1 : terminal_line,
      (r.process_single_char wcwidth9_norm 13).2 = step.pending
        ∧ (r.process_single_char wcwidth9_norm 13).1.ready t1
        ∧ t1.m_buf.m_buf = [] ∧ t1.m_position = t.m_position := by
  obtain ⟨hdec, hesc, hl, hren⟩ := h
  have hempty : t.empty = true := by simp [terminal_line.empty, terminal_string.empty, he]
  have hren1 : line_renderable { t with m_fd := t.m_fd.write [13, 10], m_prev := {} } := hren
  obtain ⟨h1, h2⟩ := sync_renderable wcwidth9_norm _ hren1
  have hnl : t.new_line wcwidth9_norm
      = terminal_line.sync wcwidth9_norm { t with m_fd := t.m_fd.write [13, 10], m_prev := {} } :=
    rfl
  have hstep : r.process_single_char wcwidth9_norm 13 =
      ({ r with m_line := some (t.new_line wcwidth9_norm).1,
                m_completion := r.m_completion.reset }, step.pending) := by
    simp only [line_reader.process_single_char, write_char_ascii r.m_decoder 13 hdec (by decide)]
    unfold line_reader.process_code_point
    simp [hesc, key.enter, line_reader.on_line, hl, and_then, line_reader.line_modified, hempty,
      hnl, h1]
  rw [hstep, hnl]
  refine ⟨_, rfl, ⟨hdec, hesc, rfl, h2⟩, ?_, ?_⟩
  · rw [sync_m_buf]; exact he
  · rw [sync_m_position]


theorem activated_reader_ready (opt : options) (prompt : styled_string) (ws_col : Option Nat)
    (hprompt : encodable prompt.m_str.m_buf) :
    ∃ t0 : terminal_line,
      (activated_reader wcwidth9_norm opt prompt ws_col).ready t0
        ∧ t0.m_buf.m_buf = [] ∧ t0.m_position = 0 := by
  obtain ⟨t0, hact, hren0, hbuf0, hpos0⟩ := activate_fresh wcwidth9_norm opt prompt ws_col hprompt
  refine ⟨t0, ?_, hbuf0, hpos0⟩
  unfold activated_reader
  rw [hact]
  exact ⟨rfl, rfl, rfl, hren0⟩

theorem ready_buffer_and_cursor (r : line_reader) (t : terminal_line) (h : r.ready t) :
    r.buffer_and_cursor = some (t.m_buf.m_buf, t.m_position) := by
  simp [line_reader.buffer_and_cursor, h.2.2.1]

/-- C9, as the code has it: a freshly constructed reader is activated with a prompt the encoder
accepts and fed the keys `f`, `o`, `o`, space, Ctrl-W (0x17), Enter (0x0D).  After the first five
keys the buffer is `f`, `fo`, `foo`, `foo ` and the empty string; every one of the six calls hands
back `pending`, so the Enter on the emptied line commits nothing, and the buffer is still empty
after it. -/
theorem C9_foo_ctrl_w_enter_stays_pending (wcwidth9_norm : Nat → Nat) (opt : options)
    (prompt : styled_string) (ws_col : Option Nat) (hprompt : encodable prompt.m_str.m_buf) :
    ((activated_reader wcwidth9_norm opt prompt ws_col).feed wcwidth9_norm
        [102]).1.buffer_and_cursor = some ([102], 1)
      ∧ ((activated_reader wcwidth9_norm opt prompt ws_col).feed wcwidth9_norm
        [102, 111]).1.buffer_and_cursor = some ([102, 111], 2)
      ∧ ((activated_reader wcwidth9_norm opt prompt ws_col).feed wcwidth9_norm
        [102, 111, 111]).1.buffer_and_cursor = some ([102, 111, 111], 3)
      ∧ ((activated_reader wcwidth9_norm opt prompt ws_col).feed wcwidth9_norm
        [102, 111, 111, 32]).1.buffer_and_cursor = some ([102, 111, 111, 32], 4)
      ∧ ((activated_reader wcwidth9_norm opt prompt ws_col).feed wcwidth9_norm
        [102, 111, 111, 32, 23]).1.buffer_and_cursor = some ([], 0)
      ∧ ((activated_reader wcwidth9_norm opt prompt ws_col).feed wcwidth9_norm
        [102, 111, 111, 32, 23, 13]).2 = List.replicate 6 step.pending
      ∧ ((activated_reader wcwidth9_norm opt prompt ws_col).feed wcwidth9_norm
        [102, 111, 111, 32, 23, 13]).1.buffer_and_cursor = some ([], 0) := by
  obtain ⟨t0, hr0, hb0, hp0⟩ := activated_reader_ready wcwidth9_norm opt prompt ws_col hprompt
  generalize activated_reader wcwidth9_norm opt prompt ws_col = r0 at hr0 ⊢
  simp only [line_reader.feed]
  obtain ⟨t1, hs1, hr1, hb1, hp1⟩ := ready_type_ascii_end wcwidth9_norm r0 t0 102 [] hr0 hb0 hp0
    (by decide) (by decide)
  generalize (r0.process_single_char wcwidth9_norm 102).1 = r1 at hs1 hr1 ⊢
  obtain ⟨t2, hs2, hr2, hb2, hp2⟩ := ready_type_ascii_end wcwidth9_norm r1 t1 111 _ hr1 hb1 hp1
    (by decide) (by decide)
  generalize (r1.process_single_char wcwidth9_norm 111).1 = r2 at hs2 hr2 ⊢
  obtain ⟨t3, hs3, hr3, hb3, hp3⟩ := ready_type_ascii_end wcwidth9_norm r2 t2 111 _ hr2 hb2 hp2
    (by decide) (by decide)
  generalize (r2.process_single_char wcwidth9_norm 111).1 = r3 at hs3 hr3 ⊢
  obtain ⟨t4, hs4, hr4, hb4, hp4⟩ := ready_type_ascii_end wcwidth9_norm r3 t3 32 _ hr3 hb3 hp3
    (by decide) (by decide)
  generalize (r3.process_single_char wcwidth9_norm 32).1 = r4 at hs4 hr4 ⊢
  obtain ⟨hs5, hr5⟩ := ready_ctrl_w wcwidth9_norm r4 t4 hr4
  obtain ⟨hb5, hp5⟩ := erase_previous_word_buffer wcwidth9_norm t4 (by rw [hp4]; decide)
  have hskip : skip_word_back t4.m_buf (skip_spaces_back t4.m_buf (t4.m_position - 1)) = 0 := by
    rw [hp4]
    simp [skip_spaces_back, skip_word_back, terminal_string.at, hb4]
  rw [hskip] at hb5 hp5
  simp only [if_true, List.take_zero, List.nil_append] at hb5 hp5
  rw [hb4, hp4] at hb5
  simp only [List.nil_append, List.length_cons, List.length_nil, zero_add, Nat.reduceAdd,
    List.drop_succ_cons, List.drop_zero, List.drop_nil] at hb5
  generalize (t4.erase_previous_word wcwidth9_norm).1 = t5 at hr5 hb5 hp5
  generalize (r4.process_single_char wcwidth9_norm 23).1 = r5 at hs5 hr5 ⊢
  obtain ⟨t6, hs6, hr6, hb6, hp6⟩ := ready_enter_empty wcwidth9_norm r5 t5 hr5 hb5
  rw [hp5] at hp6
  refine ⟨?_, ?_, ?_, ?_, ?_, ?_, ?_⟩
  · rw [ready_buffer_and_cursor _ t1 hr1, hb1, hp1]; rfl
  · rw [ready_buffer_and_cursor _ t2 hr2, hb2, hp2]; rfl
  · rw [ready_buffer_and_cursor _ t3 hr3, hb3, hp3]; rfl
  · rw [ready_buffer_and_cursor _ t4 hr4, hb4, hp4]; rfl
  · rw [ready_buffer_and_cursor _ t5 hr5, hb5, hp5]; rfl
  · simp only [hs1, hs2, hs3, hs4, hs5, hs6]
    rfl
  · rw [ready_buffer_and_cursor _ t6 hr6, hb6, hp6]

end

/-- C9 for a reader with the default options, the prompt `> `, every width 1 and 80 columns. -/
theorem C9_foo_ctrl_w_enter_stays_pending_witness :
    encodable ({ m_str := terminal_string.of_u32 (fun _ => 1) [62, 32] } : styled_string).m_str.m_buf
      ∧ (((activated_reader (fun _ => 1) default_options
            { m_str := terminal_string.of_u32 (fun _ => 1) [62, 32] } (some 80)).feed (fun _ => 1)
            [102]).1.buffer_and_cursor = some ([102], 1)
        ∧ ((activated_reader (fun _ => 1) default_options
            { m_str := terminal_string.of_u32 (fun _ => 1) [62, 32] } (some 80)).feed (fun _ => 1)
            [102, 111]).1.buffer_and_cursor = some ([102, 111], 2)
        ∧ ((activated_reader (fun _ => 1) default_options
            { m_str := terminal_string.of_u32 (fun _ => 1) [62, 32] } (some 80)).feed (fun _ => 1)
            [102, 111, 111]).1.buffer_and_cursor = some ([102, 111, 111], 3)
        ∧ ((activated_reader (fun _ => 1) default_options
            { m_str := terminal_string.of_u32 (fun _ => 1) [62, 32] } (some 80)).feed (fun _ => 1)
            [102, 111, 111, 32]).1.buffer_and_cursor = some ([102, 111, 111, 32], 4)
        ∧ ((activated_reader (fun _ => 1) default_options
            { m_str := terminal_string.of_u32 (fun _ => 1) [62, 32] } (some 80)).feed (fun _ => 1)
            [102, 111, 111, 32, 23]).1.buffer_and_cursor = some ([], 0)
        ∧ ((activated_reader (fun _ => 1) default_options
            { m_str := terminal_string.of_u32 (fun _ => 1) [62, 32] } (some 80)).feed (fun _ => 1)
            [102, 111, 111, 32, 23, 13]).2 = List.replicate 6 step.pending
        ∧ ((activated_reader (fun _ => 1) default_options
            { m_str := terminal_string.of_u32 (fun _ => 1) [62, 32] } (some 80)).feed (fun _ => 1)
            [102, 111, 111, 32, 23, 13]).1.buffer_and_cursor = some ([], 0)) :=
  ⟨by unfold encodable; decide,
    C9_foo_ctrl_w_enter_stays_pending (fun _ => 1) default_options
      { m_str := terminal_string.of_u32 (fun _ => 1) [62, 32] } (some 80)
      (by unfold encodable; decide)⟩

/-- C9, as stated, fails: in the reader `sample_reader` the keys `f`, `o`, `o`, space, Ctrl-W
leave the buffer empty, and the Enter that follows hands back `pending`; it does not commit the
empty string. -/
theorem C9_enter_on_emptied_line_commits_nothing :
    (sample_reader.feed (fun _ => 1) [102, 111, 111, 32, 23]).1.buffer_and_cursor = some ([], 0)
      ∧ ((sample_reader.feed (fun _ => 1) [102, 111, 111, 32, 23]).1.process_single_char
          (fun _ => 1) 13).2 = step.pending
      ∧ ((sample_reader.feed (fun _ => 1) [102, 111, 111, 32, 23]).1.process_single_char
          (fun _ => 1) 13).2 ≠ step.committed ⟨Sum.inl []⟩ := by
  decide

/-- C7 (amended) at a reader whose line holds `ab` with the cursor at the end. -/
theorem C7_ctrl_d_end_of_file_iff_empty_witness :
    ((({ m_line := some sample_line_ab } : line_reader).m_chars_required = 0)
        ∧ ({ m_line := some sample_line_ab } : line_reader).m_line = some sample_line_ab)
      ∧ ((({ m_line := some sample_line_ab } : line_reader).m_decoder.m_chars_required = 0 →
            ({ m_line := some sample_line_ab } : line_reader).process_single_char (fun _ => 1) 4
              = ({ m_line := some sample_line_ab } : line_reader).process_code_point
                  (fun _ => 1) 4)
        ∧ ((({ m_line := some sample_line_ab } : line_reader).process_code_point
              (fun _ => 1) 4).2 = step.committed ⟨Sum.inr line_error.ctrl_d⟩
            ↔ sample_line_ab.m_buf.m_buf = [])
        ∧ (sample_line_ab.m_buf.m_buf ≠ [] →
            (({ m_line := some sample_line_ab } : line_reader).process_code_point
                (fun _ => 1) 4).1.buffer_and_cursor
              = some (sample_line_ab.m_buf.m_buf.eraseIdx sample_line_ab.m_position,
                  sample_line_ab.m_position)
            ∧ ((({ m_line := some sample_line_ab } : line_reader).process_code_point
                  (fun _ => 1) 4).2 = step.pending
                ∨ (({ m_line := some sample_line_ab } : line_reader).process_code_point
                  (fun _ => 1) 4).2 = step.raised)
            ∧ (line_renderable sample_line_ab →
                (({ m_line := some sample_line_ab } : line_reader).process_code_point
                  (fun _ => 1) 4).2 = step.pending))) :=
  ⟨⟨rfl, rfl⟩, C7_ctrl_d_end_of_file_iff_empty (fun _ => 1) { m_line := some sample_line_ab }
    sample_line_ab rfl rfl⟩

set_option maxRecDepth 100000 in
/-- C7, counterexample: the reader `failing_hint_reader` has a hint callback that answers the
byte FF for the line `b`.  The keys `a`, `b` and Ctrl-A are handled without an exception and
leave the reader outside an escape sequence with the buffer `ab` and the cursor at 0.  Ctrl-D
then removes `a`, the hint callback is asked for `b`, and `decode_utf8` raises on its answer:
the call does not hand back `pending`. -/
theorem C7_ctrl_d_raises_when_hint_is_rejected :
    (failing_hint_reader.feed (fun _ => 1) [97, 98, 1]).2
        = [step.pending, step.pending, step.pending]
      ∧ (failing_hint_reader.feed (fun _ => 1) [97, 98, 1]).1.m_chars_required = 0
      ∧ (failing_hint_reader.feed (fun _ => 1) [97, 98, 1]).1.m_decoder.m_chars_required = 0
      ∧ (failing_hint_reader.feed (fun _ => 1) [97, 98, 1]).1.buffer_and_cursor
          = some ([97, 98], 0)
      ∧ ((failing_hint_reader.feed (fun _ => 1) [97, 98, 1]).1.process_single_char
          (fun _ => 1) 4).2 = step.raised
      ∧ ((failing_hint_reader.feed (fun _ => 1) [97, 98, 1]).1.process_single_char
          (fun _ => 1) 4).2 ≠ step.pending
      ∧ ((failing_hint_reader.feed (fun _ => 1) [97, 98, 1]).1.process_single_char
          (fun _ => 1) 4).1.buffer_and_cursor = some ([98], 0) := by
  decide

/-- C8, at the failing inputs: in the reader `sample_reader` with `ab` typed, Ctrl-B (2) is
inserted into the buffer as a code point, while `ESC [ D` moves the cursor left; likewise
Ctrl-F (6), Ctrl-P (16) and Ctrl-N (14) are inserted, while `ESC [ C`, `ESC [ A` and `ESC [ B`
leave the buffer as it is. -/
theorem C8_control_aliases_are_inserted :
    (sample_reader.feed (fun _ => 1) [97, 98, 2]).1.buffer_and_cursor = some ([97, 98, 2], 3)
      ∧ (sample_reader.feed (fun _ => 1) [97, 98, 27, 91, 68]).1.buffer_and_cursor
          = some ([97, 98], 1)
      ∧ (sample_reader.feed (fun _ => 1) [97, 98, 6]).1.buffer_and_cursor = some ([97, 98, 6], 3)
      ∧ (sample_reader.feed (fun _ => 1) [97, 98, 27, 91, 67]).1.buffer_and_cursor
          = some ([97, 98], 2)
      ∧ (sample_reader.feed (fun _ => 1) [97, 98, 16]).1.buffer_and_cursor
          = some ([97, 98, 16], 3)
      ∧ (sample_reader.feed (fun _ => 1) [97, 98, 27, 91, 65]).1.buffer_and_cursor
          = some ([97, 98], 2)
      ∧ (sample_reader.feed (fun _ => 1) [97, 98, 14]).1.buffer_and_cursor
          = some ([97, 98, 14], 3)
      ∧ (sample_reader.feed (fun _ => 1) [97, 98, 27, 91, 66]).1.buffer_and_cursor
          = some ([97, 98], 2) := by
  decide

/-- C10, at the failing input: with the buffer ` foo` (a space, then `foo`) and the cursor at
the end (index 4), the maximal run of non-space code points that ends at the cursor starts at
index 1, yet Ctrl-W (0x17) erases from index 0: the space at index 0 is removed as well, the
buffer is empty and the cursor is at 0. -/
theorem C10_ctrl_w_erases_space_at_index_zero :
    (sample_reader.feed (fun _ => 1) [32, 102, 111, 111]).1.buffer_and_cursor
        = some ([32, 102, 111, 111], 4)
      ∧ (sample_reader.feed (fun _ => 1) [32, 102, 111, 111, 23]).1.buffer_and_cursor
        = some ([], 0)
      ∧ (sample_reader.feed (fun _ => 1) [32, 102, 111, 111, 23]).1.buffer_and_cursor
        ≠ some ([32], 1) := by
  decide

/-! ## Escape sequences, Tab, rejected bytes, history and completion -/

/-! ## Rejected bytes -/

set_option maxRecDepth 100000 in
theorem byte_bits_rejected : ∀ c, c < 256 →
    ((0xB8 ≤ c ∧ c ≤ 0xBF) ∨ 0xF8 ≤ c) →
    (c &&& 0b10000000 ≠ 0 ∧ c &&& 0b00100000 ≠ 0 ∧ c &&& 0b00010000 ≠ 0
      ∧ c &&& 0b00001000 ≠ 0) := by decide

/-- The bytes on which a decoder with no sequence pending raises: `B8..BF` and `F8..FF`. -/
theorem write_char_rejected (d : utf8_decoder) (c : Nat) (hd : d.m_chars_required = 0)
    (hc : c < 256) (h : (0xB8 ≤ c ∧ c ≤ 0xBF) ∨ 0xF8 ≤ c) : d.write_char c = none := by
  have h256 : c % 256 = c := Nat.mod_eq_of_lt hc
  obtain ⟨a1, a2, a3, a4⟩ := byte_bits_rejected c hc h
  simp [utf8_decoder.write_char, hd, h256, a1, a2, a3, a4]

section
variable (wcwidth9_norm : Nat → Nat)

/-- C14, as the code has it: when the decoder raises on the byte given to
`process_single_char` (which it does on `B8..BF` and `F8..FF` when no sequence is pending), the
exception escapes the call, so nothing is handed back; the reader is exactly as before (buffer,
cursor, decoder, escape state, history), and whatever is fed afterwards is processed as it would
have been without the rejected byte. -/
theorem C14_rejected_byte_raises_and_changes_nothing (r : line_reader) (c : Nat)
    (h : r.m_decoder.write_char c = none) :
    r.process_single_char wcwidth9_norm c = (r, step.raised)
      ∧ ∀ more : List Nat,
          (r.process_single_char wcwidth9_norm c).1.feed wcwidth9_norm more
            = r.feed wcwidth9_norm more := by
  have e : r.process_single_char wcwidth9_norm c = (r, step.raised) := by
    simp only [line_reader.process_single_char, h]
  exact ⟨e, fun more => by rw [e]⟩

end

/-- C14 at the byte FF given to the reader `sample_reader`. -/
theorem C14_rejected_byte_raises_and_changes_nothing_witness :
    sample_reader.m_decoder.write_char 0xFF = none
      ∧ (sample_reader.process_single_char (fun _ => 1) 0xFF = (sample_reader, step.raised)
        ∧ ∀ more : List Nat,
            (sample_reader.process_single_char (fun _ => 1) 0xFF).1.feed (fun _ => 1) more
              = sample_reader.feed (fun _ => 1) more) :=
  ⟨by decide, C14_rejected_byte_raises_and_changes_nothing (fun _ => 1) sample_reader 0xFF
    (by decide)⟩

/-- C14, as stated, fails: the byte FF given to the reader `sample_reader` makes
`process_single_char` raise; it does not hand back `pending`. -/
theorem C14_rejected_byte_is_not_pending :
    (sample_reader.process_single_char (fun _ => 1) 0xFF).2 = step.raised
      ∧ (sample_reader.process_single_char (fun _ => 1) 0xFF).2 ≠ step.pending := by
  decide

/-- C15, at the failing input: a freshly constructed decoder takes the orphan continuation byte
80 as the lead of a two-byte sequence (likewise A0 as the lead of a three-byte and B0 of a
four-byte sequence) and then swallows the byte `a` (61) that follows, emitting the code point
21 on it; in the reader `sample_reader` the bytes 80 61 put `!` (21) into the buffer. -/
theorem C15_orphan_continuation_starts_sequence :
    utf8_decoder.write_char {} 0x80 = some ({ m_chars_required := 1, m_code_point := 0 }, none)
      ∧ utf8_decoder.write_char {} 0xA0
          = some ({ m_chars_required := 2, m_code_point := 0 }, none)
      ∧ utf8_decoder.write_char {} 0xB0
          = some ({ m_chars_required := 3, m_code_point := 0 }, none)
      ∧ utf8_decoder.write_chars {} [0x80, 0x61]
          = some ({ m_chars_required := 0, m_code_point := 0x21 }, [none, some 0x21])
      ∧ (sample_reader.feed (fun _ => 1) [0x80, 0x61]).1.buffer_and_cursor = some ([0x21], 1) := by
  decide

section
variable (wcwidth9_norm : Nat → Nat)

/-- Once `ESC [ 3` has been followed by a code point other than `~`, the reader waits for one
more code point of the escape sequence for ever: every further code point is appended to
`m_escape_str` and nothing else happens. -/
theorem escape_three_swallows (r : line_reader) (wc : Nat) (h1 : r.m_chars_required = 1)
    (h2 : r.m_escape_str.getD 0 0 = 91) (h3 : r.m_escape_str.getD 1 0 = 51)
    (h4 : 3 ≤ r.m_escape_str.length) :
    r.process_code_point wcwidth9_norm wc
      = ({ r with m_escape_str := r.m_escape_str ++ [wc % 256] }, step.pending) := by
  have g0 : (r.m_escape_str ++ [wc % 256]).getD 0 0 = 91 := by
    rw [List.getD_append _ _ _ _ (by omega)]; exact h2
  have g1 : (r.m_escape_str ++ [wc % 256]).getD 1 0 = 51 := by
    rw [List.getD_append _ _ _ _ (by omega)]; exact h3
  have gl : ¬ (r.m_escape_str ++ [wc % 256]).length = 3 := by
    simp only [List.length_append, List.length_singleton]; omega
  unfold line_reader.process_code_point
  simp only [h1, ne_eq, one_ne_zero, not_false_eq_true, if_true, Nat.sub_self]
  unfold line_reader.dispatch_escape
  simp only [g0, g1, gl, if_true, false_and, if_false]


/-- In that state every ASCII byte fed to the reader (Enter and Ctrl-C included) is handed back
as `pending` and leaves the line untouched. -/
theorem escape_three_swallows_bytes (more : List Nat) (hmore : ∀ b ∈ more, b < 0x80) :
    ∀ r : line_reader, r.m_decoder.m_chars_required = 0 → r.m_chars_required = 1 →
      r.m_escape_str.getD 0 0 = 91 → r.m_escape_str.getD 1 0 = 51 → 3 ≤ r.m_escape_str.length →
      (r.feed wcwidth9_norm more).2 = List.replicate more.length step.pending
        ∧ (r.feed wcwidth9_norm more).1.m_line = r.m_line
        ∧ (r.feed wcwidth9_norm more).1.m_chars_required = 1 := by
  induction more with
  | nil => intro r _ h1 _ _ _; exact ⟨rfl, rfl, h1⟩
  | cons b rest ih =>
    intro r hd h1 h2 h3 h4
    have hb := hmore b (List.mem_cons_self _ _)
    have hstep : r.process_single_char wcwidth9_norm b
        = ({ r with m_escape_str := r.m_escape_str ++ [b % 256] }, step.pending) := by
      simp only [line_reader.process_single_char, write_char_ascii r.m_decoder b hd hb]
      exact escape_three_swallows wcwidth9_norm r b h1 h2 h3 h4
    obtain ⟨i1, i2, i3⟩ := ih (fun x hx => hmore x (List.mem_cons_of_mem _ hx))
      { r with m_escape_str := r.m_escape_str ++ [b % 256] } hd h1
      (by simp only []; rw [List.getD_append _ _ _ _ (by omega)]; exact h2)
      (by simp only []; rw [List.getD_append _ _ _ _ (by omega)]; exact h3)
      (by simp only [List.length_append, List.length_singleton]; omega)
    rw [feed_cons, hstep]
    exact ⟨by rw [i1]; rfl, i2, i3⟩

end

/-- C12, at the failing input: in the reader `sample_reader` with `a` typed, `ESC [ 3 A` leaves
buffer and cursor as they are, but the reader is not back in normal key routing: it still waits
for a code point of the escape sequence (`m_chars_required` is 1), the `x` typed next is not
inserted, and an Enter after it commits nothing although the buffer is not empty.  With `~` in
place of `A` the code point under the cursor is deleted and the `x` typed next is inserted. -/
theorem C12_unknown_escape_three_swallows_next_keys :
    (sample_reader.feed (fun _ => 1) [97, 27, 91, 51, 65]).1.buffer_and_cursor = some ([97], 1)
      ∧ (sample_reader.feed (fun _ => 1) [97, 27, 91, 51, 65]).1.m_chars_required = 1
      ∧ (sample_reader.feed (fun _ => 1) [97, 27, 91, 51, 65, 120]).1.buffer_and_cursor
          = some ([97], 1)
      ∧ (sample_reader.feed (fun _ => 1) [97, 27, 91, 51, 65, 120, 13]).2
          = List.replicate 7 step.pending
      ∧ (sample_reader.feed (fun _ => 1) [97, 1, 27, 91, 51, 126]).1.buffer_and_cursor
          = some ([], 0)
      ∧ (sample_reader.feed (fun _ => 1) [97, 1, 27, 91, 51, 126, 120]).1.buffer_and_cursor
          = some ([120], 1) := by
  decide

/-- C13, as the code has it: outside an escape sequence, with the line `t`.  When the reader is
masked, Tab (code point 9) takes the default branch: it is inserted at the cursor like any other
code point, and the completion cursor is not asked (it is left as it was, or reset by
`line_modified`).  When the reader is not masked and the completion cursor reports no
completion, buffer and cursor are unchanged, and the step hands back `pending` unless the
completion cursor raised. -/
theorem C13_tab_is_inserted_only_when_masked (wcwidth9_norm : Nat → Nat) (r : line_reader)
    (t : terminal_line) (hesc : r.m_chars_required = 0) (hl : r.m_line = some t) :
    (r.m_masked = true →
        (r.process_code_point wcwidth9_norm 9).1.buffer_and_cursor
            = some (t.m_buf.m_buf.take t.m_position ++ 9 :: t.m_buf.m_buf.drop t.m_position,
                t.m_position + 1)
          ∧ ((r.process_code_point wcwidth9_norm 9).1.m_completion = r.m_completion
              ∨ (r.process_code_point wcwidth9_norm 9).1.m_completion = r.m_completion.reset))
      ∧ (r.m_masked = false →
          (r.m_completion.get_next_completion t.m_buf.m_buf).2.1 = none →
          (r.process_code_point wcwidth9_norm 9).1.buffer_and_cursor
              = some (t.m_buf.m_buf, t.m_position)
            ∧ (r.process_code_point wcwidth9_norm 9).2
                = if (r.m_completion.get_next_completion t.m_buf.m_buf).2.2 then step.raised
                  else step.pending) := by
  constructor
  · intro hm
    obtain ⟨hbuf, hpos⟩ := insert_character_buffer wcwidth9_norm t 9
    have hstep : r.process_code_point wcwidth9_norm 9 =
        and_then (r.on_line (fun l => l.insert_character wcwidth9_norm 9))
          (fun r1 => (r1.line_modified, step.pending)) := by
      unfold line_reader.process_code_point
      simp [hesc, key.enter, key.ctrl_d, key.ctrl_c, key.backspace, key.ctrl_h, key.ctrl_u,
        key.ctrl_k, key.ctrl_a, key.ctrl_e, key.ctrl_t, key.ctrl_w, key.ctrl_l, key.tab, key.esc,
        hm]
    rw [hstep]
    simp only [line_reader.on_line, hl, and_then]
    split_ifs
    · exact ⟨by simp [line_reader.buffer_and_cursor, hbuf, hpos], Or.inl rfl⟩
    · exact ⟨by simp [line_reader.buffer_and_cursor, line_reader.line_modified, hbuf, hpos],
        Or.inr rfl⟩
  · intro hm hnone
    have hstep : r.process_code_point wcwidth9_norm 9 =
        if (r.m_completion.get_next_completion t.m_buf.m_buf).2.2 then
          ({ r with m_completion := (r.m_completion.get_next_completion t.m_buf.m_buf).1 },
            step.raised)
        else
          ({ r with m_completion := (r.m_completion.get_next_completion t.m_buf.m_buf).1 },
            step.pending) := by
      unfold line_reader.process_code_point
      simp [hesc, key.enter, key.ctrl_d, key.ctrl_c, key.backspace, key.ctrl_h, key.ctrl_u,
        key.ctrl_k, key.ctrl_a, key.ctrl_e, key.ctrl_t, key.ctrl_w, key.ctrl_l, key.tab,
        hm, hl, terminal_line.current_line, hnone]
    rw [hstep]
    split_ifs <;> simp [line_reader.buffer_and_cursor, hl]

/-- C13 at a masked reader whose line holds `ab` with the cursor at the end. -/
theorem C13_tab_is_inserted_only_when_masked_witness :
    ((({ m_line := some sample_line_ab, m_masked := true } : line_reader).m_chars_required = 0)
        ∧ ({ m_line := some sample_line_ab, m_masked := true } : line_reader).m_line
            = some sample_line_ab)
      ∧ ((({ m_line := some sample_line_ab, m_masked := true } : line_reader).m_masked = true →
          (({ m_line := some sample_line_ab, m_masked := true } : line_reader).process_code_point
              (fun _ => 1) 9).1.buffer_and_cursor
            = some (sample_line_ab.m_buf.m_buf.take sample_line_ab.m_position
                  ++ 9 :: sample_line_ab.m_buf.m_buf.drop sample_line_ab.m_position,
                sample_line_ab.m_position + 1)
          ∧ ((({ m_line := some sample_line_ab, m_masked := true } : line_reader).process_code_point
                (fun _ => 1) 9).1.m_completion
              = ({ m_line := some sample_line_ab, m_masked := true } : line_reader).m_completion
            ∨ (({ m_line := some sample_line_ab, m_masked := true } : line_reader).process_code_point
                (fun _ => 1) 9).1.m_completion
              = ({ m_line := some sample_line_ab, m_masked := true }
                  : line_reader).m_completion.reset))
        ∧ (({ m_line := some sample_line_ab, m_masked := true } : line_reader).m_masked = false →
          (({ m_line := some sample_line_ab, m_masked := true }
              : line_reader).m_completion.get_next_completion
                sample_line_ab.m_buf.m_buf).2.1 = none →
          (({ m_line := some sample_line_ab, m_masked := true } : line_reader).process_code_point
              (fun _ => 1) 9).1.buffer_and_cursor
            = some (sample_line_ab.m_buf.m_buf, sample_line_ab.m_position)
          ∧ (({ m_line := some sample_line_ab, m_masked := true } : line_reader).process_code_point
              (fun _ => 1) 9).2
            = if (({ m_line := some sample_line_ab, m_masked := true }
                  : line_reader).m_completion.get_next_completion
                    sample_line_ab.m_buf.m_buf).2.2 then step.raised
              else step.pending)) :=
  ⟨⟨rfl, rfl⟩, C13_tab_is_inserted_only_when_masked (fun _ => 1)
    { m_line := some sample_line_ab, m_masked := true } sample_line_ab rfl rfl⟩

/-- C13, as stated, fails: in the masked reader `masked_sample_reader` with `a` typed, Tab is
inserted into the buffer. -/
theorem C13_masked_tab_is_inserted :
    masked_sample_reader.m_masked = true
      ∧ (masked_sample_reader.feed (fun _ => 1) [97]).1.buffer_and_cursor = some ([97], 1)
      ∧ (masked_sample_reader.feed (fun _ => 1) [97, 9]).1.buffer_and_cursor
          = some ([97, 9], 2) := by
  decide

/-- The member `add` below the largest bound: for a history with at least its draft slot and a
bound whose successor fits in `std::size_t`, `add(s)` sets the navigation index to 0 and keeps the bound.  If there are at
least two entries and `s` is the `value()` of entry 1, the entries from 1 on stay and slot 0
becomes the empty draft; otherwise the new entries are the empty draft, then `s` without
overlay, then the old entries from 1 on, and the last (oldest) of them is dropped exactly when
the new length exceeds `m_max_size + 1`. -/
theorem history_add_below_size_max (h : history) (s : List Nat) (hne : h.m_history ≠ [])
    (hmax : h.m_max_size + 1 < 2 ^ 64) :
    (h.add s).m_index = 0 ∧ (h.add s).m_max_size = h.m_max_size
      ∧ ((2 ≤ h.m_history.length ∧ s = h.value_at 1) →
          (h.add s).m_history = ({} : history_entry) :: h.m_history.tail
            ∧ (h.add s).m_history.length = h.m_history.length)
      ∧ (¬ (2 ≤ h.m_history.length ∧ s = h.value_at 1) →
          (h.add s).m_history
            = if h.m_history.length + 1 > h.m_max_size + 1 then
                (({} : history_entry) :: { original := s, edited := none }
                  :: h.m_history.tail).dropLast
              else
                ({} : history_entry) :: { original := s, edited := none }
                  :: h.m_history.tail) := by
  obtain ⟨e0, rest, hh⟩ := List.exists_cons_of_ne_nil hne
  have hmod : (h.m_max_size + 1) % 2 ^ 64 = h.m_max_size + 1 := Nat.mod_eq_of_lt hmax
  refine ⟨?_, ?_, ?_, ?_⟩
  · unfold history.add; split_ifs <;> rfl
  · unfold history.add; split_ifs <;> rfl
  · intro hc
    have hc' : h.m_history.length ≥ 2 ∧ s = (h.m_history.getD 1 {}).value := hc
    unfold history.add
    rw [if_pos hc']
    simp [hh]
  · intro hc
    have hc' : ¬ (h.m_history.length ≥ 2 ∧ s = (h.m_history.getD 1 {}).value) := hc
    unfold history.add
    rw [if_neg hc']
    simp only [hmod, hh, List.set_cons_zero, List.length_cons, List.tail_cons]

/-- C18, at the failing input: a history with the bound `SIZE_MAX` (what the reader passes for
`options.history_size = -1`) and only its draft slot.  `add(a)` makes the entries the empty
draft and `a`, two entries, which does not exceed `SIZE_MAX + 1`; but `m_max_size + 1` is
computed in `std::size_t` and is 0, so the last entry is dropped, and that is the line just
added: the history holds the draft alone.  Through the reader: with `history_size = -1` the
line `a` is committed by Enter and is not in the history afterwards.  With the bound 2 the same
call keeps the line. -/
theorem C18_add_at_size_max_drops_the_new_line :
    (history.create (2 ^ 64 - 1)).m_history = [{}]
      ∧ (history.create (2 ^ 64 - 1)).m_max_size = 2 ^ 64 - 1
      ∧ ((history.create (2 ^ 64 - 1)).add [97]).m_index = 0
      ∧ ((history.create (2 ^ 64 - 1)).add [97]).m_history = [{}]
      ∧ ((history.create (2 ^ 64 - 1)).add [97]).m_history
          ≠ [{}, { original := [97], edited := none }]
      ∧ ((history.create 2).add [97]).m_history = [{}, { original := [97], edited := none }]
      ∧ (line_reader.create { default_options with history_size := -1 }).m_history
          = history.create (2 ^ 64 - 1)
      ∧ ((line_reader.create { default_options with history_size := -1 }).getline (fun _ => 1)
            sample_prompt (some 80) [97, 13]).2.1 = step.committed ⟨Sum.inl [97]⟩
      ∧ ((line_reader.create { default_options with history_size := -1 }).getline (fun _ => 1)
            sample_prompt (some 80) [97, 13]).1.m_history.m_history = [{}] := by
  decide

theorem history_entry_value_edited (e : history_entry) (s : List Nat) :
    ({ e with edited := some s } : history_entry).value = s := rfl

theorem history_entry_value_reset (e : history_entry) :
    ({ e with edited := none } : history_entry).value = e.original := rfl

theorem getD_set_eq {α : Type} (d x : α) (l : List α) (i : Nat) (h : i < l.length) :
    (l.set i x).getD i d = x := by
  rw [List.getD_eq_getElem?_getD, List.getElem?_set_self h]
  rfl

theorem getD_set_ne {α : Type} (d x : α) (l : List α) (i j : Nat) (h : i ≠ j) :
    (l.set i x).getD j d = l.getD j d := by
  rw [List.getD_eq_getElem?_getD, List.getD_eq_getElem?_getD, List.getElem?_set_ne h]

/-- What `record_entry(str)` does to the values: the slot at the navigation index gets the
value `str`, the other slots keep theirs. -/
theorem record_entry_value_at (h : history) (s : List Nat) (hi : h.m_index < h.m_history.length)
    (j : Nat) :
    (h.record_entry s).value_at j = if j = h.m_index then s else h.value_at j := by
  unfold history.record_entry history.value_at
  by_cases hj : j = h.m_index
  · subst hj
    simp only [if_true]
    split_ifs with ho
    · simp only [getD_set_eq _ _ _ _ hi]; rfl
    · simp only [getD_set_eq _ _ _ _ hi]
      simp only [ne_eq, not_not] at ho
      exact ho
  · rw [if_neg hj]
    simp only []
    split_ifs <;> simp only [getD_set_ne _ _ _ _ _ (Ne.symm hj)]

theorem record_entry_frame (h : history) (s : List Nat) :
    (h.record_entry s).m_index = h.m_index
      ∧ (h.record_entry s).m_history.length = h.m_history.length
      ∧ (h.record_entry s).m_max_size = h.m_max_size := by
  unfold history.record_entry
  simp only []
  split_ifs <;> simp

theorem current_entry_eq_value_at (h : history) : h.current_entry = h.value_at h.m_index := by
  unfold history.current_entry history.value_at history_entry.value
  rfl

/-- Recording the value a slot already has changes no value. -/
theorem record_entry_same_value (h : history) (hi : h.m_index < h.m_history.length) (j : Nat) :
    (h.record_entry (h.value_at h.m_index)).value_at j = h.value_at j := by
  rw [record_entry_value_at h _ hi]
  split_ifs with hj
  · rw [hj]
  · rfl


theorem record_and_go_back_spec (h : history) (s : List Nat)
    (hi : h.m_index < h.m_history.length) (hlast : h.m_index ≠ h.m_history.length - 1) :
    (h.record_and_go_back s).2 = some (h.value_at (h.m_index + 1))
      ∧ (h.record_and_go_back s).1.m_index = h.m_index + 1
      ∧ (h.record_and_go_back s).1.m_history.length = h.m_history.length
      ∧ ∀ j, (h.record_and_go_back s).1.value_at j = if j = h.m_index then s else h.value_at j := by
  obtain ⟨f1, f2, _⟩ := record_entry_frame h s
  have hv := record_entry_value_at h s hi
  unfold history.record_and_go_back
  rw [if_neg hlast]
  refine ⟨?_, ?_, f2, fun j => hv j⟩
  · simp only [current_entry_eq_value_at, f1]
    have := hv (h.m_index + 1)
    rw [if_neg (by omega)] at this
    exact congrArg some this
  · simp only [f1]

theorem record_and_go_forward_spec (h : history) (s : List Nat)
    (hi : h.m_index < h.m_history.length) (h0 : h.m_index ≠ 0) :
    (h.record_and_go_forward s).2 = some (h.value_at (h.m_index - 1))
      ∧ (h.record_and_go_forward s).1.m_index = h.m_index - 1
      ∧ (h.record_and_go_forward s).1.m_history.length = h.m_history.length
      ∧ ∀ j, (h.record_and_go_forward s).1.value_at j
          = if j = h.m_index then s else h.value_at j := by
  obtain ⟨f1, f2, _⟩ := record_entry_frame h s
  have hv := record_entry_value_at h s hi
  unfold history.record_and_go_forward
  rw [if_neg h0]
  refine ⟨?_, ?_, f2, fun j => hv j⟩
  · simp only [current_entry_eq_value_at, f1]
    have := hv (h.m_index - 1)
    rw [if_neg (by omega)] at this
    exact congrArg some this
  · simp only [f1]

/-- C19: take a history whose navigation index `i` is a valid slot.  When `i` is not the oldest
slot, `record_and_go_back(s)` returns a text `t`, and `record_and_go_forward(t)` right after it
returns `s` with the navigation index back at `i`, the same number of entries, the `value()` of
every slot other than `i` as before and the `value()` of slot `i` equal to `s`.  When `i > 0`,
the same holds for `record_and_go_forward(s)` followed by `record_and_go_back` of its result. -/
theorem C19_history_round_trip (h : history) (s : List Nat)
    (hi : h.m_index < h.m_history.length) :
    (h.m_index ≠ h.m_history.length - 1 →
        ∃ t, (h.record_and_go_back s).2 = some t
          ∧ ((h.record_and_go_back s).1.record_and_go_forward t).2 = some s
          ∧ ((h.record_and_go_back s).1.record_and_go_forward t).1.m_index = h.m_index
          ∧ ((h.record_and_go_back s).1.record_and_go_forward t).1.m_history.length
              = h.m_history.length
          ∧ ∀ j, ((h.record_and_go_back s).1.record_and_go_forward t).1.value_at j
              = if j = h.m_index then s else h.value_at j)
      ∧ (0 < h.m_index →
        ∃ t, (h.record_and_go_forward s).2 = some t
          ∧ ((h.record_and_go_forward s).1.record_and_go_back t).2 = some s
          ∧ ((h.record_and_go_forward s).1.record_and_go_back t).1.m_index = h.m_index
          ∧ ((h.record_and_go_forward s).1.record_and_go_back t).1.m_history.length
              = h.m_history.length
          ∧ ∀ j, ((h.record_and_go_forward s).1.record_and_go_back t).1.value_at j
              = if j = h.m_index then s else h.value_at j) := by
  constructor
  · intro hlast
    obtain ⟨b1, b2, b3, b4⟩ := record_and_go_back_spec h s hi hlast
    obtain ⟨c1, c2, c3, c4⟩ := record_and_go_forward_spec (h.record_and_go_back s).1
      (h.value_at (h.m_index + 1)) (by rw [b2, b3]; omega) (by rw [b2]; omega)
    refine ⟨_, b1, ?_, ?_, ?_, ?_⟩
    · rw [c1, b2, Nat.add_sub_cancel, b4, if_pos rfl]
    · rw [c2, b2, Nat.add_sub_cancel]
    · rw [c3, b3]
    · intro j
      rw [c4, b2, b4]
      by_cases hj : j = h.m_index + 1
      · rw [if_pos hj, if_neg (by omega), hj]
      · rw [if_neg hj]
  · intro hpos
    obtain ⟨b1, b2, b3, b4⟩ := record_and_go_forward_spec h s hi (by omega)
    obtain ⟨c1, c2, c3, c4⟩ := record_and_go_back_spec (h.record_and_go_forward s).1
      (h.value_at (h.m_index - 1)) (by rw [b2, b3]; omega) (by rw [b2, b3]; omega)
    have hsub : h.m_index - 1 + 1 = h.m_index := by omega
    refine ⟨_, b1, ?_, ?_, ?_, ?_⟩
    · rw [c1, b2, hsub, b4, if_pos rfl]
    · rw [c2, b2, hsub]
    · rw [c3, b3]
    · intro j
      rw [c4, b2, b4]
      by_cases hj : j = h.m_index - 1
      · rw [if_pos hj, if_neg (by omega), hj]
      · rw [if_neg hj]

/-- C19 at the history `sample_history` (three slots, navigation index 1) and the text `a`. -/
theorem C19_history_round_trip_witness :
    sample_history.m_index < sample_history.m_history.length
      ∧ ((sample_history.m_index ≠ sample_history.m_history.length - 1 →
          ∃ t, (sample_history.record_and_go_back [97]).2 = some t
            ∧ ((sample_history.record_and_go_back [97]).1.record_and_go_forward t).2 = some [97]
            ∧ ((sample_history.record_and_go_back [97]).1.record_and_go_forward t).1.m_index
                = sample_history.m_index
            ∧ ((sample_history.record_and_go_back [97]).1.record_and_go_forward
                  t).1.m_history.length = sample_history.m_history.length
            ∧ ∀ j, ((sample_history.record_and_go_back [97]).1.record_and_go_forward
                  t).1.value_at j
                = if j = sample_history.m_index then [97] else sample_history.value_at j)
        ∧ (0 < sample_history.m_index →
          ∃ t, (sample_history.record_and_go_forward [97]).2 = some t
            ∧ ((sample_history.record_and_go_forward [97]).1.record_and_go_back t).2 = some [97]
            ∧ ((sample_history.record_and_go_forward [97]).1.record_and_go_back t).1.m_index
                = sample_history.m_index
            ∧ ((sample_history.record_and_go_forward [97]).1.record_and_go_back
                  t).1.m_history.length = sample_history.m_history.length
            ∧ ∀ j, ((sample_history.record_and_go_forward [97]).1.record_and_go_back
                  t).1.value_at j
                = if j = sample_history.m_index then [97] else sample_history.value_at j)) :=
  ⟨by decide, C19_history_round_trip sample_history [97] (by decide)⟩

/-- The bytes of an encoded code point other than the line feed contain no line feed. -/
theorem encode_code_point_no_line_feed (c : Nat) (bs : List Nat)
    (h : encode_code_point c = some bs) (hc : c ≠ 10) : 10 ∉ bs := by
  have s6 : c >>> 6 = c / 64 := by rw [Nat.shiftRight_eq_div_pow]
  have s12 : c >>> 12 = c / 4096 := by rw [Nat.shiftRight_eq_div_pow]
  have s18 : c >>> 18 = c / 262144 := by rw [Nat.shiftRight_eq_div_pow]
  have m63 : ∀ x : Nat, x &&& 0b00111111 = x % 64 := fun x => Nat.and_pow_two_sub_one_eq_mod x 6
  have m31 : ∀ x : Nat, x &&& 0b00011111 = x % 32 := fun x => Nat.and_pow_two_sub_one_eq_mod x 5
  have m15 : ∀ x : Nat, x &&& 0b00001111 = x % 16 := fun x => Nat.and_pow_two_sub_one_eq_mod x 4
  have m7 : ∀ x : Nat, x &&& 0b00000111 = x % 8 := fun x => Nat.and_pow_two_sub_one_eq_mod x 3
  unfold encode_code_point at h
  simp only [s6, s12, s18, m63, m31, m15, m7] at h
  split_ifs at h <;> cases h <;> simp <;> omega

theorem encode_utf8_no_line_feed (cps : List Nat) :
    ∀ bs, encode_utf8 cps = some bs → 10 ∉ cps → 10 ∉ bs := by
  induction cps with
  | nil => intro bs h _; simp only [encode_utf8, Option.some.injEq] at h; subst h; simp
  | cons c cs ih =>
    intro bs h hc
    simp only [encode_utf8] at h
    cases h1 : encode_code_point c with
    | none => simp [h1] at h
    | some b =>
      cases h2 : encode_utf8 cs with
      | none => simp [h1, h2] at h
      | some out =>
        simp only [h1, h2, Option.some.injEq] at h
        subst h
        have hc1 : c ≠ 10 := fun e => hc (by rw [e]; exact List.mem_cons_self _ _)
        have hc2 : 10 ∉ cs := fun e => hc (List.mem_cons_of_mem _ e)
        intro hm
        rcases List.mem_append.mp hm with hm | hm
        · exact encode_code_point_no_line_feed c b h1 hc1 hm
        · exact ih out h2 hc2 hm

theorem getlines_cons (c : Nat) (rest cur : List Nat) :
    getlines (c :: rest) cur
      = if c = 10 then cur :: getlines rest [] else getlines rest (cur ++ [c]) := rfl

/-- Reading a line that ends with a line feed. -/
theorem getlines_line (l rest : List Nat) (hl : 10 ∉ l) :
    ∀ cur, getlines (l ++ 10 :: rest) cur = (cur ++ l) :: getlines rest [] := by
  induction l with
  | nil => intro cur; rw [List.nil_append, getlines_cons, if_pos rfl, List.append_nil]
  | cons c cs ih =>
    intro cur
    have hc : c ≠ 10 := fun e => hl (by rw [e]; exact List.mem_cons_self _ _)
    have hcs : 10 ∉ cs := fun e => hl (List.mem_cons_of_mem _ e)
    rw [List.cons_append, getlines_cons, if_neg hc, ih hcs]
    simp

/-- Reading back lines that were each written with a line feed after them. -/
theorem getlines_join (lines : List (List Nat)) (h : ∀ l ∈ lines, 10 ∉ l) :
    getlines (lines.map (fun l => l ++ [10])).flatten [] = lines := by
  induction lines with
  | nil => rfl
  | cons l rest ih =>
    simp only [List.map_cons, List.flatten_cons, List.append_assoc, List.singleton_append]
    rw [getlines_line l _ (h l (List.mem_cons_self _ _)), List.nil_append,
      ih (fun x hx => h x (List.mem_cons_of_mem _ hx))]


theorem save_loop_encodable (es : List history_entry)
    (h : ∀ e ∈ es, encodable e.original) :
    ∃ lines, List.Forall₂ (fun (e : history_entry) l => encode_utf8 e.original = some l) es lines
      ∧ history.save_loop es = ((lines.map (fun l => l ++ [10])).flatten, false) := by
  induction es with
  | nil => exact ⟨[], List.Forall₂.nil, rfl⟩
  | cons e rest ih =>
    obtain ⟨lines, hf, hs⟩ := ih (fun x hx => h x (List.mem_cons_of_mem _ hx))
    obtain ⟨l, hl⟩ := encode_utf8_of_encodable _ (h e (List.mem_cons_self _ _))
    refine ⟨l :: lines, List.Forall₂.cons hl hf, ?_⟩
    simp only [history.save_loop, hl, hs, List.map_cons, List.flatten_cons, List.append_assoc,
      List.singleton_append]

theorem encoded_line_source (es : List history_entry) (lines : List (List Nat))
    (hf : List.Forall₂ (fun (e : history_entry) l => encode_utf8 e.original = some l) es lines) :
    ∀ l ∈ lines, ∃ e ∈ es, encode_utf8 e.original = some l := by
  induction hf with
  | nil => intro l hl; simp at hl
  | cons hab _ ih =>
    intro l hl
    rcases List.mem_cons.mp hl with e1 | e1
    · exact ⟨_, List.mem_cons_self _ _, by rw [e1]; exact hab⟩
    · obtain ⟨e, he, hel⟩ := ih l e1
      exact ⟨e, List.mem_cons_of_mem _ he, hel⟩

theorem load_loop_encoded (es : List history_entry) :
    ∀ (lines : List (List Nat)) (acc : List history_entry),
      List.Forall₂ (fun (e : history_entry) l => encode_utf8 e.original = some l) es lines →
      (∀ e ∈ es, encodable e.original) →
      history.load_loop acc lines
        = ((es.reverse.map (fun e => ({ original := e.original, edited := none } : history_entry)))
            ++ acc, false) := by
  induction es with
  | nil =>
    intro lines acc hf _
    cases hf
    rfl
  | cons e rest ih =>
    intro lines acc hf he
    cases hf with
    | cons hl hrest =>
      rename_i l lines1
      obtain ⟨bs, hbs, hdec⟩ := decode_utf8_encode_utf8 e.original (he e (List.mem_cons_self _ _))
      rw [hl] at hbs
      cases hbs
      have hd : decode_utf8 l = some e.original := hdec {} rfl
      simp only [history.load_loop, hd]
      rw [ih lines1 _ hrest (fun x hx => he x (List.mem_cons_of_mem _ hx))]
      simp

/-- C20: take a history whose committed entries (the slots after the first)
have originals without line feed that the encoder accepts.  `save` does not raise and writes
the encoded originals, oldest (last slot) first, each followed by a line feed; `load` of these
bytes into any history gives the empty draft in slot 0, then the same originals in the same
order without overlays, the navigation index 0, and as bound the larger of the old bound and
the number of loaded entries. -/
theorem C20_history_save_load (h h0 : history)
    (hc : ∀ e ∈ h.m_history.tail, 10 ∉ e.original ∧ encodable e.original) :
    ∃ lines : List (List Nat),
      List.Forall₂ (fun (e : history_entry) l => encode_utf8 e.original = some l)
          h.m_history.tail.reverse lines
        ∧ h.save = ((lines.map (fun l => l ++ [10])).flatten, false)
        ∧ h0.load h.save.1
            = ({ m_history := ({} : history_entry)
                    :: h.m_history.tail.map (fun e => { original := e.original, edited := none })
                 m_index := 0
                 m_max_size := max h0.m_max_size h.m_history.tail.length }, false) := by
  have henc : ∀ e ∈ h.m_history.tail.reverse, encodable e.original :=
    fun e he => (hc e (List.mem_reverse.mp he)).2
  obtain ⟨lines, hf, hs⟩ := save_loop_encodable h.m_history.tail.reverse henc
  have hsave : h.save = ((lines.map (fun l => l ++ [10])).flatten, false) := by
    unfold history.save
    rw [List.drop_one, hs]
  have hnolf : ∀ l ∈ lines, 10 ∉ l := by
    intro l hl
    obtain ⟨e, he, hel⟩ := encoded_line_source _ lines hf l hl
    exact encode_utf8_no_line_feed _ l hel (hc e (List.mem_reverse.mp he)).1
  refine ⟨lines, hf, hsave, ?_⟩
  rw [hsave]
  unfold history.load
  simp only [getlines_join lines hnolf, load_loop_encoded _ lines [] hf henc, List.reverse_reverse,
    List.append_nil, Bool.false_eq_true, if_false, List.length_cons, List.length_map,
    Nat.add_sub_cancel]
  congr 1
  congr 1
  split_ifs <;> omega

/-- C20 at the history `sample_history`, loaded into a freshly constructed history of bound 1. -/
theorem C20_history_save_load_witness :
    (∀ e ∈ sample_history.m_history.tail, 10 ∉ e.original ∧ encodable e.original)
      ∧ ∃ lines : List (List Nat),
        List.Forall₂ (fun (e : history_entry) l => encode_utf8 e.original = some l)
            sample_history.m_history.tail.reverse lines
          ∧ sample_history.save = ((lines.map (fun l => l ++ [10])).flatten, false)
          ∧ (history.create 1).load sample_history.save.1
              = ({ m_history := ({} : history_entry)
                      :: sample_history.m_history.tail.map
                          (fun e => { original := e.original, edited := none })
                   m_index := 0
                   m_max_size := max (history.create 1).m_max_size
                      sample_history.m_history.tail.length }, false) :=
  ⟨by unfold encodable; decide,
    C20_history_save_load sample_history (history.create 1) (by unfold encodable; decide)⟩

theorem decode_all_pointwise : ∀ (L U : List (List Nat)), decode_all L = some U →
    List.Forall₂ (fun l u => decode_utf8 l = some u) L U := by
  intro L
  induction L with
  | nil =>
    intro U h
    simp only [decode_all, Option.some.injEq] at h
    subst h
    exact List.Forall₂.nil
  | cons l rest ih =>
    intro U h
    simp only [decode_all] at h
    cases hd : decode_utf8 l with
    | none => rw [hd] at h; cases h
    | some u =>
      rw [hd] at h
      cases hr : decode_all rest with
      | none => rw [hr] at h; cases h
      | some us =>
        rw [hr] at h
        simp only [Option.some.injEq] at h
        subst h
        exact List.Forall₂.cons hd (ih us hr)

section
variable (wcwidth9_norm : Nat → Nat)

end

section
variable (wcwidth9_norm : Nat → Nat)

theorem cursor_back_m_buf (t : terminal_line) :
    (t.cursor_back wcwidth9_norm).1.m_buf = t.m_buf := by
  unfold terminal_line.cursor_back
  split_ifs
  · rfl
  · rw [sync_m_buf]

theorem cursor_forward_m_buf (t : terminal_line) :
    (t.cursor_forward wcwidth9_norm).1.m_buf = t.m_buf := by
  unfold terminal_line.cursor_forward
  split_ifs
  · rfl
  · rw [sync_m_buf]

theorem cursor_home_m_buf (t : terminal_line) :
    (t.cursor_home wcwidth9_norm).1.m_buf = t.m_buf := by
  unfold terminal_line.cursor_home
  rw [sync_m_buf]

theorem cursor_end_m_buf (t : terminal_line) :
    (t.cursor_end wcwidth9_norm).1.m_buf = t.m_buf := by
  unfold terminal_line.cursor_end
  rw [sync_m_buf]

theorem clear_screen_m_buf (t : terminal_line) :
    (t.clear_screen wcwidth9_norm).1.m_buf = t.m_buf := by
  unfold terminal_line.clear_screen terminal_line.redraw
  rw [sync_m_buf]

theorem and_then_resets (q : line_reader × Bool) (k : line_reader → line_reader × step)
    (hk : ∀ r1, (k r1).1.m_completion.m_completions = none) :
    (and_then q k).2 = step.raised ∨ (and_then q k).1.m_completion.m_completions = none := by
  unfold and_then
  split_ifs
  · exact Or.inl rfl
  · exact Or.inr (hk _)

theorem and_then_keeps_buffer (r : line_reader) (f : terminal_line → terminal_line × Bool)
    (k : line_reader → line_reader × step)
    (hf : ∀ t, (f t).1.m_buf = t.m_buf) (hk : ∀ r1, (k r1).1.m_line = r1.m_line) :
    (and_then (r.on_line f) k).1.buffer = r.buffer := by
  unfold and_then line_reader.on_line line_reader.buffer
  cases hl : r.m_line with
  | none => simp [hl]
  | some t =>
    simp only []
    split_ifs
    · simp [hf]
    · rw [hk]
      simp [hf]

theorem history_move_cases (r : line_reader)
    (nav : history → List Nat → history × Option (List Nat)) :
    (r.history_move wcwidth9_norm nav).2 = step.raised
      ∨ (r.history_move wcwidth9_norm nav).1.buffer = r.buffer
      ∨ (r.history_move wcwidth9_norm nav).1.m_completion.m_completions = none := by
  unfold line_reader.history_move
  cases hl : r.m_line with
  | none => exact Or.inl rfl
  | some t =>
    simp only []
    split
    · refine Or.inr (Or.inl ?_)
      simp [line_reader.buffer, hl]
    · rcases and_then_resets _ (fun r2 => (r2.line_modified, step.pending)) (fun _ => rfl)
        with h | h
      · exact Or.inl h
      · exact Or.inr (Or.inr h)

theorem dispatch_escape_motive (r : line_reader) (P : line_reader × step → Prop)
    (h1 : ∀ res : line_reader × step, res.2 = step.raised → P res)
    (h2 : ∀ res : line_reader × step, res.1.buffer = r.buffer → P res)
    (h3 : ∀ res : line_reader × step, res.1.m_completion.m_completions = none → P res) :
    P (r.dispatch_escape wcwidth9_norm) := by
  have keep : ∀ f : terminal_line → terminal_line × Bool, (∀ t, (f t).1.m_buf = t.m_buf) →
      P (and_then (r.on_line f)
        (fun r1 => (({ r1 with m_escape_str := [] } : line_reader), step.pending))) :=
    fun f hf => h2 _ (and_then_keeps_buffer r f _ hf (fun _ => rfl))
  have hist : ∀ nav : history → List Nat → history × Option (List Nat),
      P (if (r.history_move wcwidth9_norm nav).2 = step.raised then
          r.history_move wcwidth9_norm nav
        else (({ (r.history_move wcwidth9_norm nav).1 with m_escape_str := [] } : line_reader),
          step.pending)) := by
    intro nav
    split_ifs with h
    · exact h1 _ h
    · rcases history_move_cases wcwidth9_norm r nav with h4 | h4 | h4
      · exact absurd h4 h
      · exact h2 _ h4
      · exact h3 _ h4
  unfold line_reader.dispatch_escape
  simp only []
  by_cases c0 : r.m_escape_str.getD 0 0 = 91
  · rw [if_pos c0]
    by_cases c1 : r.m_escape_str.length = 3 ∧ r.m_escape_str.getD 1 0 = 51
        ∧ r.m_escape_str.getD 2 0 = 126
    · rw [if_pos c1]
      rcases and_then_resets (r.on_line (fun l => l.erase_current_character wcwidth9_norm))
        (fun r1 => (({ r1.line_modified with m_escape_str := [] } : line_reader), step.pending))
        (fun _ => rfl) with h | h
      · exact h1 _ h
      · exact h3 _ h
    rw [if_neg c1]
    by_cases c2 : r.m_escape_str.getD 1 0 = 51
    · rw [if_pos c2]
      exact h2 _ rfl
    rw [if_neg c2]
    by_cases c3 : r.m_escape_str.getD 1 0 = 68
    · rw [if_pos c3]
      exact keep _ (cursor_back_m_buf wcwidth9_norm)
    rw [if_neg c3]
    by_cases c4 : r.m_escape_str.getD 1 0 = 67
    · rw [if_pos c4]
      exact keep _ (cursor_forward_m_buf wcwidth9_norm)
    rw [if_neg c4]
    by_cases c5 : r.m_escape_str.getD 1 0 = 72
    · rw [if_pos c5]
      exact keep _ (cursor_home_m_buf wcwidth9_norm)
    rw [if_neg c5]
    by_cases c6 : r.m_escape_str.getD 1 0 = 70
    · rw [if_pos c6]
      exact keep _ (cursor_end_m_buf wcwidth9_norm)
    rw [if_neg c6]
    by_cases c7 : r.m_escape_str.getD 1 0 = 65 ∧ (!r.m_masked) = true
    · rw [if_pos c7]
      exact hist _
    rw [if_neg c7]
    by_cases c8 : r.m_escape_str.getD 1 0 = 66 ∧ (!r.m_masked) = true
    · rw [if_pos c8]
      exact hist _
    rw [if_neg c8]
    exact h2 _ rfl
  rw [if_neg c0]
  by_cases d0 : r.m_escape_str.getD 0 0 = 79
  · rw [if_pos d0]
    by_cases d1 : r.m_escape_str.getD 1 0 = 72
    · rw [if_pos d1]
      exact keep _ (cursor_home_m_buf wcwidth9_norm)
    rw [if_neg d1]
    by_cases d2 : r.m_escape_str.getD 1 0 = 70
    · rw [if_pos d2]
      exact keep _ (cursor_end_m_buf wcwidth9_norm)
    rw [if_neg d2]
    exact h2 _ rfl
  rw [if_neg d0]
  exact h2 _ rfl

theorem and_then_m_completion (r : line_reader) (f : terminal_line → terminal_line × Bool)
    (k : line_reader → line_reader × step)
    (hk : ∀ r1, (k r1).1.m_completion = r1.m_completion) :
    (and_then (r.on_line f) k).1.m_completion = r.m_completion := by
  unfold and_then line_reader.on_line
  cases hl : r.m_line with
  | none => simp
  | some t =>
    simp only []
    split_ifs
    · rfl
    · rw [hk]

theorem process_code_point_motive (r : line_reader) (wc : Nat)
    (P : line_reader × step → Prop)
    (h1 : ∀ res : line_reader × step, res.2 = step.raised → P res)
    (h2 : ∀ res : line_reader × step, res.1.buffer = r.buffer → P res)
    (h3 : ∀ res : line_reader × step, res.1.m_completion.m_completions = none → P res)
    (h4 : r.m_chars_required = 0 → wc = key.tab → r.m_masked = false →
      ∀ res : line_reader × step, P res) :
    P (r.process_code_point wcwidth9_norm wc) := by
  have keep : ∀ f : terminal_line → terminal_line × Bool, (∀ t, (f t).1.m_buf = t.m_buf) →
      P (and_then (r.on_line f) (fun r1 => (r1, step.pending))) :=
    fun f hf => h2 _ (and_then_keeps_buffer r f _ hf (fun _ => rfl))
  have reset : ∀ f : terminal_line → terminal_line × Bool,
      P (and_then (r.on_line f) (fun r1 => (r1.line_modified, step.pending))) := by
    intro f
    rcases and_then_resets (r.on_line f) (fun r1 => (r1.line_modified, step.pending))
      (fun _ => rfl) with h | h
    · exact h1 _ h
    · exact h3 _ h
  unfold line_reader.process_code_point
  simp only []
  by_cases c0 : r.m_chars_required ≠ 0
  · rw [if_pos c0]
    by_cases c1 : r.m_chars_required - 1 = 0
    · rw [if_pos c1]
      exact dispatch_escape_motive wcwidth9_norm _ P h1 h2 h3
    · rw [if_neg c1]
      exact h2 _ rfl
  rw [if_neg c0]
  by_cases c1 : wc = key.enter
  · rw [if_pos c1]
    split
    · exact h1 _ rfl
    · split_ifs
      · refine h3 _ ?_
        rw [and_then_m_completion _ _ _ (fun _ => rfl)]
        rfl
      · split
        · exact h3 _ rfl
        · exact h3 _ rfl
      · split
        · exact h3 _ rfl
        · exact h3 _ rfl
  rw [if_neg c1]
  by_cases c2 : wc = key.ctrl_d
  · rw [if_pos c2]
    split
    · exact h1 _ rfl
    · split_ifs
      · exact h3 _ rfl
      · exact reset _
  rw [if_neg c2]
  by_cases c3 : wc = key.ctrl_c
  · rw [if_pos c3]
    exact h3 _ rfl
  rw [if_neg c3]
  by_cases c4 : wc = key.backspace ∨ wc = key.ctrl_h
  · rw [if_pos c4]
    exact reset _
  rw [if_neg c4]
  by_cases c5 : wc = key.ctrl_u
  · rw [if_pos c5]
    exact reset _
  rw [if_neg c5]
  by_cases c6 : wc = key.ctrl_k
  · rw [if_pos c6]
    exact reset _
  rw [if_neg c6]
  by_cases c7 : wc = key.ctrl_a
  · rw [if_pos c7]
    exact keep _ (cursor_home_m_buf wcwidth9_norm)
  rw [if_neg c7]
  by_cases c8 : wc = key.ctrl_e
  · rw [if_pos c8]
    exact keep _ (cursor_end_m_buf wcwidth9_norm)
  rw [if_neg c8]
  by_cases c9 : wc = key.ctrl_t
  · rw [if_pos c9]
    exact reset _
  rw [if_neg c9]
  by_cases c10 : wc = key.ctrl_w
  · rw [if_pos c10]
    exact reset _
  rw [if_neg c10]
  by_cases c11 : wc = key.ctrl_l
  · rw [if_pos c11]
    exact keep _ (clear_screen_m_buf wcwidth9_norm)
  rw [if_neg c11]
  by_cases c12 : wc = key.tab ∧ (!r.m_masked) = true
  · refine h4 (by omega) c12.1 ?_ _
    have := c12.2
    simpa using this
  rw [if_neg c12]
  by_cases c13 : wc = key.esc
  · rw [if_pos c13]
    exact h2 _ rfl
  rw [if_neg c13]
  exact reset _

end

theorem get_next_completion_fresh (c : completion) (input : List Nat)
    (h : c.m_completions = none) :
    (c.get_next_completion input).2.1 = none
      ∨ ∃ cb str u0 rest, c.m_callback = some cb ∧ encode_utf8 input = some str
          ∧ decode_all (cb str) = some (u0 :: rest)
          ∧ (c.get_next_completion input).2.1 = some u0 := by
  cases hcb : c.m_callback with
  | none =>
    left
    simp [completion.get_next_completion, h, completion.get_completions, hcb]
  | some cb =>
    cases henc : encode_utf8 input with
    | none =>
      left
      simp [completion.get_next_completion, h, completion.get_completions, hcb, henc]
    | some str =>
      cases hemp : (cb str).isEmpty with
      | true =>
        left
        simp [completion.get_next_completion, h, completion.get_completions, hcb, henc, hemp]
      | false =>
        cases hdec : decode_all (cb str) with
        | none =>
          left
          simp [completion.get_next_completion, h, completion.get_completions, hcb, henc, hemp,
            hdec]
        | some U =>
          cases U with
          | nil =>
            have hf := decode_all_pointwise _ _ hdec
            cases hL : cb str with
            | nil => rw [hL] at hemp; simp at hemp
            | cons a b => rw [hL] at hf; cases hf
          | cons u0 rest =>
            right
            refine ⟨cb, str, u0, rest, rfl, rfl, hdec, ?_⟩
            simp [completion.get_next_completion, h, completion.get_completions, hcb, henc,
              hemp, hdec, completion.advance]

section
variable (wcwidth9_norm : Nat → Nat)

/-- C17 (amended): let the handling of a decoded code point by `process_single_char` end
without an exception, change the code points of the buffer of the active line, and not be the
Tab branch (Tab outside an escape sequence on a reader that is not masked).  Then the completion
cursor holds no candidate list afterwards, and the next call of `get_next_completion` either
returns nothing or returns the first candidate that the callback gives for the input of that
call. -/
theorem C17_buffer_change_resets_completion (r : line_reader) (wc : Nat)
    (hnr : (r.process_code_point wcwidth9_norm wc).2 ≠ step.raised)
    (hch : (r.process_code_point wcwidth9_norm wc).1.buffer ≠ r.buffer)
    (htab : ¬ (r.m_chars_required = 0 ∧ wc = key.tab ∧ r.m_masked = false)) :
    (r.process_code_point wcwidth9_norm wc).1.m_completion.m_completions = none
      ∧ ∀ input,
        ((r.process_code_point wcwidth9_norm wc).1.m_completion.get_next_completion input).2.1
            = none
          ∨ ∃ cb str u0 rest,
              (r.process_code_point wcwidth9_norm wc).1.m_completion.m_callback = some cb
              ∧ encode_utf8 input = some str
              ∧ decode_all (cb str) = some (u0 :: rest)
              ∧ ((r.process_code_point wcwidth9_norm wc).1.m_completion.get_next_completion
                  input).2.1 = some u0 := by
  have hnone : (r.process_code_point wcwidth9_norm wc).1.m_completion.m_completions = none :=
    process_code_point_motive wcwidth9_norm r wc
      (fun res => res.2 ≠ step.raised → res.1.buffer ≠ r.buffer →
        res.1.m_completion.m_completions = none)
      (fun _ h a _ => absurd h a) (fun _ h _ b => absurd h b) (fun _ h _ _ => h)
      (fun a b c _ => absurd ⟨a, b, c⟩ htab) hnr hch
  exact ⟨hnone, fun input => get_next_completion_fresh _ input hnone⟩

end

/-- C17 (amended) at the reader `completing_sample_reader` (line `ab`, candidate list held):
typing `x` changes the buffer to `abx` and leaves no candidate list. -/
theorem C17_buffer_change_resets_completion_witness :
    completing_sample_reader.buffer = some [97, 98]
      ∧ completing_sample_reader.m_completion.m_completions
          = some [[97, 98], [97, 110, 116], [97]]
      ∧ (completing_sample_reader.process_code_point (fun _ => 1) 120).1.buffer
          = some [97, 98, 120]
      ∧ (completing_sample_reader.process_code_point (fun _ => 1) 120).1.m_completion.m_completions
          = none :=
  ⟨by decide, by decide, by decide,
    (C17_buffer_change_resets_completion (fun _ => 1) completing_sample_reader 120
      (by decide) (by decide) (by decide)).1⟩

set_option maxRecDepth 100000 in
/-- C17, counterexample: the reader `completing_sample_reader` holds the line `ab` and the
candidate list `ab`, `ant`, `a`.  The four bytes of U+10FFFF are typed: the code point is
inserted, so the buffer changes, and the redraw raises in `encode_utf8` before
`line_modified()` is reached.  The candidate list is still held, and the next Tab does not ask
the callback (whose first candidate is `ab`): it continues the old cycle and sets the line to
`ant`.  The same happens with the bytes F4 90 80 80, which the decoder turns into the value
110000 above the last code point. -/
theorem C17_raising_insert_keeps_candidate_list :
    completing_sample_reader.buffer = some [97, 98]
      ∧ completing_sample_reader.m_completion.m_completions
          = some [[97, 98], [97, 110, 116], [97]]
      ∧ (completing_sample_reader.feed (fun _ => 1) [0xF4, 0x8F, 0xBF, 0xBF]).2
          = [step.pending, step.pending, step.pending, step.raised]
      ∧ (completing_sample_reader.feed (fun _ => 1) [0xF4, 0x8F, 0xBF, 0xBF]).1.buffer
          = some [97, 98, 0x10FFFF]
      ∧ (completing_sample_reader.feed (fun _ => 1)
            [0xF4, 0x8F, 0xBF, 0xBF]).1.m_completion.m_completions
          = some [[97, 98], [97, 110, 116], [97]]
      ∧ ((completing_sample_reader.feed (fun _ => 1)
            [0xF4, 0x8F, 0xBF, 0xBF]).1.process_single_char (fun _ => 1) 9).2 = step.pending
      ∧ ((completing_sample_reader.feed (fun _ => 1)
            [0xF4, 0x8F, 0xBF, 0xBF]).1.process_single_char (fun _ => 1) 9).1.buffer
          = some [97, 110, 116]
      ∧ (sample_callback [97, 98, 0x10FFFF]).head? = some [97, 98]
      ∧ (completing_sample_reader.feed (fun _ => 1) [0xF4, 0x90, 0x80, 0x80]).2
          = [step.pending, step.pending, step.pending, step.raised]
      ∧ (completing_sample_reader.feed (fun _ => 1) [0xF4, 0x90, 0x80, 0x80]).1.buffer
          = some [97, 98, 0x110000]
      ∧ (completing_sample_reader.feed (fun _ => 1)
            [0xF4, 0x90, 0x80, 0x80]).1.m_completion.m_completions
          = some [[97, 98], [97, 110, 116], [97]]
      ∧ ((completing_sample_reader.feed (fun _ => 1)
            [0xF4, 0x90, 0x80, 0x80]).1.process_single_char (fun _ => 1) 9).1.buffer
          = some [97, 110, 116] := by
  decide

/-! ## The view, the styles, the history invariant and the reads -/

set_option maxRecDepth 100000 in
theorem is_continuation_byte_eq : ∀ c, c < 256 →
    is_continuation_byte c = continuation_pattern c := by decide

/-- The bytes of an encoded code point: a byte that is no continuation byte, then continuation
bytes only. -/
theorem encode_code_point_shape (c : Nat) (b : List Nat) (h : encode_code_point c = some b) :
    ∃ l tail, b = l :: tail ∧ is_continuation_byte l = false
      ∧ ∀ x ∈ tail, is_continuation_byte x = true := by
  have hc : c < 0x10FFFF := by
    unfold encode_code_point at h
    split_ifs at h <;> omega
  obtain ⟨bs, hbs, hw⟩ := encode_code_point_well_formed c hc
  rw [h] at hbs
  cases hbs
  match b, hw with
  | [b1], hw =>
    simp only [well_formed_sequence, Bool.and_eq_true, decide_eq_true_eq] at hw
    refine ⟨b1, [], rfl, ?_, by simp⟩
    rw [is_continuation_byte_eq b1 (by omega)]
    simp only [continuation_pattern, Bool.and_eq_false_iff, decide_eq_false_iff_not]
    omega
  | [b1, b2], hw =>
    simp only [well_formed_sequence, continuation_pattern, Bool.and_eq_true,
      decide_eq_true_eq] at hw
    refine ⟨b1, [b2], rfl, ?_, ?_⟩
    · rw [is_continuation_byte_eq b1 (by omega)]
      simp only [continuation_pattern, Bool.and_eq_false_iff, decide_eq_false_iff_not]
      omega
    · intro x hx
      simp only [List.mem_singleton] at hx
      subst hx
      rw [is_continuation_byte_eq x (by omega)]
      simp only [continuation_pattern, Bool.and_eq_true, decide_eq_true_eq]
      omega
  | [b1, b2, b3], hw =>
    simp only [well_formed_sequence, continuation_pattern, Bool.and_eq_true,
      decide_eq_true_eq] at hw
    refine ⟨b1, [b2, b3], rfl, ?_, ?_⟩
    · rw [is_continuation_byte_eq b1 (by omega)]
      simp only [continuation_pattern, Bool.and_eq_false_iff, decide_eq_false_iff_not]
      omega
    · intro x hx
      simp only [List.mem_cons, List.mem_singleton, List.not_mem_nil, or_false] at hx
      rcases hx with hx | hx <;> subst hx <;>
        (rw [is_continuation_byte_eq _ (by omega)]
         simp only [continuation_pattern, Bool.and_eq_true, decide_eq_true_eq]
         omega)
  | [b1, b2, b3, b4], hw =>
    simp only [well_formed_sequence, continuation_pattern, Bool.and_eq_true,
      decide_eq_true_eq] at hw
    refine ⟨b1, [b2, b3, b4], rfl, ?_, ?_⟩
    · rw [is_continuation_byte_eq b1 (by omega)]
      simp only [continuation_pattern, Bool.and_eq_false_iff, decide_eq_false_iff_not]
      omega
    · intro x hx
      simp only [List.mem_cons, List.mem_singleton, List.not_mem_nil, or_false] at hx
      rcases hx with hx | hx | hx <;> subst hx <;>
        (rw [is_continuation_byte_eq _ (by omega)]
         simp only [continuation_pattern, Bool.and_eq_true, decide_eq_true_eq]
         omega)
  | [], hw => simp [well_formed_sequence] at hw
  | _ :: _ :: _ :: _ :: _ :: _, hw => simp [well_formed_sequence] at hw

end detail

theorem style_iterator_add_succ (str : List Nat) (it : style_iterator) (n : Nat) :
    style_iterator.add str it (n + 1) = style_iterator.add str (it.incr str) n := rfl

theorem style_iterator_add_add (str : List Nat) (a : Nat) :
    ∀ (it : style_iterator) (b : Nat),
      style_iterator.add str it (a + b) = style_iterator.add str (style_iterator.add str it a) b := by
  induction a with
  | zero => intro it b; rw [Nat.zero_add]; rfl
  | succ n ih =>
    intro it b
    rw [show n + 1 + b = (n + b) + 1 by omega, style_iterator_add_succ, ih,
      style_iterator_add_succ]

/-- Increments over continuation bytes keep the style slot. -/
theorem style_iterator_add_continuation (str : List Nat) (i : Nat) :
    ∀ (p out : Nat),
      (∀ j, 1 ≤ j → j ≤ i → detail.is_continuation_byte (str.getD (p + j) 0) = true) →
      style_iterator.add str { m_str := p, m_out := out } i = { m_str := p + i, m_out := out } := by
  induction i with
  | zero => intro p out _; rfl
  | succ n ih =>
    intro p out h
    rw [style_iterator_add_succ]
    have h1 : style_iterator.incr str { m_str := p, m_out := out }
        = { m_str := p + 1, m_out := out } := by
      simp only [style_iterator.incr, h 1 (Nat.le_refl _) (by omega), Bool.not_true,
        Bool.false_eq_true, if_false]
    rw [h1, ih (p + 1) out (fun j hj1 hj2 => by
      rw [show p + 1 + j = p + (j + 1) by omega]; exact h (j + 1) (by omega) (by omega))]
    congr 1
    omega

/-- Over a string with a prefix, an iterator behind the prefix moves as over the rest. -/
theorem style_iterator_add_shift (pre s : List Nat) (n : Nat) :
    ∀ (a out : Nat),
      style_iterator.add (pre ++ s) { m_str := pre.length + a, m_out := out } n
        = { m_str := pre.length + (style_iterator.add s { m_str := a, m_out := out } n).m_str
            m_out := (style_iterator.add s { m_str := a, m_out := out } n).m_out } := by
  induction n with
  | zero => intro a out; rfl
  | succ n ih =>
    intro a out
    rw [style_iterator_add_succ, style_iterator_add_succ]
    have hg : (pre ++ s).getD (pre.length + a + 1) 0 = s.getD (a + 1) 0 := by
      rw [List.getD_eq_getElem?_getD, List.getD_eq_getElem?_getD,
        List.getElem?_append_right (by omega)]
      congr 2
      omega
    by_cases hc : detail.is_continuation_byte (s.getD (a + 1) 0) = true
    · have e1 : style_iterator.incr (pre ++ s) { m_str := pre.length + a, m_out := out }
          = { m_str := pre.length + (a + 1), m_out := out } := by
        simp only [style_iterator.incr, hg, hc, Bool.not_true, Bool.false_eq_true, if_false]
        rfl
      have e2 : style_iterator.incr s { m_str := a, m_out := out }
          = { m_str := a + 1, m_out := out } := by
        simp only [style_iterator.incr, hc, Bool.not_true, Bool.false_eq_true, if_false]
      rw [e1, e2, ih]
    · have hc2 : detail.is_continuation_byte (s.getD (a + 1) 0) = false := by
        simpa using hc
      have e1 : style_iterator.incr (pre ++ s) { m_str := pre.length + a, m_out := out }
          = { m_str := pre.length + (a + 1), m_out := out + 1 } := by
        simp only [style_iterator.incr, hg, hc2, Bool.not_false, if_true]
        rfl
      have e2 : style_iterator.incr s { m_str := a, m_out := out }
          = { m_str := a + 1, m_out := out + 1 } := by
        simp only [style_iterator.incr, hc2, Bool.not_false, if_true]
      rw [e1, e2, ih]

namespace detail

theorem add_over_code_points (cps : List Nat) :
    ∀ (str : List Nat) (k out : Nat), encode_utf8 cps = some str → k < str.length →
      (style_iterator.add str { m_str := 0, m_out := out } k).m_out
        = out + code_point_of_byte cps k := by
  induction cps with
  | nil =>
    intro str k out h hk
    simp only [encode_utf8, Option.some.injEq] at h
    subst h
    simp at hk
  | cons c cs ih =>
    intro str k out h hk
    simp only [encode_utf8] at h
    cases hb : encode_code_point c with
    | none => simp [hb] at h
    | some b =>
      cases hS : encode_utf8 cs with
      | none => simp [hb, hS] at h
      | some S =>
        simp only [hb, hS, Option.some.injEq] at h
        subst h
        obtain ⟨l, tail, hbl, hl, htail⟩ := encode_code_point_shape c b hb
        have hcont : ∀ j, 1 ≤ j → j < b.length →
            is_continuation_byte ((b ++ S).getD (0 + j) 0) = true := by
          intro j hj1 hj2
          rw [Nat.zero_add, List.getD_eq_getElem?_getD, List.getElem?_append_left hj2, hbl]
          obtain ⟨j1, rfl⟩ : ∃ j1, j = j1 + 1 := ⟨j - 1, by omega⟩
          rw [hbl] at hj2
          simp only [List.length_cons] at hj2
          rw [List.getElem?_cons_succ, List.getElem?_eq_getElem (by omega)]
          exact htail _ (List.getElem_mem _)
        simp only [code_point_of_byte, hb, Option.getD_some]
        by_cases hkb : k < b.length
        · rw [if_pos hkb]
          rw [style_iterator_add_continuation (b ++ S) k 0 out
            (fun j hj1 hj2 => hcont j hj1 (by omega))]
          rfl
        · rw [if_neg hkb]
          have hkS : k - b.length < S.length := by
            simp only [List.length_append] at hk; omega
          -- the byte after the encoding of `c` starts the next code point
          have hnext : is_continuation_byte ((b ++ S).getD b.length 0) = false := by
            cases cs with
            | nil =>
              simp only [encode_utf8, Option.some.injEq] at hS
              subst hS
              simp at hkS
            | cons c1 cs1 =>
              simp only [encode_utf8] at hS
              cases hb1 : encode_code_point c1 with
              | none => simp [hb1] at hS
              | some b1 =>
                cases hS1 : encode_utf8 cs1 with
                | none => simp [hb1, hS1] at hS
                | some S1 =>
                  simp only [hb1, hS1, Option.some.injEq] at hS
                  obtain ⟨l1, tail1, hbl1, hl1, _⟩ := encode_code_point_shape c1 b1 hb1
                  rw [← hS, hbl1, List.getD_eq_getElem?_getD,
                    List.getElem?_append_right (Nat.le_refl _), Nat.sub_self]
                  simpa using hl1
          have hblen : 1 ≤ b.length := by rw [hbl]; simp
          -- over the encoding of `c`
          have hover : style_iterator.add (b ++ S) { m_str := 0, m_out := out } b.length
              = { m_str := b.length, m_out := out + 1 } := by
            have hsplit : style_iterator.add (b ++ S) { m_str := 0, m_out := out } b.length
                = style_iterator.add (b ++ S)
                    (style_iterator.add (b ++ S) { m_str := 0, m_out := out } (b.length - 1))
                    1 := by
              rw [← style_iterator_add_add]
              congr 1
              omega
            rw [hsplit, style_iterator_add_continuation (b ++ S) (b.length - 1) 0 out
                (fun j hj1 hj2 => hcont j hj1 (by omega))]
            have : (0 : Nat) + (b.length - 1) + 1 = b.length := by omega
            simp only [style_iterator.add, style_iterator.incr, this, hnext, Bool.not_false,
              if_true]
          rw [show k = b.length + (k - b.length) by omega, style_iterator_add_add, hover]
          have hsh := style_iterator_add_shift b S (k - b.length) 0 (out + 1)
          rw [Nat.add_zero] at hsh
          rw [hsh]
          simp only []
          rw [ih S (k - b.length) (out + 1) hS hkS]
          rw [show b.length + (k - b.length) - b.length = k - b.length by omega]
          omega

theorem code_point_of_byte_ascii (cps : List Nat) :
    ∀ k, (∀ c ∈ cps, c < 0x80) → k < cps.length → code_point_of_byte cps k = k := by
  induction cps with
  | nil => intro k _ hk; simp at hk
  | cons c cs ih =>
    intro k h hk
    have hc : c < 0x80 := h c (List.mem_cons_self _ _)
    have he : encode_code_point c = some [c] := by simp [encode_code_point, hc]
    simp only [code_point_of_byte, he, Option.getD_some, List.length_singleton]
    cases k with
    | zero => simp
    | succ n =>
      simp only [List.length_cons] at hk
      rw [if_neg (by omega), Nat.add_sub_cancel,
        ih n (fun x hx => h x (List.mem_cons_of_mem _ hx)) (by omega)]
      omega

/-- C25 (amended): let `str` be the UTF-8 encoding of the code points `cps` and `k` the offset of
one of its bytes.  The style writer obtained from the initial writer by `k` increments (which is
also what indexing with `[k]` and adding `k` give) points to the style slot of the code point to
whose encoding the byte `k` belongs, and an assignment through it sets that slot.  When all code
points are ASCII this is the slot of the code point number `k`. -/
theorem C25_style_writer_is_indexed_by_byte (cps str : List Nat) (k : Nat)
    (style_vec : List style_impl) (s : style)
    (h : encode_utf8 cps = some str) (hk : k < str.length) :
    (style_iterator.add str { m_str := 0, m_out := 0 } k).m_str = k
      ∧ (style_iterator.add str { m_str := 0, m_out := 0 } k).m_out = code_point_of_byte cps k
      ∧ (style_iterator.add str { m_str := 0, m_out := 0 } k).assign style_vec s
          = style_vec.set (code_point_of_byte cps k) (style_impl.of_style s)
      ∧ ((∀ c ∈ cps, c < 0x80) → code_point_of_byte cps k = k) := by
  have h1 := add_over_code_points cps str k 0 h hk
  rw [Nat.zero_add] at h1
  refine ⟨?_, h1, ?_, ?_⟩
  · have : ∀ (n : Nat) (it : style_iterator),
        (style_iterator.add str it n).m_str = it.m_str + n := by
      intro n
      induction n with
      | zero => intro it; rfl
      | succ m ih =>
        intro it
        rw [style_iterator_add_succ, ih]
        simp only [style_iterator.incr]
        split_ifs <;> simp only [] <;> omega
    rw [this]
    simp
  · simp only [style_iterator.assign, h1]
  · intro hascii
    have hlen : str.length = cps.length := by
      have : ∀ (l bs : List Nat), (∀ c ∈ l, c < 0x80) → encode_utf8 l = some bs →
          bs.length = l.length := by
        intro l
        induction l with
        | nil => intro bs _ e; simp only [encode_utf8, Option.some.injEq] at e; subst e; rfl
        | cons c cs ih =>
          intro bs ha e
          have hc : c < 0x80 := ha c (List.mem_cons_self _ _)
          have he : encode_code_point c = some [c] := by simp [encode_code_point, hc]
          simp only [encode_utf8, he] at e
          cases hS : encode_utf8 cs with
          | none => simp [hS] at e
          | some S =>
            simp only [hS, Option.some.injEq] at e
            subst e
            simp [ih S (fun x hx => ha x (List.mem_cons_of_mem _ hx)) hS]
      exact this cps str hascii h
    exact code_point_of_byte_ascii cps k hascii (by omega)

/-- C25 at the string `éa` (bytes C3 A9 61) and `k = 1`: the byte 1 belongs to the code point
0. -/
theorem C25_style_writer_is_indexed_by_byte_witness :
    encode_utf8 [0xE9, 0x61] = some [0xC3, 0xA9, 0x61]
      ∧ code_point_of_byte [0xE9, 0x61] 1 = 0
      ∧ (style_iterator.add [0xC3, 0xA9, 0x61] { m_str := 0, m_out := 0 } 1).m_out
          = code_point_of_byte [0xE9, 0x61] 1 :=
  ⟨by decide, by decide,
    (C25_style_writer_is_indexed_by_byte [0xE9, 0x61] [0xC3, 0xA9, 0x61] 1 [] {}
      (by decide) (by decide)).2.1⟩

/-- C25, as stated, fails: the string `éa` (bytes C3 A9 61) has two code points, so `k = 1` is
smaller than their number; the writer incremented once still points to the style slot 0, and a
colorization callback that assigns bold through `iter[1]` makes `é` bold, not `a`. -/
theorem C25_one_increment_stays_on_first_code_point :
    decode_utf8 [0xC3, 0xA9, 0x61] = some [0xE9, 0x61]
      ∧ (style_iterator.add [0xC3, 0xA9, 0x61] { m_str := 0, m_out := 0 } 1).m_out = 0
      ∧ apply_color_writes [0xC3, 0xA9, 0x61] [(1, { bold := true })]
            (List.replicate 2 ({} : style_impl))
          = [style_impl.of_style { bold := true }, {}] := by
  decide

theorem columns_of_nil : columns_of [] = 0 := rfl

theorem columns_of_cons (x : Nat) (l : List Nat) :
    columns_of (x :: l) = (x : Int) + columns_of l := by
  simp [columns_of]

theorem columns_of_append (a b : List Nat) :
    columns_of (a ++ b) = columns_of a + columns_of b := by
  simp [columns_of]

theorem columns_of_nonneg (l : List Nat) : 0 ≤ columns_of l := by
  induction l with
  | nil => simp [columns_of]
  | cons x t ih => rw [columns_of_cons]; omega

theorem slice_self {α : Type} (l : List α) (a : Nat) : slice l a a = [] := by
  simp [slice]

theorem slice_append {α : Type} (l : List α) (a b c : Nat) (hab : a ≤ b) (hbc : b ≤ c) :
    slice l a c = slice l a b ++ slice l b c := by
  unfold slice
  have h1 : c - a = (b - a) + (c - b) := by omega
  have h2 : l.drop b = (l.drop a).drop (b - a) := by
    rw [List.drop_drop]; congr 1; omega
  rw [h1, List.take_add, h2]

theorem slice_succ (l : List Nat) (s i : Nat) (hs : s ≤ i) (hi : i < l.length) :
    slice l s (i + 1) = slice l s i ++ [l.getD i 0] := by
  rw [slice_append l s i (i + 1) hs (by omega)]
  congr 1
  unfold slice
  rw [show i + 1 - i = 1 by omega, List.getD_eq_getElem?_getD, List.getElem?_eq_getElem hi,
    List.drop_eq_getElem_cons hi]
  rfl

theorem slice_length_le {α : Type} (l : List α) (a b : Nat) : (slice l a b).length ≤ b - a := by
  unfold slice
  simp only [List.length_take]
  omega

/-- The forward scan: it takes `n` widths, as long as the sum stays within `max_width`. -/
theorem iterate_view_forward_loop_spec (max_width : Int) (ws : List Nat) :
    ∀ (i : Nat) (w : Int), ∃ n, n ≤ ws.length
      ∧ iterate_view_forward_loop max_width ws i w = (i + n, w + columns_of (ws.take n))
      ∧ (w ≤ max_width → w + columns_of (ws.take n) ≤ max_width)
      ∧ (∀ x, ws[n]? = some x → max_width < w + columns_of (ws.take n) + (x : Int)) := by
  induction ws with
  | nil =>
    intro i w
    exact ⟨0, Nat.le_refl _, by simp [iterate_view_forward_loop, columns_of],
      by simp [columns_of], by simp⟩
  | cons x rest ih =>
    intro i w
    by_cases c : w + (x : Int) ≤ max_width
    · obtain ⟨n, hn, he, hle, hmax⟩ := ih (i + 1) (w + x)
      refine ⟨n + 1, by simp; omega, ?_, ?_, ?_⟩
      · simp only [iterate_view_forward_loop, if_pos c, he, List.take_succ_cons, columns_of_cons]
        congr 1
        · omega
        · omega
      · intro _
        have := hle c
        simp only [List.take_succ_cons, columns_of_cons]
        omega
      · intro y hy
        simp only [List.getElem?_cons_succ] at hy
        have := hmax y hy
        simp only [List.take_succ_cons, columns_of_cons]
        omega
    · refine ⟨0, Nat.zero_le _, ?_, ?_, ?_⟩
      · simp [iterate_view_forward_loop, if_neg c, columns_of]
      · intro h; simpa [columns_of] using h
      · intro y hy
        simp only [List.getElem?_cons_zero, Option.some.injEq] at hy
        subst hy
        simp only [List.take_zero, columns_of_nil]
        omega

/-- The member `iterate_view_forward` from a start within the vector. -/
theorem iterate_view_forward_spec (start : Nat) (max_width : Int) (width : List Nat)
    (hs : start ≤ width.length) :
    start ≤ (iterate_view_forward start max_width width).1
      ∧ (iterate_view_forward start max_width width).1 ≤ width.length
      ∧ (iterate_view_forward start max_width width).2
          = columns_of (slice width start (iterate_view_forward start max_width width).1)
      ∧ (0 ≤ max_width → (iterate_view_forward start max_width width).2 ≤ max_width)
      ∧ (∀ x, width[(iterate_view_forward start max_width width).1]? = some x →
          max_width < (iterate_view_forward start max_width width).2 + (x : Int)) := by
  obtain ⟨n, hn, he, hle, hmax⟩ :=
    iterate_view_forward_loop_spec max_width (width.drop start) start 0
  unfold iterate_view_forward
  rw [he]
  simp only [List.length_drop] at hn
  refine ⟨by omega, by simp only []; omega, ?_, ?_, ?_⟩
  · simp only [slice, Int.zero_add]
    congr 2
    omega
  · intro h0
    exact hle h0
  · intro x hx
    simp only [] at hx ⊢
    refine hmax x ?_
    rw [List.getElem?_drop]
    exact hx

/-- The backward scan from a start within the vector. -/
theorem iterate_view_backward_loop_spec (max_width : Int) (width : List Nat) :
    ∀ (i : Nat) (w : Int), i ≤ width.length → ∃ s, s ≤ i
      ∧ iterate_view_backward_loop max_width width i w = (s, w + columns_of (slice width s i))
      ∧ (w ≤ max_width → w + columns_of (slice width s i) ≤ max_width) := by
  intro i
  induction i with
  | zero =>
    intro w _
    exact ⟨0, Nat.le_refl _, by simp [iterate_view_backward_loop, slice_self, columns_of],
      by simp [slice_self, columns_of]⟩
  | succ n ih =>
    intro w hi
    by_cases c : w + (width.getD n 0 : Int) ≤ max_width
    · obtain ⟨s, hs, he, hle⟩ := ih (w + width.getD n 0) (by omega)
      refine ⟨s, by omega, ?_, ?_⟩
      · simp only [iterate_view_backward_loop, if_pos c, he,
          slice_succ width s n hs (by omega), columns_of_append, columns_of_cons,
          columns_of_nil]
        congr 1
        omega
      · intro _
        have := hle c
        simp only [slice_succ width s n hs (by omega), columns_of_append, columns_of_cons,
          columns_of_nil]
        omega
    · refine ⟨n + 1, Nat.le_refl _, ?_, ?_⟩
      · simp only [iterate_view_backward_loop, if_neg c, slice_self, columns_of_nil,
          Int.add_zero]
      · intro h; simpa [slice_self, columns_of] using h

theorem iterate_view_backward_spec (start : Nat) (max_width : Int) (width : List Nat)
    (hs : start ≤ width.length) :
    (iterate_view_backward start max_width width).1 ≤ start
      ∧ (iterate_view_backward start max_width width).2
          = columns_of (slice width (iterate_view_backward start max_width width).1 start)
      ∧ (0 ≤ max_width → (iterate_view_backward start max_width width).2 ≤ max_width) := by
  obtain ⟨s, hs1, he, hle⟩ := iterate_view_backward_loop_spec max_width width start 0 hs
  unfold iterate_view_backward
  rw [he]
  refine ⟨hs1, by simp, ?_⟩
  intro h0
  exact hle h0

theorem iterate_view_backward_le (max_width : Int) (width : List Nat) :
    ∀ (i : Nat) (w : Int), (iterate_view_backward_loop max_width width i w).1 ≤ i := by
  intro i
  induction i with
  | zero => intro w; simp [iterate_view_backward_loop]
  | succ n ih =>
    intro w
    simp only [iterate_view_backward_loop]
    split_ifs
    · exact Nat.le_succ_of_le (ih _)
    · exact Nat.le_refl _

theorem view_widths_length (t : terminal_line)
    (hw : t.m_buf.m_width.length = t.m_buf.m_buf.length) :
    t.view_widths.length = t.m_buf.size := by
  unfold terminal_line.view_widths terminal_string.size
  split_ifs
  · simp
  · exact hw

/-- The new `m_view_start` is at most the cursor, whatever the line. -/
theorem view_bounds_start_le (t : terminal_line) : t.view_bounds.1 ≤ t.m_position := by
  unfold terminal_line.view_bounds
  simp only []
  split_ifs with c1 c2 c2
  · exact Nat.le_trans (iterate_view_backward_le _ _ _ _) (Nat.le_refl _)
  · exact iterate_view_backward_le _ _ _ _
  · exact iterate_view_backward_le _ _ _ _
  · exact Nat.le_trans (iterate_view_backward_le _ _ _ _) (by omega)

/-- The viewport of a line whose cursor is within the buffer. -/
theorem view_bounds_spec (t : terminal_line)
    (hw : t.m_buf.m_width.length = t.m_buf.m_buf.length) (hp : t.m_position ≤ t.m_buf.size) :
    t.view_bounds.1 ≤ t.m_position ∧ t.m_position ≤ t.view_bounds.2.1
      ∧ t.view_bounds.2.1 ≤ t.m_buf.size
      ∧ t.view_bounds.2.2
          = columns_of (slice t.view_widths t.view_bounds.1 t.view_bounds.2.1)
      ∧ (0 ≤ t.m_columns → t.view_bounds.2.2 ≤ t.m_columns) := by
  have hlen := view_widths_length t hw
  refine ⟨view_bounds_start_le t, ?_⟩
  unfold terminal_line.view_bounds
  simp only []
  generalize hv0 : (if t.m_position < t.m_view_start then t.m_position else t.m_view_start) = v0
  have hv0p : v0 ≤ t.m_position := by rw [← hv0]; split_ifs <;> omega
  obtain ⟨f1, f2, f3, f4, _⟩ :=
    iterate_view_forward_spec v0 t.m_columns t.view_widths (by omega)
  by_cases c : t.m_position > (iterate_view_forward v0 t.m_columns t.view_widths).1
  · simp only [if_pos c]
    obtain ⟨b1, b2, b3⟩ :=
      iterate_view_backward_spec t.m_position t.m_columns t.view_widths (by omega)
    exact ⟨Nat.le_refl _, hp, b2, b3⟩
  · simp only [if_neg c]
    obtain ⟨b1, b2, b3⟩ :=
      iterate_view_backward_spec v0 (t.m_columns - (iterate_view_forward v0 t.m_columns
        t.view_widths).2) t.view_widths (by omega)
    refine ⟨by omega, by omega, ?_, ?_⟩
    · rw [slice_append t.view_widths _ v0 _ b1 f1, columns_of_append, ← b2, ← f3]
      omega
    · intro h0
      have := f4 h0
      have := b3 (by omega)
      omega

section
variable (wcwidth9_norm : Nat → Nat)

theorem current_state_view (t : terminal_line) :
    (t.current_state wcwidth9_norm).1 = { t with m_view_start := t.view_bounds.1 }
      ∧ (t.current_state wcwidth9_norm).2.column
          = t.m_prompt.m_total_width
            + columns_of (slice t.view_widths t.view_bounds.1 t.m_position) :=
  ⟨rfl, rfl⟩

theorem sync_m_view_start (t : terminal_line) :
    (t.sync wcwidth9_norm).1.m_view_start = t.view_bounds.1 := by
  unfold terminal_line.sync
  simp only []
  split_ifs
  · rfl
  · rfl

theorem sync_view_ok (t : terminal_line) :
    (t.sync wcwidth9_norm).1.m_view_start ≤ (t.sync wcwidth9_norm).1.m_position := by
  rw [sync_m_view_start, sync_m_position]
  exact view_bounds_start_le t

theorem modified_sync_view_ok (t : terminal_line)
    (hnr : (t.modified_sync wcwidth9_norm).2 = false) :
    (t.modified_sync wcwidth9_norm).1.m_view_start
      ≤ (t.modified_sync wcwidth9_norm).1.m_position := by
  unfold terminal_line.modified_sync at hnr ⊢
  simp only [] at hnr ⊢
  split_ifs at hnr ⊢ with c1 c2 c3
  · rw [c2] at hnr; cases hnr
  · rw [c3] at hnr; cases hnr
  · exact sync_view_ok wcwidth9_norm _
  · exact sync_view_ok wcwidth9_norm _

theorem editing_action_view_ok (t : terminal_line) (a : editing_action)
    (hv : t.m_view_start ≤ t.m_position) (hnr : (a.run wcwidth9_norm t).2 = false) :
    (a.run wcwidth9_norm t).1.m_view_start ≤ (a.run wcwidth9_norm t).1.m_position := by
  cases a with
  | insert_character c => exact modified_sync_view_ok wcwidth9_norm _ hnr
  | erase_previous_character =>
    simp only [editing_action.run, terminal_line.erase_previous_character] at hnr ⊢
    split_ifs at hnr ⊢
    · exact hv
    · exact modified_sync_view_ok wcwidth9_norm _ hnr
  | erase_current_character =>
    simp only [editing_action.run, terminal_line.erase_current_character] at hnr ⊢
    split_ifs at hnr ⊢
    · exact hv
    · exact modified_sync_view_ok wcwidth9_norm _ hnr
  | erase_line_backward => exact modified_sync_view_ok wcwidth9_norm _ hnr
  | erase_line_forward => exact modified_sync_view_ok wcwidth9_norm _ hnr
  | swap_characters =>
    simp only [editing_action.run, terminal_line.swap_characters] at hnr ⊢
    by_cases h0 : t.m_position = 0 ∨ t.m_buf.size < 2
    · rw [if_pos h0]; exact hv
    · rw [if_neg h0] at hnr ⊢
      exact modified_sync_view_ok wcwidth9_norm _ hnr
  | erase_previous_word =>
    simp only [editing_action.run, terminal_line.erase_previous_word] at hnr ⊢
    split_ifs at hnr ⊢
    · exact hv
    · exact modified_sync_view_ok wcwidth9_norm _ hnr
    · exact modified_sync_view_ok wcwidth9_norm _ hnr
  | set_line str => exact modified_sync_view_ok wcwidth9_norm _ hnr
  | cursor_back =>
    simp only [editing_action.run, terminal_line.cursor_back] at hnr ⊢
    split_ifs at hnr ⊢
    · exact hv
    · exact sync_view_ok wcwidth9_norm _
  | cursor_forward =>
    simp only [editing_action.run, terminal_line.cursor_forward] at hnr ⊢
    split_ifs at hnr ⊢
    · exact hv
    · exact sync_view_ok wcwidth9_norm _
  | cursor_home => exact sync_view_ok wcwidth9_norm _
  | cursor_end => exact sync_view_ok wcwidth9_norm _

/-- A call on the line followed by a rest that keeps the line: when no exception escapes, the
line afterwards is the one the call left. -/
theorem and_then_on_line_keeps (Q : terminal_line → Prop) (r0 : line_reader)
    (t : terminal_line) (f : terminal_line → terminal_line × Bool)
    (k : line_reader → line_reader × step) (hl : r0.m_line = some t)
    (hf : (f t).2 = false → Q (f t).1) (hk : ∀ r1, (k r1).1.m_line = r1.m_line) :
    (and_then (r0.on_line f) k).2 ≠ step.raised →
      ∃ t1, (and_then (r0.on_line f) k).1.m_line = some t1 ∧ Q t1 := by
  unfold and_then line_reader.on_line
  simp only [hl]
  split_ifs with c
  · intro h; exact absurd rfl h
  · intro _
    exact ⟨(f t).1, by rw [hk], hf (by simpa using c)⟩

theorem history_move_keeps (Q : terminal_line → Prop) (r : line_reader) (t : terminal_line)
    (nav : history → List Nat → history × Option (List Nat)) (hl : r.m_line = some t)
    (hq : Q t)
    (hact : ∀ a : editing_action, (a.run wcwidth9_norm t).2 = false →
      Q (a.run wcwidth9_norm t).1) :
    (r.history_move wcwidth9_norm nav).2 ≠ step.raised →
      ∃ t1, (r.history_move wcwidth9_norm nav).1.m_line = some t1 ∧ Q t1 := by
  unfold line_reader.history_move
  simp only [hl]
  split
  · intro _; exact ⟨t, rfl, hq⟩
  · rename_i new_line _
    exact and_then_on_line_keeps Q _ t (fun l => l.set_line wcwidth9_norm new_line) _ rfl
      (hact (editing_action.set_line new_line)) (fun _ => rfl)

theorem dispatch_escape_keeps (Q : terminal_line → Prop) (r : line_reader) (t : terminal_line)
    (hl : r.m_line = some t) (hq : Q t)
    (hact : ∀ a : editing_action, (a.run wcwidth9_norm t).2 = false →
      Q (a.run wcwidth9_norm t).1) :
    (r.dispatch_escape wcwidth9_norm).2 ≠ step.raised →
      ∃ t1, (r.dispatch_escape wcwidth9_norm).1.m_line = some t1 ∧ Q t1 := by
  have op : ∀ (a : editing_action) (f : terminal_line → terminal_line × Bool)
      (k : line_reader → line_reader × step), f t = a.run wcwidth9_norm t →
      (∀ r1, (k r1).1.m_line = r1.m_line) →
      (and_then (r.on_line f) k).2 ≠ step.raised →
        ∃ t1, (and_then (r.on_line f) k).1.m_line = some t1 ∧ Q t1 := by
    intro a f k hfa hk
    exact and_then_on_line_keeps Q r t f k hl (by rw [hfa]; exact hact a) hk
  have hist : ∀ nav : history → List Nat → history × Option (List Nat),
      (if (r.history_move wcwidth9_norm nav).2 = step.raised then
          r.history_move wcwidth9_norm nav
        else (({ (r.history_move wcwidth9_norm nav).1 with m_escape_str := [] } : line_reader),
          step.pending)).2 ≠ step.raised →
      ∃ t1, (if (r.history_move wcwidth9_norm nav).2 = step.raised then
          r.history_move wcwidth9_norm nav
        else (({ (r.history_move wcwidth9_norm nav).1 with m_escape_str := [] } : line_reader),
          step.pending)).1.m_line = some t1 ∧ Q t1 := by
    intro nav
    split_ifs with h
    · intro h2; exact absurd h h2
    · intro _
      exact history_move_keeps wcwidth9_norm Q r t nav hl hq hact h
  have same : ∀ res : line_reader × step, res.1.m_line = r.m_line →
      res.2 ≠ step.raised → ∃ t1, res.1.m_line = some t1 ∧ Q t1 :=
    fun res h _ => ⟨t, h.trans hl, hq⟩
  unfold line_reader.dispatch_escape
  simp only []
  by_cases c0 : r.m_escape_str.getD 0 0 = 91
  · rw [if_pos c0]
    by_cases c1 : r.m_escape_str.length = 3 ∧ r.m_escape_str.getD 1 0 = 51
        ∧ r.m_escape_str.getD 2 0 = 126
    · rw [if_pos c1]
      exact op editing_action.erase_current_character _ _ rfl (fun _ => rfl)
    rw [if_neg c1]
    by_cases c2 : r.m_escape_str.getD 1 0 = 51
    · rw [if_pos c2]
      exact same _ rfl
    rw [if_neg c2]
    by_cases c3 : r.m_escape_str.getD 1 0 = 68
    · rw [if_pos c3]
      exact op editing_action.cursor_back _ _ rfl (fun _ => rfl)
    rw [if_neg c3]
    by_cases c4 : r.m_escape_str.getD 1 0 = 67
    · rw [if_pos c4]
      exact op editing_action.cursor_forward _ _ rfl (fun _ => rfl)
    rw [if_neg c4]
    by_cases c5 : r.m_escape_str.getD 1 0 = 72
    · rw [if_pos c5]
      exact op editing_action.cursor_home _ _ rfl (fun _ => rfl)
    rw [if_neg c5]
    by_cases c6 : r.m_escape_str.getD 1 0 = 70
    · rw [if_pos c6]
      exact op editing_action.cursor_end _ _ rfl (fun _ => rfl)
    rw [if_neg c6]
    by_cases c7 : r.m_escape_str.getD 1 0 = 65 ∧ (!r.m_masked) = true
    · rw [if_pos c7]
      exact hist _
    rw [if_neg c7]
    by_cases c8 : r.m_escape_str.getD 1 0 = 66 ∧ (!r.m_masked) = true
    · rw [if_pos c8]
      exact hist _
    rw [if_neg c8]
    exact same _ rfl
  rw [if_neg c0]
  by_cases d0 : r.m_escape_str.getD 0 0 = 79
  · rw [if_pos d0]
    by_cases d1 : r.m_escape_str.getD 1 0 = 72
    · rw [if_pos d1]
      exact op editing_action.cursor_home _ _ rfl (fun _ => rfl)
    rw [if_neg d1]
    by_cases d2 : r.m_escape_str.getD 1 0 = 70
    · rw [if_pos d2]
      exact op editing_action.cursor_end _ _ rfl (fun _ => rfl)
    rw [if_neg d2]
    exact same _ rfl
  rw [if_neg d0]
  exact same _ rfl

/-- The handling of one decoded code point keeps a property of the line that every operation on
the line keeps, when no exception escapes. -/
theorem process_code_point_keeps (Q : terminal_line → Prop) (r : line_reader)
    (t : terminal_line) (wc : Nat) (hl : r.m_line = some t) (hq : Q t)
    (hact : ∀ a : editing_action, (a.run wcwidth9_norm t).2 = false →
      Q (a.run wcwidth9_norm t).1)
    (hnew : (t.new_line wcwidth9_norm).2 = false → Q (t.new_line wcwidth9_norm).1)
    (hclear : (t.clear_screen wcwidth9_norm).2 = false → Q (t.clear_screen wcwidth9_norm).1)
    (hpop : Q (t.pop_line wcwidth9_norm).1) :
    (r.process_code_point wcwidth9_norm wc).2 ≠ step.raised →
      ∃ t1, (r.process_code_point wcwidth9_norm wc).1.m_line = some t1 ∧ Q t1 := by
  have op : ∀ (a : editing_action) (f : terminal_line → terminal_line × Bool)
      (k : line_reader → line_reader × step), f t = a.run wcwidth9_norm t →
      (∀ r1, (k r1).1.m_line = r1.m_line) →
      (and_then (r.on_line f) k).2 ≠ step.raised →
        ∃ t1, (and_then (r.on_line f) k).1.m_line = some t1 ∧ Q t1 := by
    intro a f k hfa hk
    exact and_then_on_line_keeps Q r t f k hl (by rw [hfa]; exact hact a) hk
  have same : ∀ res : line_reader × step, res.1.m_line = r.m_line →
      res.2 ≠ step.raised → ∃ t1, res.1.m_line = some t1 ∧ Q t1 :=
    fun res h _ => ⟨t, h.trans hl, hq⟩
  unfold line_reader.process_code_point
  simp only []
  by_cases c0 : r.m_chars_required ≠ 0
  · rw [if_pos c0]
    by_cases c1 : r.m_chars_required - 1 = 0
    · rw [if_pos c1]
      exact dispatch_escape_keeps wcwidth9_norm Q _ t hl hq hact
    · rw [if_neg c1]
      exact same _ rfl
  rw [if_neg c0]
  by_cases c1 : wc = key.enter
  · rw [if_pos c1]
    have hl1 : r.line_modified.m_line = some t := hl
    simp only [hl1]
    by_cases he : t.empty = true
    · rw [if_pos he]
      exact and_then_on_line_keeps Q r.line_modified t _ _ hl1 hnew (fun _ => rfl)
    · rw [if_neg he]
      split
      · intro h; exact absurd rfl h
      · intro _; exact ⟨_, rfl, hpop⟩
  rw [if_neg c1]
  by_cases c2 : wc = key.ctrl_d
  · rw [if_pos c2]
    simp only [hl]
    by_cases he : t.empty = true
    · rw [if_pos he]
      exact same _ rfl
    · rw [if_neg he]
      exact op editing_action.erase_current_character _ _ rfl (fun _ => rfl)
  rw [if_neg c2]
  by_cases c3 : wc = key.ctrl_c
  · rw [if_pos c3]
    exact same _ rfl
  rw [if_neg c3]
  by_cases c4 : wc = key.backspace ∨ wc = key.ctrl_h
  · rw [if_pos c4]
    exact op editing_action.erase_previous_character _ _ rfl (fun _ => rfl)
  rw [if_neg c4]
  by_cases c5 : wc = key.ctrl_u
  · rw [if_pos c5]
    exact op editing_action.erase_line_backward _ _ rfl (fun _ => rfl)
  rw [if_neg c5]
  by_cases c6 : wc = key.ctrl_k
  · rw [if_pos c6]
    exact op editing_action.erase_line_forward _ _ rfl (fun _ => rfl)
  rw [if_neg c6]
  by_cases c7 : wc = key.ctrl_a
  · rw [if_pos c7]
    exact op editing_action.cursor_home _ _ rfl (fun _ => rfl)
  rw [if_neg c7]
  by_cases c8 : wc = key.ctrl_e
  · rw [if_pos c8]
    exact op editing_action.cursor_end _ _ rfl (fun _ => rfl)
  rw [if_neg c8]
  by_cases c9 : wc = key.ctrl_t
  · rw [if_pos c9]
    exact op editing_action.swap_characters _ _ rfl (fun _ => rfl)
  rw [if_neg c9]
  by_cases c10 : wc = key.ctrl_w
  · rw [if_pos c10]
    exact op editing_action.erase_previous_word _ _ rfl (fun _ => rfl)
  rw [if_neg c10]
  by_cases c11 : wc = key.ctrl_l
  · rw [if_pos c11]
    exact and_then_on_line_keeps Q r t _ _ hl hclear (fun _ => rfl)
  rw [if_neg c11]
  by_cases c12 : wc = key.tab ∧ (!r.m_masked) = true
  · rw [if_pos c12]
    simp only [hl]
    split_ifs
    · intro h; exact absurd rfl h
    · split
      · intro _; exact ⟨t, rfl, hq⟩
      · rename_i completion _
        exact and_then_on_line_keeps Q _ t (fun l => l.set_line wcwidth9_norm completion) _ rfl
          (hact (editing_action.set_line completion)) (fun _ => rfl)
  rw [if_neg c12]
  by_cases c13 : wc = key.esc
  · rw [if_pos c13]
    exact same _ rfl
  rw [if_neg c13]
  exact op (editing_action.insert_character wc) _ _ rfl (fun _ => rfl)

theorem new_line_view_ok (t : terminal_line) (h : line_invariant t) :
    line_invariant (t.new_line wcwidth9_norm).1
      ∧ (t.new_line wcwidth9_norm).1.m_view_start ≤ (t.new_line wcwidth9_norm).1.m_position :=
  ⟨sync_invariant wcwidth9_norm _ h, sync_view_ok wcwidth9_norm _⟩

theorem clear_screen_view_ok (t : terminal_line) (h : line_invariant t) :
    line_invariant (t.clear_screen wcwidth9_norm).1
      ∧ (t.clear_screen wcwidth9_norm).1.m_view_start
          ≤ (t.clear_screen wcwidth9_norm).1.m_position :=
  ⟨sync_invariant wcwidth9_norm _ h, sync_view_ok wcwidth9_norm _⟩

theorem pop_line_view_ok (t : terminal_line) (h : line_invariant t) :
    line_invariant (t.pop_line wcwidth9_norm).1
      ∧ (t.pop_line wcwidth9_norm).1.m_view_start ≤ (t.pop_line wcwidth9_norm).1.m_position := by
  have h1 := sync_invariant wcwidth9_norm
    { t with m_popped := true, m_hint := t.m_hint.clear } h
  have h2 := sync_view_ok wcwidth9_norm { t with m_popped := true, m_hint := t.m_hint.clear }
  unfold terminal_line.pop_line
  simp only []
  split_ifs
  · exact ⟨h1, h2⟩
  · exact ⟨h1, h2⟩

/-- Every call of `process_single_char` that returns keeps the line invariant and
`m_view_start ≤ cursor`. -/
theorem process_single_char_view_ok (r : line_reader) (t : terminal_line) (c : Nat)
    (hl : r.m_line = some t) (h : line_invariant t) (hv : t.m_view_start ≤ t.m_position)
    (hnr : (r.process_single_char wcwidth9_norm c).2 ≠ step.raised) :
    ∃ t1, (r.process_single_char wcwidth9_norm c).1.m_line = some t1
      ∧ line_invariant t1 ∧ t1.m_view_start ≤ t1.m_position := by
  have key : ∀ (r0 : line_reader) (wc : Nat), r0.m_line = some t →
      (r0.process_code_point wcwidth9_norm wc).2 ≠ step.raised →
      ∃ t1, (r0.process_code_point wcwidth9_norm wc).1.m_line = some t1
        ∧ line_invariant t1 ∧ t1.m_view_start ≤ t1.m_position := by
    intro r0 wc hl0
    exact process_code_point_keeps wcwidth9_norm
      (fun x => line_invariant x ∧ x.m_view_start ≤ x.m_position) r0 t wc hl0 ⟨h, hv⟩
      (fun a hnr1 => ⟨editing_action_invariant wcwidth9_norm t a h,
        editing_action_view_ok wcwidth9_norm t a hv hnr1⟩)
      (fun _ => new_line_view_ok wcwidth9_norm t h)
      (fun _ => clear_screen_view_ok wcwidth9_norm t h)
      (pop_line_view_ok wcwidth9_norm t h)
  cases hw : r.m_decoder.write_char c with
  | none =>
    simp only [line_reader.process_single_char, hw] at hnr
    exact absurd rfl hnr
  | some p =>
    obtain ⟨d, o⟩ := p
    cases o with
    | none =>
      simp only [line_reader.process_single_char, hw]
      exact ⟨t, hl, h, hv⟩
    | some wc =>
      simp only [line_reader.process_single_char, hw] at hnr ⊢
      exact key _ _ hl hnr

/-- Successive calls of `process_single_char` none of which raises keep the line invariant and
`m_view_start ≤ cursor`. -/
theorem feed_view_ok (cs : List Nat) : ∀ (r : line_reader) (t : terminal_line),
    r.m_line = some t → line_invariant t → t.m_view_start ≤ t.m_position →
    step.raised ∉ (r.feed wcwidth9_norm cs).2 →
    ∃ t1, (r.feed wcwidth9_norm cs).1.m_line = some t1
      ∧ line_invariant t1 ∧ t1.m_view_start ≤ t1.m_position := by
  induction cs with
  | nil => intro r t hl h hv _; exact ⟨t, hl, h, hv⟩
  | cons c cs ih =>
    intro r t hl h hv hnr
    simp only [line_reader.feed, List.mem_cons, not_or] at hnr ⊢
    obtain ⟨t1, hl1, h1, hv1⟩ := process_single_char_view_ok wcwidth9_norm r t c hl h hv
      (fun e => hnr.1 e.symm)
    exact ih _ t1 hl1 h1 hv1 hnr.2

/-- The line that `activate` installs satisfies the line invariant and has
`m_view_start ≤ cursor`. -/
theorem activate_view_ok (r : line_reader) (prompt : styled_string) (ws_col : Option Nat)
    (hact : (r.activate wcwidth9_norm prompt ws_col).2 = false) :
    ∃ t, (r.activate wcwidth9_norm prompt ws_col).1.m_line = some t
      ∧ line_invariant t ∧ t.m_view_start ≤ t.m_position := by
  unfold line_reader.activate at hact ⊢
  simp only [] at hact ⊢
  split_ifs at hact ⊢ with hc
  refine ⟨_, rfl, ?_, ?_⟩
  · unfold terminal_line.create
    apply sync_invariant
    exact ⟨⟨rfl, rfl, rfl⟩, Nat.le_refl _⟩
  · unfold terminal_line.create
    exact sync_view_ok wcwidth9_norm _

/-- C27 (amended): on a line that satisfies the line invariant (cursor at most the length `N`),
with a width budget `m_columns` that is not negative, the viewport that `current_state`
computes, with the widths it uses (one column per position when masked), has
`m_view_start ≤ cursor ≤ end ≤ N`; the widths of the positions from `m_view_start` to `end` sum
to at most the budget; the cursor column is the prompt width plus the widths from `m_view_start`
to the cursor, hence at most the prompt width plus the budget.  Consequently, on a line with
`m_view_start ≤ cursor`, the cursor is at most the length and `m_view_start` at most the cursor
after `sync`, after every editing action that ends without an exception, after every call of
`process_single_char` (any byte, any reader whose active line this is: every key, Enter and
Ctrl-L included) that ends without an exception, and after every sequence of such calls none of
which raises; they also hold after every sequence of such calls, none of which raises, that
follows an `activate` that returned. -/
theorem C27_viewport_invariant (t : terminal_line) (h : line_invariant t)
    (hW : 0 ≤ t.m_columns) :
    (t.current_state wcwidth9_norm).1.m_view_start = t.view_bounds.1
      ∧ t.view_bounds.1 ≤ t.m_position ∧ t.m_position ≤ t.view_bounds.2.1
      ∧ t.view_bounds.2.1 ≤ t.m_buf.size
      ∧ columns_of (slice t.view_widths t.view_bounds.1 t.view_bounds.2.1) ≤ t.m_columns
      ∧ (t.current_state wcwidth9_norm).2.column
          = t.m_prompt.m_total_width
            + columns_of (slice t.view_widths t.view_bounds.1 t.m_position)
      ∧ (t.current_state wcwidth9_norm).2.column ≤ t.m_prompt.m_total_width + t.m_columns
      ∧ ((t.sync wcwidth9_norm).1.m_position ≤ (t.sync wcwidth9_norm).1.m_buf.size
          ∧ (t.sync wcwidth9_norm).1.m_view_start ≤ (t.sync wcwidth9_norm).1.m_position)
      ∧ (∀ a : editing_action, t.m_view_start ≤ t.m_position →
          (a.run wcwidth9_norm t).2 = false →
          (a.run wcwidth9_norm t).1.m_position ≤ (a.run wcwidth9_norm t).1.m_buf.size
            ∧ (a.run wcwidth9_norm t).1.m_view_start ≤ (a.run wcwidth9_norm t).1.m_position)
      ∧ (∀ (r : line_reader) (c : Nat), r.m_line = some t → t.m_view_start ≤ t.m_position →
          (r.process_single_char wcwidth9_norm c).2 ≠ step.raised →
          ∃ t1, (r.process_single_char wcwidth9_norm c).1.m_line = some t1
            ∧ t1.m_position ≤ t1.m_buf.size ∧ t1.m_view_start ≤ t1.m_position)
      ∧ (∀ (r : line_reader) (cs : List Nat), r.m_line = some t →
          t.m_view_start ≤ t.m_position → step.raised ∉ (r.feed wcwidth9_norm cs).2 →
          ∃ t1, (r.feed wcwidth9_norm cs).1.m_line = some t1
            ∧ t1.m_position ≤ t1.m_buf.size ∧ t1.m_view_start ≤ t1.m_position)
      ∧ ∀ (r : line_reader) (prompt : styled_string) (ws_col : Option Nat) (cs : List Nat),
          (r.activate wcwidth9_norm prompt ws_col).2 = false →
          step.raised ∉ ((r.activate wcwidth9_norm prompt ws_col).1.feed wcwidth9_norm cs).2 →
          ∃ t1, ((r.activate wcwidth9_norm prompt ws_col).1.feed wcwidth9_norm cs).1.m_line
              = some t1
            ∧ t1.m_position ≤ t1.m_buf.size ∧ t1.m_view_start ≤ t1.m_position := by
  obtain ⟨v1, v2, v3, v4, v5⟩ := view_bounds_spec t h.1.1 h.2
  have hcol : columns_of (slice t.view_widths t.view_bounds.1 t.m_position)
      ≤ columns_of (slice t.view_widths t.view_bounds.1 t.view_bounds.2.1) := by
    rw [slice_append t.view_widths _ t.m_position _ v1 v2, columns_of_append]
    have := columns_of_nonneg (slice t.view_widths t.m_position t.view_bounds.2.1)
    omega
  have hsum := v5 hW
  rw [v4] at hsum
  refine ⟨rfl, v1, v2, v3, hsum, rfl, ?_, ⟨(sync_invariant wcwidth9_norm t h).2,
    sync_view_ok wcwidth9_norm t⟩, ?_, ?_, ?_, ?_⟩
  · rw [(current_state_view wcwidth9_norm t).2]
    omega
  · intro a hv hnr
    exact ⟨(editing_action_invariant wcwidth9_norm t a h).2,
      editing_action_view_ok wcwidth9_norm t a hv hnr⟩
  · intro r c hl hv hnr
    obtain ⟨t1, hl1, h1, hv1⟩ := process_single_char_view_ok wcwidth9_norm r t c hl h hv hnr
    exact ⟨t1, hl1, h1.2, hv1⟩
  · intro r cs hl hv hnr
    obtain ⟨t1, hl1, h1, hv1⟩ := feed_view_ok wcwidth9_norm cs r t hl h hv hnr
    exact ⟨t1, hl1, h1.2, hv1⟩
  · intro r prompt ws_col cs hact hnr
    obtain ⟨t0, hl0, h0, hv0⟩ := activate_view_ok wcwidth9_norm r prompt ws_col hact
    obtain ⟨t1, hl1, h1, hv1⟩ := feed_view_ok wcwidth9_norm cs _ t0 hl0 h0 hv0 hnr
    exact ⟨t1, hl1, h1.2, hv1⟩

end

section
variable (wcwidth9_norm : Nat → Nat)

end

section
variable (wcwidth9_norm : Nat → Nat)

end

theorem move_cursor_to_snd (fd : output_fd) (column prev : Int) :
    (move_cursor_to fd column prev).2 = column := by
  unfold move_cursor_to
  simp only []
  split_ifs <;> rfl

section
variable (wcwidth9_norm : Nat → Nat)

end

/-- C21, at the failing input: the last frame of the line `wide_line` is `> a` followed by
U+5168 (two columns), total width 5; `set_line` with `bc` gives the target frame `> bc`, total
width 4, with the same number of code points.  The sync moves three columns to the left and
writes `bc`; it writes no CSI K (`ESC [ K`), so the fifth column is not erased. -/
theorem C21_no_erase_when_last_code_point_was_wider :
    wide_line.m_prev.buf.m_buf = [62, 32, 97, 0x5168]
      ∧ wide_line.m_prev.buf.m_total_width = 5
      ∧ (wide_line.set_line wide_width [98, 99]).2 = false
      ∧ (wide_line.set_line wide_width [98, 99]).1.m_prev.buf.m_buf = [62, 32, 98, 99]
      ∧ (wide_line.set_line wide_width [98, 99]).1.m_prev.buf.m_total_width = 4
      ∧ (wide_line.set_line wide_width [98, 99]).1.m_fd.written
          = wide_line.m_fd.written ++ [27, 91, 51, 68, 98, 99] := by
  decide

/-- C23, at the failing input: the sequence that switches from the default style to a style with
the palette background 4 is `ESC [ 0 ; 3 8 ; 5 ; 4 m`, and to a style with the RGB background
(1, 2, 3) it is `ESC [ 0 ; 3 8 ; 2 ; 1 ; 2 ; 3 m`: the background is written with the selector
38 of the foreground, not with 48 (`4 8` would be the bytes 52 56). -/
theorem C23_background_is_written_with_selector_38 :
    (style_impl.switch_to (style_impl.of_style {})
        (style_impl.of_style { bg := color.palette 4 })).1
        = [27, 91, 48, 59, 51, 56, 59, 53, 59, 52, 109]
      ∧ (style_impl.switch_to (style_impl.of_style {})
          (style_impl.of_style { bg := color.rgb 1 2 3 })).1
        = [27, 91, 48, 59, 51, 56, 59, 50, 59, 49, 59, 50, 59, 51, 109]
      ∧ (style_impl.switch_to (style_impl.of_style {})
          (style_impl.of_style { bg := color.palette 4 })).1
        = (style_impl.switch_to (style_impl.of_style {})
          (style_impl.of_style { fg := color.palette 4 })).1
      ∧ (style_impl.switch_to (style_impl.of_style {})
          (style_impl.of_style { bg := color.palette 4 })).1
        ≠ [27, 91, 48, 59, 52, 56, 59, 53, 59, 52, 109] := by
  decide

set_option maxRecDepth 100000 in
/-- C24, at the failing input: on the masked line `masked_line_8` (prompt of width 2, budget
`m_columns = 7`, eight positions, cursor at the end) the viewport is `[1, 8)`, seven positions,
but the frame of `current_state` holds the prompt and eight `*`: its total width 10 exceeds the
prompt width plus the budget, 9. -/
theorem C24_masked_frame_holds_a_star_for_every_position :
    masked_line_8.m_masked = true ∧ masked_line_8.m_columns = 7
      ∧ masked_line_8.m_buf.size = 8 ∧ masked_line_8.m_position = 8
      ∧ masked_line_8.m_prompt.m_total_width = 2
      ∧ masked_line_8.view_bounds = (1, 8, 7)
      ∧ (masked_line_8.current_state (fun _ => 1)).1.m_view_start = 1
      ∧ (masked_line_8.current_state (fun _ => 1)).2.buf.m_buf
          = [62, 32, 42, 42, 42, 42, 42, 42, 42, 42]
      ∧ (masked_line_8.current_state (fun _ => 1)).2.buf.m_total_width = 10
      ∧ (masked_line_8.current_state (fun _ => 1)).2.column = 9 := by
  decide

/-- C26, at the failing input: `a` and `b` are the one-code-point buffers made from `a` and `b`;
both satisfy the buffer invariant.  The sum `a + b` has two code points and two widths but only
one style, the one of `b`; the in-place form `a += b` has two of each. -/
theorem C26_binary_concatenation_drops_left_styles :
    buffer_invariant (terminal_string.of_u32 (fun _ => 1) [97] { bold := true })
      ∧ buffer_invariant (terminal_string.of_u32 (fun _ => 1) [98])
      ∧ ((terminal_string.of_u32 (fun _ => 1) [97] { bold := true }).plus
          (terminal_string.of_u32 (fun _ => 1) [98])).m_buf = [97, 98]
      ∧ ((terminal_string.of_u32 (fun _ => 1) [97] { bold := true }).plus
          (terminal_string.of_u32 (fun _ => 1) [98])).m_width = [1, 1]
      ∧ ((terminal_string.of_u32 (fun _ => 1) [97] { bold := true }).plus
          (terminal_string.of_u32 (fun _ => 1) [98])).m_style = [style_impl.of_style {}]
      ∧ ((terminal_string.of_u32 (fun _ => 1) [97] { bold := true }).append
          (terminal_string.of_u32 (fun _ => 1) [98])).m_style
          = [style_impl.of_style { bold := true }, style_impl.of_style {}] := by
  unfold buffer_invariant
  decide

set_option maxRecDepth 100000 in
/-- C30, at the failing input: a reader with `default_options` reads `ab` and `cd` (each
committed by Enter and added to the history); in the third read Up is pressed and then Ctrl-C.
When that read has ended the navigation index is 1, not 0.  In the next read the buffer is
empty; the first Up gives the buffer `ab`, not the most recent entry `cd`, and the committed
entry `cd` has received the empty text as edited overlay. -/
theorem C30_ctrl_c_leaves_navigation_index :
    interrupted_reader.m_line.isNone = true
      ∧ interrupted_reader.m_history.m_history
          = [{}, { original := [99, 100] }, { original := [97, 98] }]
      ∧ interrupted_reader.m_history.m_index = 1
      ∧ (interrupted_reader.getline (fun _ => 1) sample_prompt (some 80) []).1.buffer = some []
      ∧ (interrupted_reader.getline (fun _ => 1) sample_prompt (some 80) []).1.m_history.m_index
          = 1
      ∧ (interrupted_reader.getline (fun _ => 1) sample_prompt (some 80) [27, 91, 65]).1.buffer
          = some [97, 98]
      ∧ (interrupted_reader.getline (fun _ => 1) sample_prompt (some 80)
            [27, 91, 65]).1.m_history.m_history
          = [{}, { original := [99, 100], edited := some [] }, { original := [97, 98] }] := by
  decide

set_option maxRecDepth 100000 in
/-- C27 (amended) at the masked line `masked_line_8` (budget 7, eight positions, cursor at the
end): the viewport is `[1, 8)` and the cursor column 9 is at most the prompt width 2 plus the
budget. -/
theorem C27_viewport_invariant_witness :
    (line_invariant masked_line_8 ∧ 0 ≤ masked_line_8.m_columns)
      ∧ masked_line_8.view_bounds = (1, 8, 7)
      ∧ (masked_line_8.current_state (fun _ => 1)).2.column
          ≤ masked_line_8.m_prompt.m_total_width + masked_line_8.m_columns :=
  ⟨⟨by unfold line_invariant buffer_invariant; decide, by decide⟩, by decide,
    (C27_viewport_invariant (fun _ => 1) masked_line_8
      (by unfold line_invariant buffer_invariant; decide) (by decide)).2.2.2.2.2.2.1⟩

set_option maxRecDepth 100000 in
/-- C27, counterexample: the reader `narrow_failing_hint_reader` has 10 columns and a hint
callback that answers the byte FF for the empty line.  Twelve times `a` are handled without an
exception and leave the cursor at 12 with `m_view_start = 5`.  Ctrl-U then empties the buffer
and sets the cursor to 0; the hint callback is asked for the empty line, `decode_utf8` raises on
its answer before `sync` is reached, and the line is left with `m_view_start = 5` above the
cursor 0. -/
theorem C27_ctrl_u_leaves_view_start_above_cursor :
    (narrow_failing_hint_reader.feed (fun _ => 1) (List.replicate 12 97)).2
        = List.replicate 12 step.pending
      ∧ (narrow_failing_hint_reader.feed (fun _ => 1) (List.replicate 12 97)).1.m_line.map
          (fun t => (t.m_buf.m_buf, t.m_position, t.m_view_start))
        = some (List.replicate 12 97, 12, 5)
      ∧ ((narrow_failing_hint_reader.feed (fun _ => 1)
            (List.replicate 12 97)).1.process_single_char (fun _ => 1) 21).2 = step.raised
      ∧ ((narrow_failing_hint_reader.feed (fun _ => 1)
            (List.replicate 12 97)).1.process_single_char (fun _ => 1) 21).1.m_line.map
          (fun t => (t.m_buf.m_buf, t.m_position, t.m_view_start))
        = some ([], 0, 5) := by
  decide

set_option maxRecDepth 100000 in
/-- C31, at the failing input: the overloads `getline(std::string_view)` and
`getline_nonblocking(std::string_view)` call themselves, so for no reader, prompt, input and
nesting depth does the call return.  The overloads for `const styled_string&` return on the same
input: with `styled_string("> ")` on a freshly constructed reader `getline` returns the line
`ab` for the bytes `a`, `b`, Enter, and `getline_nonblocking` returns the empty optional for the
byte `a`. -/
theorem C31_string_view_overloads_never_return :
    (∀ (depth : Nat) (r : line_reader) (p input : List Nat),
        line_reader.getline_sv depth r p input = none)
      ∧ (∀ (depth : Nat) (r : line_reader) (p input : List Nat),
          line_reader.getline_nonblocking_sv depth r p input = none)
      ∧ styled_string.of_string (fun _ => 1) [62, 32] = some sample_prompt
      ∧ ((line_reader.create default_options).getline (fun _ => 1) sample_prompt (some 80)
          [97, 98, 13]).2 = (step.committed ⟨Sum.inl [97, 98]⟩, [])
      ∧ ((line_reader.create default_options).getline_nonblocking (fun _ => 1) sample_prompt
          (some 80) [97]).2 = (step.pending, []) := by
  refine ⟨?_, ?_, by decide, by decide, by decide⟩
  · intro depth
    induction depth with
    | zero => intro r p input; rfl
    | succ n ih => intro r p input; exact ih r p input
  · intro depth
    induction depth with
    | zero => intro r p input; rfl
    | succ n ih => intro r p input; exact ih r p input

/-- C32, at the failing input: the const overloads of `value()`, `operator*`, `operator->` and
`error()` call themselves, so for no line and nesting depth does the call return; the non-const
accessors return: `value()` the held string `ab`, or `bad_line_access` for a line holding an
error, `operator*` and `operator->` the held string, `error()` the held error. -/
theorem C32_const_accessors_never_return :
    (∀ (depth : Nat) (l : line), line.value_const depth l = none)
      ∧ (∀ (depth : Nat) (l : line), line.deref_const depth l = none)
      ∧ (∀ (depth : Nat) (l : line), line.arrow_const depth l = none)
      ∧ (∀ (depth : Nat) (l : line), line.error_const depth l = none)
      ∧ line.value ⟨Sum.inl [97, 98]⟩ = Except.ok [97, 98]
      ∧ line.value ⟨Sum.inr line_error.ctrl_c⟩ = Except.error bad_line_access.mk
      ∧ line.deref ⟨Sum.inl [97, 98]⟩ = some [97, 98]
      ∧ line.arrow ⟨Sum.inl [97, 98]⟩ = some [97, 98]
      ∧ line.error ⟨Sum.inr line_error.ctrl_c⟩ = some line_error.ctrl_c := by
  refine ⟨?_, ?_, ?_, ?_, rfl, rfl, rfl, rfl, rfl⟩
  · intro depth
    induction depth with
    | zero => intro l; rfl
    | succ n ih => intro l; exact ih l
  · intro depth
    induction depth with
    | zero => intro l; rfl
    | succ n ih => intro l; exact ih l
  · intro depth
    induction depth with
    | zero => intro l; rfl
    | succ n ih => intro l; exact ih l
  · intro depth
    induction depth with
    | zero => intro l; rfl
    | succ n ih => intro l; exact ih l

end detail
end lined
